import Mathlib

/-!
The channel of cliptun, `channel/channel.go`.

A shallow embedding of the packet type, the two packet buffers and the body of
`handleClipboardLoop`, followed by the properties of the reliable-delivery
protocol that are established about them.

Conventions of the embedding

* A Go `string` is a sequence of bytes: `GoString := List Byte`.
* Go's `int` is embedded as `Int`.  The loop counters start at `-1` and move by
  one per polling interval, so they stay far inside the 64-bit range and no
  operation of the loop on them wraps.
* A Go `map[int]CBPacket` is an association list with at most one entry per
  key; reading a missing key yields the zero packet, as in Go.
* Channels are embedded by their contents (`sendChan`) or by the events their
  operations produce (`receiveChan`).
-/

namespace Cliptun

/-! ## Data model -/

/-- One byte of a Go string or byte slice. -/
abbrev Byte := Fin 256

/-- A Go `string` (equally a `[]byte`): a finite sequence of bytes. -/
abbrev GoString := List Byte

/-- Constant `QueueSize` of channel.go. -/
def QueueSize : Int := 16

/-- Constant `PacketTypeData` (`iota` = 0) of type `CBPacketType`, a Go `int`. -/
def PacketTypeData : Int := 0

/-- Constant `PacketTypeControl` (`iota` = 1). -/
def PacketTypeControl : Int := 1

/-- Constant `CLIENT` (`iota` = 0) of type `PeerType`, a Go `int`. -/
def CLIENT : Int := 0

/-- Constant `SERVER` (`iota` = 1). -/
def SERVER : Int := 1

/-- The struct `CBPacket`.  The field `Type` of the source is called `Typ`. -/
structure CBPacket where
  Target : Int
  Typ : Int
  Payload : GoString
  Seq : Int
  Ack : Int
deriving DecidableEq, Repr

/-- The zero value `CBPacket{}`. -/
def CBPacket.zero : CBPacket :=
  { Target := 0, Typ := 0, Payload := [], Seq := 0, Ack := 0 }

/-- A Go `map[int]CBPacket`. -/
abbrev PacketMap := List (Int × CBPacket)

/-- The lookup `v, ok := m[k]`. -/
def PacketMap.lookup (m : PacketMap) (k : Int) : Option CBPacket :=
  match m with
  | [] => none
  | (k', v) :: rest => if k' = k then some v else PacketMap.lookup rest k

/-- The expression `m[k]`: the zero packet when the key is missing. -/
def PacketMap.get (m : PacketMap) (k : Int) : CBPacket :=
  (m.lookup k).getD CBPacket.zero

/-- The statement `delete(m, k)`. -/
def PacketMap.delete (m : PacketMap) (k : Int) : PacketMap :=
  m.filter (fun e => decide (e.1 ≠ k))

/-- The statement `m[k] = v`. -/
def PacketMap.set (m : PacketMap) (k : Int) (v : CBPacket) : PacketMap :=
  (k, v) :: m.delete k

/-- The keys present in the map. -/
def PacketMap.keys (m : PacketMap) : List Int :=
  m.map Prod.fst

/-! ## The packet codec -/

/-- A Go `error` value; `nil` is `none` of `Option GoError`. -/
inductive GoError where
  /-- A `base64.CorruptInputError` with its input offset. -/
  | corruptInput (offset : Nat)
  /-- An error made by `fmt.Errorf`, with the constant part of its message. -/
  | errorf (msg : String)
deriving DecidableEq, Repr

/-- A `[24]byte` nonce. -/
abbrev Nonce := { l : GoString // l.length = 24 }

/-- A `[32]byte` key. -/
abbrev Key := { l : GoString // l.length = 32 }

/-- The alphabet of `base64.StdEncoding`: the character of a 6-bit value. -/
def encodeStd (v : Nat) : Byte :=
  let s := v % 64
  if s < 26 then Fin.ofNat (65 + s)
  else if s < 52 then Fin.ofNat (97 + (s - 26))
  else if s < 62 then Fin.ofNat (48 + (s - 52))
  else if s = 62 then 43
  else 47

/-- The table `decodeMap` of `base64.StdEncoding`: the 6-bit value of a
character of the alphabet, `none` (0xff in the library) for any other byte. -/
def decodeMap (b : Byte) : Option Nat :=
  if 65 ≤ b.val ∧ b.val ≤ 90 then some (b.val - 65)
  else if 97 ≤ b.val ∧ b.val ≤ 122 then some (b.val - 97 + 26)
  else if 48 ≤ b.val ∧ b.val ≤ 57 then some (b.val - 48 + 52)
  else if b.val = 43 then some 62
  else if b.val = 47 then some 63
  else none

/-- The method `base64.StdEncoding.EncodeToString`: three bytes give four
characters, a rest of one or two bytes is padded with `'='` (byte 61). -/
def base64Encode : GoString → GoString
  | [] => []
  | [b0] =>
    let val := b0.val * 65536
    [encodeStd (val / 262144), encodeStd (val / 4096), 61, 61]
  | [b0, b1] =>
    let val := b0.val * 65536 + b1.val * 256
    [encodeStd (val / 262144), encodeStd (val / 4096), encodeStd (val / 64), 61]
  | b0 :: b1 :: b2 :: rest =>
    let val := b0.val * 65536 + b1.val * 256 + b2.val
    encodeStd (val / 262144) :: encodeStd (val / 4096) :: encodeStd (val / 64) ::
      encodeStd val :: base64Encode rest

/-- The bytes that `decodeQuantum` stores for the 6-bit values `dbuf`
(`dlen = dbuf.length`, between 2 and 4): `dlen - 1` bytes of the 24-bit value. -/
def quantumBytes (dbuf : List Nat) : GoString :=
  let val := dbuf.getD 0 0 * 262144 + dbuf.getD 1 0 * 4096 + dbuf.getD 2 0 * 64 + dbuf.getD 3 0
  ([Fin.ofNat (val / 65536), Fin.ofNat (val / 256), Fin.ofNat val] : GoString).take
    (dbuf.length - 1)

/-- The loop `for si < len(src) && (src[si] == '\n' || src[si] == '\r') { si++ }`
of `decodeQuantum`: the input left and the number of bytes skipped. -/
def skipNewlines : GoString → GoString × Nat
  | [] => ([], 0)
  | b :: rest =>
    if b = 10 ∨ b = 13 then ((skipNewlines rest).1, (skipNewlines rest).2 + 1)
    else (b :: rest, 0)

/-- The method `Decode` of `base64.StdEncoding` (padding `'='`, not strict), as
the repeated `decodeQuantum` it amounts to.  `dbuf` holds the 6-bit values of
the quantum in progress, `src` is the input from offset `si` on.  Returns the
bytes decoded and the error. -/
def base64DecodeFrom (dbuf : List Nat) : GoString → Nat → GoString × Option GoError
  | [], si =>
    if dbuf.length = 0 then ([], none)
    else ([], some (GoError.corruptInput (si - dbuf.length)))
  | b :: rest, si =>
    match decodeMap b with
    | some out =>
      if dbuf.length = 3 then
        (quantumBytes (dbuf ++ [out]) ++ (base64DecodeFrom [] rest (si + 1)).1,
          (base64DecodeFrom [] rest (si + 1)).2)
      else base64DecodeFrom (dbuf ++ [out]) rest (si + 1)
    | none =>
      if b = 10 ∨ b = 13 then base64DecodeFrom dbuf rest (si + 1)
      else if b ≠ 61 then ([], some (GoError.corruptInput si))
      else if dbuf.length < 2 then ([], some (GoError.corruptInput si))
      else if dbuf.length = 2 then
        match skipNewlines rest with
        | ([], k) => ([], some (GoError.corruptInput (si + 1 + k)))
        | (b2 :: rest2, k) =>
          if b2 ≠ 61 then ([], some (GoError.corruptInput (si + 1 + k - 1)))
          else
            match skipNewlines rest2 with
            | ([], _) => (quantumBytes dbuf, none)
            | (_ :: _, k2) =>
              (quantumBytes dbuf, some (GoError.corruptInput (si + 1 + k + 1 + k2)))
      else
        match skipNewlines rest with
        | ([], _) => (quantumBytes dbuf, none)
        | (_ :: _, k) => (quantumBytes dbuf, some (GoError.corruptInput (si + 1 + k)))

/-- The method `base64.StdEncoding.DecodeString`. -/
def base64DecodeString (s : GoString) : GoString × Option GoError :=
  base64DecodeFrom [] s 0

/-- The library functions the codec calls that are not part of the repository:
`encoding/gob`, `compress/zlib` and `nacl/secretbox`. -/
structure CodecLib where
  /-- The bytes `gob.NewEncoder(w).Encode(p)` writes to `w`, `none` for an error. -/
  gobEncode : CBPacket → Option GoString
  /-- The packet `gob.NewDecoder(r).Decode(&p)` reads from the bytes of `r`. -/
  gobDecode : GoString → Option CBPacket
  /-- The bytes a `zlib.Writer` has emitted for its input once closed. -/
  zlibCompress : GoString → GoString
  /-- The data a `zlib.NewReader` yields for a stream, `none` for an error. -/
  zlibReader : GoString → Option GoString
  /-- The box (tag and ciphertext) that `secretbox.Seal` appends to `out`. -/
  secretboxSeal : GoString → Nonce → Key → GoString
  /-- The message `secretbox.Open` returns for a box, `none` for `ok == false`. -/
  secretboxOpen : GoString → Nonce → Key → Option GoString

/-- The contracts of the library functions that the codec relies on: gob
encodes every packet and decodes what it encoded, a zlib reader yields what
the writer was given, and a box opens under the nonce and key it was sealed
with. -/
structure CodecLib.Lawful (L : CodecLib) : Prop where
  gob_total : ∀ p, L.gobEncode p ≠ none
  gob_inverse : ∀ p b, L.gobEncode p = some b → L.gobDecode b = some p
  zlib_inverse : ∀ b, L.zlibReader (L.zlibCompress b) = some b
  secretbox_inverse : ∀ m n k, L.secretboxOpen (L.secretboxSeal m n k) n k = some m

/-- Method `packet2string`.  `rnd` is what `io.ReadFull(rand.Reader, nonce[:])`
produced, `none` when it failed. -/
def packet2string (L : CodecLib) (secretKey : Key) (p : CBPacket) (rnd : Option Nonce) :
    GoString × Option GoError :=
  match L.gobEncode p with
  | none => ([], some (GoError.errorf "packet2string: cannot encode data"))
  | some enc =>
    let b := L.zlibCompress enc
    match rnd with
    | none => ([], some (GoError.errorf "packet2string: cannot get random bytes for nonce"))
    | some nonce =>
      let encrypted := nonce.val ++ L.secretboxSeal b nonce secretKey
      (base64Encode encrypted, none)

/-- The copy `copy(decryptNonce[:], buf[:24])` for a buffer of at least 24 bytes. -/
def nonceOf (buf : GoString) (h : ¬ buf.length < 24) : Nonce :=
  ⟨buf.take 24, by simp [List.length_take]; omega⟩

/-- Method `string2packet`. -/
def string2packet (L : CodecLib) (secretKey : Key) (s : GoString) : CBPacket × Option GoError :=
  let buf := (base64DecodeString s).1
  let err := (base64DecodeString s).2
  if h : err ≠ none ∨ buf.length < 24 then (CBPacket.zero, err)
  else
    let decryptNonce := nonceOf buf (fun hlt => h (Or.inr hlt))
    match L.secretboxOpen (buf.drop 24) decryptNonce secretKey with
    | none => (CBPacket.zero, some (GoError.errorf "string2packet: cannot decrypt packet"))
    | some decrypted =>
      match L.zlibReader decrypted with
      | none => (CBPacket.zero, some (GoError.errorf "string2packet: cannot decompress packet"))
      | some rz =>
        match L.gobDecode rz with
        | none => (CBPacket.zero, some (GoError.errorf "string2packet: cannot decode packet"))
        | some p => (p, none)

/-! ## The clipboard transport -/

/-- The decimal digits of `n`, most significant first, put in front of `acc`;
`fuel` bounds the number of digits. -/
def decimalDigits : Nat → Nat → GoString → GoString
  | 0, _, acc => acc
  | fuel + 1, n, acc =>
    if n / 10 = 0 then Fin.ofNat (48 + n % 10) :: acc
    else decimalDigits fuel (n / 10) (Fin.ofNat (48 + n % 10) :: acc)

/-- The call `strconv.FormatInt(i, 10)`. -/
def FormatInt (i : Int) : GoString :=
  if i < 0 then 45 :: decimalDigits (i.natAbs + 1) i.natAbs []
  else decimalDigits (i.natAbs + 1) i.natAbs []

/-- Method `Clipboard.Reset`: the string it writes to the clipboard, `now` being
`time.Now().UnixNano()`. -/
def Clipboard.Reset (now : Int) : GoString :=
  FormatInt now

/-! ## The channel loop -/

/-- The immutable part of a `Channel` that the loop reads. -/
structure Channel where
  /-- Field `c.interval`, in nanoseconds. -/
  interval : Int
  ownHeader : Int
  peerHeader : Int
  secretKey : Key
  /-- Whether `c.controlPacketCallback != nil`. -/
  hasCallback : Bool
deriving DecidableEq, Repr

/-- The mutable state of `handleClipboardLoop`: its local variables, the two
maps of the channel, the contents of the buffered `c.sendChan` and whether the
`sync.Once` of `initiateDelayedShutdown` has fired. -/
structure LoopState where
  lastRecvIndex : Int
  lastSendIndex : Int
  lastAckReceived : Int
  lastAcked : Int
  lastRecvTime : Int
  lastSendTime : Int
  receiveQueue : PacketMap
  sendQueue : PacketMap
  sendChan : List CBPacket
  delayedShutdown : Bool
deriving DecidableEq, Repr

/-- What the loop does to the world outside its own variables. -/
inductive Event where
  /-- The assignment `c.receiveQueue[lastRecvIndex] = packet` of an accepted packet. -/
  | accepted (p : CBPacket)
  /-- The send `c.receiveChan <- packet` completed: a `Receive()` returns the payload. -/
  | deliver (p : CBPacket)
  /-- The call `c.controlPacketCallback(cmd, arg)`. -/
  | callback (cmd arg : GoString)
  /-- The goroutine of `initiateDelayedShutdown` was started. -/
  | scheduleShutdown
  /-- The call `c.shutdown()`. -/
  | shutdown
  /-- The call `c.transport.Reset()`. -/
  | reset
  /-- The assignment `c.sendQueue[lastSendIndex] = cbdata` of a new packet. -/
  | queued (p : CBPacket)
  /-- The call `c.transport.Write(s)` where `s` was returned by `packet2string(p)`;
  `retransmit` tells the resync branch from the send of a new packet. -/
  | write (p : CBPacket) (s : GoString) (retransmit : Bool)
deriving DecidableEq, Repr

/-- How a piece of the loop body ends. -/
inductive Status where
  /-- Control reaches the end of the piece. -/
  | running
  /-- The process exited through `os.Exit`. -/
  | exited
  /-- A nil function value was called. -/
  | panicked
  /-- The goroutine waits on a channel operation that nobody completes. -/
  | blocked
deriving DecidableEq, Repr

/-- State, events and status after a piece of the loop body. -/
structure Outcome where
  st : LoopState
  events : List Event
  status : Status
deriving DecidableEq, Repr

/-- The call `strings.SplitN(s, ":", 2)` followed by the selection of `cmd` and
`arg` in `processControlPacket`: the part before the first `':'` (byte 58) and
the part after it, `""` when there is no `':'`. -/
def splitCmdArg : GoString → GoString × GoString
  | [] => ([], [])
  | b :: rest =>
    if b = 58 then ([], rest)
    else ((splitCmdArg rest).1 |>.cons b, (splitCmdArg rest).2)

/-- The bytes of an ASCII string literal. -/
def ascii (s : String) : GoString :=
  s.data.map (fun ch => Fin.ofNat ch.toNat)

/-- Method `sendControl`: the send `c.sendChan <- CBPacket{...}` on a channel
of capacity `QueueSize`.  When the buffer is full the calling goroutine waits;
called from the loop, which is the only receiver, it waits forever. -/
def sendControl (c : Channel) (st : LoopState) (msg : GoString) : LoopState × Status :=
  if (st.sendChan.length : Int) < QueueSize then
    ({ st with sendChan := st.sendChan ++
        [{ Target := c.peerHeader, Typ := PacketTypeControl, Payload := msg, Seq := 0, Ack := 0 }] },
      Status.running)
  else (st, Status.blocked)

/-- Method `initiateDelayedShutdown`: starts the delayed shutdown once. -/
def initiateDelayedShutdown (st : LoopState) : LoopState × List Event :=
  if st.delayedShutdown then (st, [])
  else ({ st with delayedShutdown := true }, [Event.scheduleShutdown])

/-- Method `processControlPacket`.  `cmd` and `arg` are the two components of
`splitCmdArg packet.Payload`. -/
def processControlPacket (c : Channel) (st : LoopState) (packet : CBPacket) : Outcome :=
  if packet.Typ = PacketTypeControl then
    if (splitCmdArg packet.Payload).1 = ascii "FIN" then
      if (sendControl c st (ascii "FIN-ACK")).2 = Status.running then
        { st := (initiateDelayedShutdown (sendControl c st (ascii "FIN-ACK")).1).1
          events := (initiateDelayedShutdown (sendControl c st (ascii "FIN-ACK")).1).2
          status := Status.running }
      else
        { st := (sendControl c st (ascii "FIN-ACK")).1, events := [],
          status := (sendControl c st (ascii "FIN-ACK")).2 }
    else if (splitCmdArg packet.Payload).1 = ascii "FIN-ACK" then
      { st := st, events := [Event.shutdown], status := Status.exited }
    else if c.hasCallback then
      { st := st
        events := [Event.callback (splitCmdArg packet.Payload).1 (splitCmdArg packet.Payload).2]
        status := Status.running }
    else
      { st := st, events := [], status := Status.panicked }
  else { st := st, events := [], status := Status.running }

/-- Lines 346-348 of `handleClipboardLoop`: a larger `Ack` is noted. -/
def noteAck (st : LoopState) (packet : CBPacket) : LoopState :=
  if packet.Ack > st.lastAckReceived then { st with lastAckReceived := packet.Ack } else st

/-- Lines 350-364 of `handleClipboardLoop`: the body of `if idx == lastRecvIndex+1`.
`now` is the clock read for `lastRecvTime`; `consumer` tells whether the
application takes the packet from the unbuffered `c.receiveChan` (for the
blocking send: whether `Receive()` is called at all; for the `select`: whether
a `Receive()` is pending). -/
def acceptPacket (c : Channel) (st : LoopState) (packet : CBPacket) (now : Int)
    (consumer : Bool) : Outcome :=
  let st4 : LoopState :=
    { st with
      lastRecvIndex := st.lastRecvIndex + 1
      receiveQueue := st.receiveQueue.set (st.lastRecvIndex + 1) packet
      lastRecvTime := now }
  if packet.Typ = PacketTypeControl then
    { st := (processControlPacket c st4 packet).st
      events := Event.accepted packet :: (processControlPacket c st4 packet).events
      status := (processControlPacket c st4 packet).status }
  else if packet.Payload ≠ [] then
    if consumer then
      { st := st4, events := [Event.accepted packet, Event.deliver packet],
        status := Status.running }
    else { st := st4, events := [Event.accepted packet], status := Status.blocked }
  else
    if consumer then
      { st := st4, events := [Event.accepted packet, Event.deliver packet],
        status := Status.running }
    else { st := st4, events := [Event.accepted packet], status := Status.running }

/-- Lines 344-370 of `handleClipboardLoop`: what the loop does with a packet
that `string2packet` returned without error. -/
def recvPacket (c : Channel) (st : LoopState) (packet : CBPacket) (now : Int)
    (consumer : Bool) : Outcome :=
  if packet.Target = c.ownHeader then
    if packet.Seq = (noteAck st packet).lastRecvIndex + 1 then
      acceptPacket c (noteAck st packet) packet now consumer
    else { st := noteAck st packet, events := [], status := Status.running }
  else { st := st, events := [], status := Status.running }

/-- What one iteration of the loop takes from outside. -/
structure Input where
  /-- The string returned by `c.transport.Read()`. -/
  content : GoString
  /-- Whether the application takes a packet offered on `c.receiveChan`. -/
  consumer : Bool
  /-- The clock read for `lastRecvTime` (line 352). -/
  nowRecv : Int
  /-- The clock read by the stall test (line 375). -/
  nowCheck : Int
  /-- The clock read for `lastSendTime` (lines 382 and 433). -/
  nowSend : Int
  /-- The bytes read from `rand.Reader` by `packet2string`, `none` on failure. -/
  rnd : Option Nonce

/-- The state at the first iteration: the declarations at the top of
`handleClipboardLoop` and the empty maps and channel made by `NewChannel`;
`now` is the clock at the start of the loop. -/
def LoopState.init (now : Int) : LoopState :=
  { lastRecvIndex := -1, lastSendIndex := -1, lastAckReceived := -1, lastAcked := -1,
    lastRecvTime := now, lastSendTime := now, receiveQueue := [], sendQueue := [],
    sendChan := [], delayedShutdown := false }

/-- Lines 338-371 of `handleClipboardLoop`: the slot value is decoded and, when
that gives no error, handled by `recvPacket`. -/
def recvPhase (L : CodecLib) (c : Channel) (st : LoopState) (inp : Input) : Outcome :=
  if inp.content ≠ [] then
    if (string2packet L c.secretKey inp.content).2 ≠ none then
      { st := st, events := [], status := Status.running }
    else recvPacket c st (string2packet L c.secretKey inp.content).1 inp.nowRecv inp.consumer
  else { st := st, events := [], status := Status.running }

/-- Lines 383-391 and 422-431: the packet is encoded and, when that gives no
error, written to the transport. -/
def writePacket (L : CodecLib) (c : Channel) (p : CBPacket) (rnd : Option Nonce)
    (retransmit : Bool) : List Event :=
  if (packet2string L c.secretKey p rnd).2 = none then
    [Event.write p (packet2string L c.secretKey p rnd).1 retransmit]
  else []

/-- Lines 417-441 of `handleClipboardLoop`: `cbdata` gets the next sequence
number and the current acknowledgement, is stored and written, and both maps
are trimmed. -/
def sendNew (L : CodecLib) (c : Channel) (st : LoopState) (cbdata : CBPacket) (inp : Input) :
    Outcome :=
  let lastSendIndex := st.lastSendIndex + 1
  let cbdata1 : CBPacket := { cbdata with Seq := lastSendIndex, Ack := st.lastRecvIndex }
  let sendQueue1 := st.sendQueue.set lastSendIndex cbdata1
  { st :=
      { st with
        lastSendIndex := lastSendIndex
        lastAcked := st.lastRecvIndex
        lastSendTime := inp.nowSend
        receiveQueue :=
          if st.lastRecvIndex ≥ QueueSize then
            st.receiveQueue.delete (st.lastRecvIndex - QueueSize)
          else st.receiveQueue
        sendQueue :=
          if lastSendIndex ≥ QueueSize then sendQueue1.delete (lastSendIndex - QueueSize)
          else sendQueue1 }
    events := Event.queued cbdata1 :: writePacket L c cbdata1 inp.rnd false
    status := Status.running }

/-- Lines 374-441 of `handleClipboardLoop`: the resync branch, the choice of a
packet to send and the send itself. -/
def sendPhase (L : CodecLib) (c : Channel) (st : LoopState) (inp : Input) : Outcome :=
  if st.lastAckReceived < st.lastSendIndex then
    if inp.nowCheck - st.lastSendTime > 4 * c.interval then
      { st := { st with lastSendTime := inp.nowSend }
        events := Event.reset ::
          writePacket L c (st.sendQueue.get st.lastSendIndex) inp.rnd true
        status := Status.running }
    else { st := st, events := [], status := Status.running }
  else
    match st.sendChan with
    | cbdata :: rest => sendNew L c { st with sendChan := rest } cbdata inp
    | [] =>
      if st.lastAcked < st.lastRecvIndex then
        sendNew L c st
          { Target := c.peerHeader, Typ := 0, Payload := [], Seq := 0, Ack := 0 } inp
      else { st := st, events := [], status := Status.running }

/-- One iteration of the `for` loop of `handleClipboardLoop`. -/
def iteration (L : CodecLib) (c : Channel) (st : LoopState) (inp : Input) : Outcome :=
  let r := recvPhase L c st inp
  if r.status = Status.running then
    { st := (sendPhase L c r.st inp).st
      events := r.events ++ (sendPhase L c r.st inp).events
      status := (sendPhase L c r.st inp).status }
  else r

/-- Method `Send`, called by the application: the packet enters `c.sendChan`
when the buffer has room; otherwise the caller waits and the state stays. -/
def Send (c : Channel) (st : LoopState) (data : GoString) : LoopState :=
  if (st.sendChan.length : Int) < QueueSize then
    { st with sendChan := st.sendChan ++
        [{ Target := c.peerHeader, Typ := 0, Payload := data, Seq := 0, Ack := 0 }] }
  else st

/-- What can happen to a channel between and in the iterations of its loop. -/
inductive Action where
  /-- The application calls `Send(data)`. -/
  | send (data : GoString)
  /-- A goroutine other than the loop calls `sendControl(msg)`: `CloseChannel`
  with "FIN", the tunnel with "START-SOCKS" or "SOCKS-AT:port".  When the buffer
  of `sendChan` is full that goroutine waits and the state stays. -/
  | control (msg : GoString)
  /-- The loop runs one iteration. -/
  | tick (inp : Input)

/-- The effect of one action. -/
def step (L : CodecLib) (c : Channel) (st : LoopState) : Action → Outcome
  | Action.send data => { st := Send c st data, events := [], status := Status.running }
  | Action.control msg =>
    { st := (sendControl c st msg).1, events := [], status := Status.running }
  | Action.tick inp => iteration L c st inp

/-- A run of the channel: the actions are taken in turn for as long as the loop
is running; the events are collected in order. -/
def run (L : CodecLib) (c : Channel) (st : LoopState) : List Action → Outcome
  | [] => { st := st, events := [], status := Status.running }
  | a :: rest =>
    let o := step L c st a
    if o.status = Status.running then
      { st := (run L c o.st rest).st
        events := o.events ++ (run L c o.st rest).events
        status := (run L c o.st rest).status }
    else o

/-- The header assignment at the end of `NewChannel` (lines 169-175). -/
def NewChannel.headers (typ : Int) : Int × Int :=
  if typ = CLIENT then (CLIENT, SERVER) else (SERVER, CLIENT)

/-- The packets of the `queued` events, in order. -/
def queuedPackets : List Event → List CBPacket
  | [] => []
  | Event.queued p :: rest => p :: queuedPackets rest
  | _ :: rest => queuedPackets rest

/-- The packets of the `write` events, in order. -/
def writtenPackets : List Event → List CBPacket
  | [] => []
  | Event.write p _ _ :: rest => p :: writtenPackets rest
  | _ :: rest => writtenPackets rest

/-- The packets of the `accepted` events, in order. -/
def acceptedPackets : List Event → List CBPacket
  | [] => []
  | Event.accepted p :: rest => p :: acceptedPackets rest
  | _ :: rest => acceptedPackets rest

/-- The packets of the `deliver` events, in order. -/
def deliveredPackets : List Event → List CBPacket
  | [] => []
  | Event.deliver p :: rest => p :: deliveredPackets rest
  | _ :: rest => deliveredPackets rest

/-- What holds of the state of a loop and of the events of its run so far,
whatever the slot showed: the queued packets carry the sequence numbers
0, 1, 2, ... up to `lastSendIndex`; the last one is still in `sendQueue`, its
`Ack` is not above `lastRecvIndex` and not below the `Ack` of any packet
written; the `Ack`s written never decrease; only queued packets are written. -/
structure LoopInv (st : LoopState) (evs : List Event) : Prop where
  seqs : (queuedPackets evs).map CBPacket.Seq =
    (List.range (queuedPackets evs).length).map (fun k : Nat => (k : Int))
  lastSend : st.lastSendIndex = ((queuedPackets evs).length : Int) - 1
  ackReceived : -1 ≤ st.lastAckReceived
  recvIndex : -1 ≤ st.lastRecvIndex
  acksSorted : ((writtenPackets evs).map CBPacket.Ack).Pairwise (fun a b => a ≤ b)
  lastQueued : ∀ q, (queuedPackets evs).getLast? = some q →
    st.sendQueue.lookup st.lastSendIndex = some q ∧ q.Ack ≤ st.lastRecvIndex ∧
      ∀ p ∈ writtenPackets evs, p.Ack ≤ q.Ack
  writtenQueued : ∀ p ∈ writtenPackets evs, p ∈ queuedPackets evs

/-- What holds of the send buffer in every state of a run: no key is held
twice, the keys are those from `max(0, lastSendIndex - QueueSize + 1)` to
`lastSendIndex`, and the entry at key `k` has `Seq` `k`. -/
structure SendQueueInv (st : LoopState) : Prop where
  nodup : st.sendQueue.keys.Nodup
  keys : ∀ k, (st.sendQueue.lookup k).isSome = true ↔
    (max 0 (st.lastSendIndex - QueueSize + 1) ≤ k ∧ k ≤ st.lastSendIndex)
  seqs : ∀ k q, st.sendQueue.lookup k = some q → q.Seq = k
  lower : -1 ≤ st.lastSendIndex

/-- What holds of the acknowledgements a loop gives in every state of a run:
`lastAcked` is not above `lastRecvIndex`, and no queued packet carries an `Ack`
above `lastAcked`. -/
structure AckInv (st : LoopState) (evs : List Event) : Prop where
  ackedLe : st.lastAcked ≤ st.lastRecvIndex
  queuedAck : ∀ q ∈ queuedPackets evs, q.Ack ≤ st.lastAcked

/-- The receive buffer holds no key twice, and its keys are not negative, lie
above `lastAcked - QueueSize` and are at most `lastRecvIndex`. -/
structure RecvKeys (st : LoopState) : Prop where
  nodup : st.receiveQueue.keys.Nodup
  bounds : ∀ k, (st.receiveQueue.lookup k).isSome = true →
    0 ≤ k ∧ st.lastAcked - QueueSize < k ∧ k ≤ st.lastRecvIndex

/-! ## Two channels on one slot -/

/-- The strings of the `write` events, in order: what a loop has put in the slot. -/
def writtenStrings : List Event → List GoString
  | [] => []
  | Event.write _ s _ :: rest => s :: writtenStrings rest
  | _ :: rest => writtenStrings rest

/-- The payloads of the packets that are no control packets and carry bytes. -/
def dataPayloads (l : List CBPacket) : List GoString :=
  ((l.filter (fun p => decide (p.Typ ≠ PacketTypeControl))).map CBPacket.Payload).filter
    (fun d => decide (d ≠ []))

/-- The two ends of a tunnel. -/
inductive Peer where
  | client
  | server
deriving DecidableEq, Repr

/-- The other end. -/
def Peer.other : Peer → Peer
  | Peer.client => Peer.server
  | Peer.server => Peer.client

/-- The `typ` argument an end passes to `NewChannel`. -/
def Peer.typ : Peer → Int
  | Peer.client => CLIENT
  | Peer.server => SERVER

/-- The options of the two ends that the loop reads: both ends have the key
(derived from the same password); interval and callback are per end. -/
structure Options where
  secretKey : Key
  interval : Peer → Int
  hasCallback : Peer → Bool

/-- The channel `NewChannel(typ, options)` makes for an end. -/
def Options.channel (o : Options) (who : Peer) : Channel :=
  { interval := o.interval who, ownHeader := (NewChannel.headers who.typ).1,
    peerHeader := (NewChannel.headers who.typ).2, secretKey := o.secretKey,
    hasCallback := o.hasCallback who }

/-- One end: the state of its loop, whether the loop still runs, the events of
the loop so far and the payloads its application has passed to `Send()`. -/
structure PeerState where
  st : LoopState
  status : Status
  events : List Event
  sent : List GoString

/-- Both ends. -/
abbrev System := Peer → PeerState

/-- Both ends before the first iteration; `start` are the clocks. -/
def System.init (start : Peer → Int) : System :=
  fun who => { st := LoopState.init (start who), status := Status.running, events := [],
               sent := [] }

/-- The system after one end takes an action: its loop state and events move
by `step`; a `tick` sets the status of the loop; a `Send` that finds room in
`sendChan` is recorded. -/
def System.act (L : CodecLib) (o : Options) (s : System) (who : Peer) (a : Action) : System :=
  Function.update s who
    { st := (step L (o.channel who) (s who).st a).st
      status :=
        match a with
        | Action.tick _ => (step L (o.channel who) (s who).st a).status
        | _ => (s who).status
      events := (s who).events ++ (step L (o.channel who) (s who).st a).events
      sent :=
        match a with
        | Action.send data =>
          if (((s who).st.sendChan.length : Nat) : Int) < QueueSize then (s who).sent ++ [data]
          else (s who).sent
        | _ => (s who).sent }

/-- What a read of the slot may return: nothing, a value `string2packet`
rejects, or a packet string one of the two loops has written at some earlier
time (values may be lost, repeated, delayed or overwritten).  Any other value,
such as the timestamp a `Reset()` of the clipboard transport puts in the slot,
is covered as far as `string2packet` rejects it. -/
def SlotOk (L : CodecLib) (o : Options) (s : System) (content : GoString) : Prop :=
  content = [] ∨ (string2packet L o.secretKey content).2 ≠ none ∨
    ∃ who : Peer, content ∈ writtenStrings (s who).events

/-- When an action can be taken: a loop iterates only while it runs, and reads
what the slot may return. -/
def Enabled (L : CodecLib) (o : Options) (s : System) (who : Peer) : Action → Prop
  | Action.tick inp => (s who).status = Status.running ∧ SlotOk L o s inp.content
  | _ => True

/-- The states the two ends can reach together. -/
inductive Reachable (L : CodecLib) (o : Options) : System → Prop where
  | init (start : Peer → Int) : Reachable L o (System.init start)
  | act (s : System) (who : Peer) (a : Action) :
    Reachable L o s → Enabled L o s who a → Reachable L o (System.act L o s who a)

/-- What holds of one end in every reachable state. -/
structure PeerInv (L : CodecLib) (c : Channel) (ps : PeerState) : Prop where
  loop : LoopInv ps.st ps.events
  chanTarget : ∀ q ∈ ps.st.sendChan, q.Target = c.peerHeader
  queuedTarget : ∀ q ∈ queuedPackets ps.events, q.Target = c.peerHeader
  writes : ∀ p s r, Event.write p s r ∈ ps.events → string2packet L c.secretKey s = (p, none)
  acceptedLen : ((acceptedPackets ps.events).length : Int) = ps.st.lastRecvIndex + 1
  deliveredLe :
    ((deliveredPackets ps.events).map CBPacket.Payload).filter (fun d => decide (d ≠ [])) <+:
      dataPayloads (acceptedPackets ps.events)
  deliveredEq : ps.status = Status.running →
    ((deliveredPackets ps.events).map CBPacket.Payload).filter (fun d => decide (d ≠ [])) =
      dataPayloads (acceptedPackets ps.events)
  sentEq : dataPayloads (queuedPackets ps.events) ++ dataPayloads ps.st.sendChan =
    ps.sent.filter (fun d => decide (d ≠ []))

/-- Both ends wait for an acknowledgement of their first packet, and every
packet that either end has queued carries `Ack` -1. -/
def Stuck (s : System) : Prop :=
  ∀ who : Peer, (s who).st.lastAckReceived = -1 ∧ (s who).st.lastSendIndex = 0 ∧
    ∀ q ∈ queuedPackets (s who).events, q.Ack = -1

/-! ## Command-line values -/

/-- The class `\d` of a Go regular expression: an ASCII decimal digit. -/
def isDigit (b : Byte) : Bool :=
  decide (48 ≤ b.val) && decide (b.val ≤ 57)

/-- The number a string of decimal digits denotes. -/
def digitsValue (s : GoString) : Nat :=
  s.foldl (fun acc b => acc * 10 + (b.val - 48)) 0

/-- An `int` of 64 bits: the value of an integer expression after wraparound. -/
def wrapInt64 (x : Int) : Int :=
  (x + 2 ^ 63) % 2 ^ 64 - 2 ^ 63

/-- The argument of `strconv.Atoi` after its sign, if it has one. -/
def Atoi.unsigned (s : GoString) : GoString :=
  match s with
  | 43 :: r => r
  | 45 :: r => r
  | _ => s

/-- The library function `strconv.Atoi` on a 64-bit platform: an optional sign
and decimal digits; 0 with a syntax error for anything else, the nearest `int`
with a range error for a value that does not fit. -/
def Atoi (s : GoString) : Int × Option GoError :=
  let neg : Bool := decide (s.head? = some 45)
  let body : GoString := Atoi.unsigned s
  if body = [] ∨ body.all isDigit = false then
    (0, some (GoError.errorf "strconv.Atoi: invalid syntax"))
  else if neg = true then
    if 2 ^ 63 < digitsValue body then
      (-(2 ^ 63), some (GoError.errorf "strconv.Atoi: value out of range"))
    else (-(digitsValue body : Int), none)
  else if 2 ^ 63 ≤ digitsValue body then
    (2 ^ 63 - 1, some (GoError.errorf "strconv.Atoi: value out of range"))
  else ((digitsValue body : Int), none)

/-- Whether the regular expression `^\d+[kKmM]?$` of `parseBlocksize` matches:
the digits at the front are followed by nothing or by exactly one of the four
letters. -/
def blocksizeRe (arg : GoString) : Bool :=
  let digits := arg.takeWhile isDigit
  let rest := arg.dropWhile isDigit
  decide (digits ≠ []) &&
    (decide (rest = []) || decide (rest = ascii "k") || decide (rest = ascii "K") ||
      decide (rest = ascii "m") || decide (rest = ascii "M"))

/-- Function `parseBlocksize` of `cmd/helper.go` (lines 34-51). The errors of
`strconv.Atoi` are dropped as in the source, and the products are those of `int`. -/
def parseBlocksize (arg : GoString) : Int × Option GoError :=
  if blocksizeRe arg = false then
    (0, some (GoError.errorf "unknown blocksize format"))
  else
    let last := arg.drop (arg.length - 1)
    if last = ascii "k" ∨ last = ascii "K" then
      let blocksize := (Atoi (arg.take (arg.length - 1))).1
      (wrapInt64 (blocksize * 1024), none)
    else if last = ascii "m" ∨ last = ascii "M" then
      let blocksize := (Atoi (arg.take (arg.length - 1))).1
      (wrapInt64 (wrapInt64 (blocksize * 1024) * 1024), none)
    else
      let blocksize := (Atoi arg).1
      (blocksize, none)

/-- The form of a block size in the words of the specification: one or more
decimal digits, optionally followed by a single `k`, `K`, `m` or `M`. -/
def BlocksizeForm (arg : GoString) : Prop :=
  ∃ ds suf : GoString, arg = ds ++ suf ∧ ds ≠ [] ∧ (∀ d ∈ ds, isDigit d = true) ∧
    (suf = [] ∨ suf = ascii "k" ∨ suf = ascii "K" ∨ suf = ascii "m" ∨ suf = ascii "M")

/-- Type `PortForwarding` of `channel/tunnel.go`. -/
structure PortForwarding where
  Port : GoString
  Host : GoString
  HostPort : GoString
deriving DecidableEq, Repr

/-- The submatches of the regular expression `^(\d+):([^:]+):(\d+)$` of
`ParsePortForwarding`, `none` when it does not match: the digits at the front,
a colon, the bytes up to the next colon, that colon, and digits to the end. -/
def portForwardingRe (param : GoString) : Option (GoString × GoString × GoString) :=
  let port := param.takeWhile isDigit
  match param.dropWhile isDigit with
  | 58 :: r2 =>
    let host := r2.takeWhile (fun b => decide (b ≠ 58))
    match r2.dropWhile (fun b => decide (b ≠ 58)) with
    | 58 :: r3 =>
      if port ≠ [] ∧ host ≠ [] ∧ r3 ≠ [] ∧ r3.all isDigit = true then some (port, host, r3)
      else none
    | _ => none
  | _ => none

/-- Function `ParsePortForwarding` of `channel/tunnel.go` (lines 75-83). -/
def ParsePortForwarding (param : GoString) : Option PortForwarding × Option GoError :=
  match portForwardingRe param with
  | none => (none, some (GoError.errorf "Bad port forwarding format"))
  | some (port, host, hostPort) =>
    (some { Port := port, Host := host, HostPort := hostPort }, none)

/-- The form `PORT:HOST:HOSTPORT` in the words of the specification. -/
def PortForwardingForm (param : GoString) : Prop :=
  ∃ port host hostPort : GoString, param = port ++ ascii ":" ++ host ++ ascii ":" ++ hostPort ∧
    port ≠ [] ∧ (∀ d ∈ port, isDigit d = true) ∧
    host ≠ [] ∧ (∀ b ∈ host, b ≠ 58) ∧
    hostPort ≠ [] ∧ (∀ d ∈ hostPort, isDigit d = true)

/-! ## Making a channel -/

/-- The fields of `ChannelOptions` that `NewChannel` reads for the channel. -/
structure ChannelOptions where
  /-- Field `Interval`, in nanoseconds. -/
  Interval : Int
  Password : GoString
  Transport : GoString
  Blocksize : Int
  /-- Whether `ControlPacketCallback` is not nil. -/
  hasCallback : Bool
deriving DecidableEq, Repr

/-- The value `NewChannel` assigns to `c.transport`: which type of package
`transport` it is and the arguments its constructor was called with. -/
inductive Transport where
  /-- The value `&transport.Clipboard{}`. -/
  | clipboard
  /-- The result of `transport.NewCommand(cmd, bufferSize, interval)`. -/
  | command (cmd : GoString) (bufferSize : Int) (interval : Int)
  /-- The result of `transport.DialTCP(addr, bufferSize, interval)`. -/
  | tcpDial (addr : GoString) (bufferSize : Int) (interval : Int)
  /-- The result of `transport.ListenTCP(addr, bufferSize, interval)`. -/
  | tcpListen (addr : GoString) (bufferSize : Int) (interval : Int)
deriving DecidableEq, Repr

/-- What `NewChannel` meets outside the program: whether starting the command,
dialling and listening fail (`none`: no error) and the key `pbkdf2.Key` makes
from the password. -/
structure World where
  NewCommand : GoString → Int → Int → Option GoError
  DialTCP : GoString → Int → Int → Option GoError
  ListenTCP : GoString → Int → Int → Option GoError
  pbkdf2Key : GoString → GoString

/-- The library function `strings.HasPrefix`. -/
def HasPrefix (s p : GoString) : Bool :=
  decide (p.length ≤ s.length) && decide (s.take p.length = p)

/-- The choice of the transport in `NewChannel` (lines 131-156) for the values
`bufferSize` and `interval` of `c.bufferSize` and `c.interval`. -/
def NewChannel.transport (w : World) (options : ChannelOptions) (bufferSize interval : Int) :
    Except GoError Transport :=
  if options.Transport = [] ∨ options.Transport = ascii "clipboard" then
    Except.ok Transport.clipboard
  else if HasPrefix options.Transport (ascii "exec=") = true then
    match w.NewCommand (options.Transport.drop 5) (wrapInt64 (bufferSize * 2)) interval with
    | some _ => Except.error (GoError.errorf "cannot create transport")
    | none => Except.ok
        (Transport.command (options.Transport.drop 5) (wrapInt64 (bufferSize * 2)) interval)
  else if HasPrefix options.Transport (ascii "tcp=") = true then
    match w.DialTCP (options.Transport.drop 4) (wrapInt64 (bufferSize * 2)) interval with
    | some _ => Except.error (GoError.errorf "cannot dial tcp connection")
    | none => Except.ok
        (Transport.tcpDial (options.Transport.drop 4) (wrapInt64 (bufferSize * 2)) interval)
  else if HasPrefix options.Transport (ascii "tcp-listen=") = true then
    match w.ListenTCP (options.Transport.drop 11) (wrapInt64 (bufferSize * 2)) interval with
    | some _ => Except.error (GoError.errorf "cannot dial tcp connection")
    | none => Except.ok
        (Transport.tcpListen (options.Transport.drop 11) (wrapInt64 (bufferSize * 2)) interval)
  else Except.error (GoError.errorf "unknown transport method")

/-- How a call of `NewChannel` ends. -/
inductive NewChannelResult where
  /-- The statement `return &c, nil`, after `go c.handleClipboardLoop()`. -/
  | started (c : Channel) (t : Transport)
  /-- A statement `return nil, err`; all of them stand before the start of the loop. -/
  | failed (err : GoError)
  /-- The call `errorLogger.Fatalln` for an empty password, which ends the process. -/
  | fatal
deriving DecidableEq, Repr

/-- Whether the call reached the statement `go c.handleClipboardLoop()`. -/
def NewChannelResult.loopStarted : NewChannelResult → Bool
  | NewChannelResult.started _ _ => true
  | _ => false

/-- Function `NewChannel` (lines 103-194) without the loggers and the signal handler. -/
def NewChannel (w : World) (typ : Int) (options : ChannelOptions) : NewChannelResult :=
  let interval : Int := if options.Interval > 0 then options.Interval else 0
  let bufferSize := options.Blocksize
  match NewChannel.transport w options bufferSize interval with
  | Except.error err => NewChannelResult.failed err
  | Except.ok t =>
    if options.Password = [] then NewChannelResult.fatal
    else
      let key := (w.pbkdf2Key options.Password).take 32
      if h : key.length = 32 then
        NewChannelResult.started
          { interval := interval, ownHeader := (NewChannel.headers typ).1,
            peerHeader := (NewChannel.headers typ).2, secretKey := ⟨key, h⟩,
            hasCallback := options.hasCallback } t
      else NewChannelResult.failed (GoError.errorf "could not derive key from password")

/-- The channel that `NewChannel` returns when the derived key fills the 32
bytes of `c.secretKey`: the interval of the options when it is positive, the
headers of `typ`, the key and the callback. -/
def NewChannel.made (w : World) (typ : Int) (options : ChannelOptions)
    (h : ((w.pbkdf2Key options.Password).take 32).length = 32) : Channel :=
  { interval := if options.Interval > 0 then options.Interval else 0,
    ownHeader := (NewChannel.headers typ).1, peerHeader := (NewChannel.headers typ).2,
    secretKey := ⟨(w.pbkdf2Key options.Password).take 32, h⟩,
    hasCallback := options.hasCallback }

/-! ## Global requests of the SSH server -/

/-- The fields of `ssh.Request` that `handleRequest` reads; `Typ` is the field `Type`. -/
structure Request where
  Typ : GoString
  WantReply : Bool
  Payload : GoString
deriving DecidableEq, Repr

/-- Type `tcpIpForwardPayload` of `channel/tunnel.go`; `Port` is a `uint32`. -/
structure tcpIpForwardPayload where
  Addr : GoString
  Port : Nat
deriving DecidableEq, Repr

/-- What `handleRequest` meets outside the program: `ssh.Unmarshal` into a
`tcpIpForwardPayload` (`none` for an error), `ssh.Marshal` of a
`tcpIpForwardReplyPayload` with the given port, and whether `net.Listen` on an
address succeeds. -/
structure SshWorld where
  Unmarshal : GoString → Option tcpIpForwardPayload
  Marshal : Nat → GoString
  Listen : GoString → Bool

/-- What `handleRequest` does to the world. -/
inductive RequestEvent where
  /-- A reply to the request is sent to the client. -/
  | reply (ok : Bool) (payload : GoString)
  /-- The call `net.Listen(network, bind)` returned a listener. -/
  | listen (bind : GoString)
  /-- The goroutine is started that accepts connections on the listener and
  forwards each one over a "forwarded-tcpip" channel. -/
  | forward (bind : GoString) (addr : GoString) (port : Nat)
deriving DecidableEq, Repr

/-- The library method `Request.Reply`: it sends a reply when the request
wants one and does nothing otherwise. -/
def Request.Reply (req : Request) (ok : Bool) (payload : GoString) : List RequestEvent :=
  if req.WantReply = true then [RequestEvent.reply ok payload] else []

/-- The address `fmt.Sprintf("[%s]:%d", msg.Addr, msg.Port)`. -/
def bindAddress (msg : tcpIpForwardPayload) : GoString :=
  ascii "[" ++ msg.Addr ++ ascii "]:" ++ FormatInt (msg.Port : Int)

/-- Method `Tunnel.handleRequest` of `channel/tunnel.go` (lines 261-320): the
events it causes, in order.  The test of the request type has no `return`. -/
def handleRequest (w : SshWorld) (req : Request) : List RequestEvent :=
  (if req.Typ ≠ ascii "tcpip-forward" then Request.Reply req false [] else []) ++
    match w.Unmarshal req.Payload with
    | none => []
    | some msg =>
      if w.Listen (bindAddress msg) = false then []
      else
        RequestEvent.listen (bindAddress msg) ::
          (Request.Reply req true (w.Marshal msg.Port) ++
            [RequestEvent.forward (bindAddress msg) msg.Addr msg.Port])

/-- Four bytes as a `uint32` in network byte order, and the bytes after them. -/
def readUint32 : GoString → Option (Nat × GoString)
  | a :: b :: c :: d :: rest => some (((a.val * 256 + b.val) * 256 + c.val) * 256 + d.val, rest)
  | _ => none

/-- A `uint32` as four bytes in network byte order. -/
def writeUint32 (n : Nat) : GoString :=
  [Fin.ofNat (n / 16777216 % 256), Fin.ofNat (n / 65536 % 256), Fin.ofNat (n / 256 % 256),
    Fin.ofNat (n % 256)]

/-- The wire format of a `tcpIpForwardPayload`: a string with its length in
front, then the port; nothing may follow. -/
def wireUnmarshal (data : GoString) : Option tcpIpForwardPayload :=
  match readUint32 data with
  | none => none
  | some (n, rest) =>
    if rest.length < n then none
    else
      match readUint32 (rest.drop n) with
      | some (port, []) => some { Addr := rest.take n, Port := port }
      | _ => none

/-- A world in which payloads have the wire format and every listen succeeds. -/
def sampleSshWorld : SshWorld :=
  { Unmarshal := wireUnmarshal, Marshal := writeUint32, Listen := fun _ => true }

/-- A global request that is no "tcpip-forward", wants a reply and carries the
payload of a forward request for `localhost`, port 8080. -/
def sampleRequest : Request :=
  { Typ := ascii "keepalive@openssh.com", WantReply := true,
    Payload := writeUint32 9 ++ ascii "localhost" ++ writeUint32 8080 }

/-! ## A small instance of the library interface

It meets the contracts of `CodecLib.Lawful` and lets the concrete runs below
compute; it stands in for gob, zlib and secretbox, it is not a model of them. -/

/-- A natural number in unary: `n` bytes 1 and a byte 0. -/
def plainNat : Nat → GoString
  | 0 => [0]
  | n + 1 => 1 :: plainNat n

/-- Reads a number written by `plainNat` and returns the input left. -/
def readNat : GoString → Option (Nat × GoString)
  | [] => none
  | b :: rest =>
    if b = 0 then some (0, rest)
    else if b = 1 then
      match readNat rest with
      | some (n, rest2) => some (n + 1, rest2)
      | none => none
    else none

/-- An integer: a sign byte and the absolute value. -/
def plainInt (i : Int) : GoString :=
  (if i < 0 then 1 else 0) :: plainNat i.natAbs

/-- Reads an integer written by `plainInt`. -/
def readInt : GoString → Option (Int × GoString)
  | [] => none
  | s :: rest =>
    match readNat rest with
    | some (n, rest2) => some (if s = 1 then -(n : Int) else (n : Int), rest2)
    | none => none

/-- A packet: the four integer fields, then the payload. -/
def plainEncode (p : CBPacket) : GoString :=
  plainInt p.Target ++ (plainInt p.Typ ++ (plainInt p.Seq ++ (plainInt p.Ack ++ p.Payload)))

/-- Reads a packet written by `plainEncode`. -/
def plainDecode (b : GoString) : Option CBPacket :=
  match readInt b with
  | none => none
  | some (target, b1) =>
    match readInt b1 with
    | none => none
    | some (typ, b2) =>
      match readInt b2 with
      | none => none
      | some (seq, b3) =>
        match readInt b3 with
        | none => none
        | some (ack, payload) =>
          some { Target := target, Typ := typ, Payload := payload, Seq := seq, Ack := ack }

/-- The instance: no compression, and a box that is the first 16 bytes of the
key followed by the message. -/
def plainLib : CodecLib :=
  { gobEncode := fun p => some (plainEncode p)
    gobDecode := plainDecode
    zlibCompress := fun b => b
    zlibReader := fun b => some b
    secretboxSeal := fun m _ k => k.val.take 16 ++ m
    secretboxOpen := fun box _ k =>
      if box.take 16 = k.val.take 16 then some (box.drop 16) else none }

/-! ## Sample values for concrete evaluations -/

/-- A 32-byte key. -/
def sampleKey : Key := ⟨List.replicate 32 7, by decide⟩

/-- A 24-byte nonce. -/
def sampleNonce : Nonce := ⟨List.replicate 24 9, by decide⟩

/-- A channel made by `NewChannel(CLIENT, ...)`: one second interval, no callback. -/
def clientChannel : Channel :=
  { interval := 1000000000, ownHeader := (NewChannel.headers CLIENT).1,
    peerHeader := (NewChannel.headers CLIENT).2, secretKey := sampleKey, hasCallback := false }

/-- A channel made by `NewChannel(SERVER, ...)` with the same key. -/
def serverChannel : Channel :=
  { interval := 1000000000, ownHeader := (NewChannel.headers SERVER).1,
    peerHeader := (NewChannel.headers SERVER).2, secretKey := sampleKey, hasCallback := false }

/-- An iteration's input: the slot shows `content`, the stall test reads the
clock `now`, a consumer is waiting and the random source works. -/
def sampleInput (content : GoString) (now : Int) : Input :=
  { content := content, consumer := true, nowRecv := now, nowCheck := now, nowSend := now,
    rnd := some sampleNonce }

/-- The slot value a server writes for its first packet with payload "yo",
sent before it has accepted anything. -/
def sampleServerFirst : GoString :=
  (packet2string plainLib sampleKey ⟨CLIENT, PacketTypeData, [121, 111], 0, -1⟩
    (some sampleNonce)).1

/-- The slot value a client writes for its first packet with payload "hi",
sent before it has accepted anything. -/
def sampleClientFirst : GoString :=
  (packet2string plainLib sampleKey ⟨SERVER, PacketTypeData, [104, 105], 0, -1⟩
    (some sampleNonce)).1

/-- Options of two ends with the sample key. -/
def sampleOptions : Options :=
  { secretKey := sampleKey, interval := fun _ => 1000000000, hasCallback := fun _ => false }

/-- The client's application sends "hi", the client loop iterates on an empty
slot and writes its first packet, the server loop reads that packet. -/
def sampleSystem : System :=
  System.act plainLib sampleOptions
    (System.act plainLib sampleOptions
      (System.act plainLib sampleOptions (System.init (fun _ => 0)) Peer.client
        (Action.send [104, 105]))
      Peer.client (Action.tick (sampleInput [] 1000000000)))
    Peer.server (Action.tick (sampleInput sampleClientFirst 2000000000))

/-- The slot value of a peer's packet for a server: no payload, `Seq` `i`, and
`Ack` -1, as a peer writes it that has accepted nothing. -/
def sampleUnacked (i : Nat) : GoString :=
  (packet2string plainLib sampleKey ⟨SERVER, PacketTypeData, [], (i : Int), -1⟩
    (some sampleNonce)).1

/-- Eighteen iterations of a loop that reads the packets `sampleUnacked 0` to
`sampleUnacked 17`, one after the other, all at clock 0. -/
def stalledRun : List Action :=
  (List.range 18).map (fun i => Action.tick (sampleInput (sampleUnacked i) 0))


/-- Both applications call `Send` before either loop has read a packet: each
loop writes its first packet, with `Ack` -1, on an iteration that reads nothing;
then each loop reads the first packet of the other. -/
def deadlockSystem : System :=
  System.act plainLib sampleOptions
    (System.act plainLib sampleOptions
      (System.act plainLib sampleOptions
        (System.act plainLib sampleOptions
          (System.act plainLib sampleOptions
            (System.act plainLib sampleOptions (System.init (fun _ => 0)) Peer.client
              (Action.send [104, 105]))
            Peer.server (Action.send [121, 111]))
          Peer.client (Action.tick (sampleInput [] 1000000000)))
        Peer.server (Action.tick (sampleInput [] 1000000000)))
      Peer.client (Action.tick (sampleInput sampleServerFirst 2000000000)))
    Peer.server (Action.tick (sampleInput sampleClientFirst 2000000000))

/-- A world in which the command starts, the dial and the listen succeed and
every password gives the sample key. -/
def sampleWorld : World :=
  { NewCommand := fun _ _ _ => none, DialTCP := fun _ _ _ => none,
    ListenTCP := fun _ _ _ => none, pbkdf2Key := fun _ => List.replicate 32 7 }

/-- The options of the command line with its defaults (one second, password
"cliptun", block size 65536) and the given transport string. -/
def sampleChannelOptions (transport : GoString) : ChannelOptions :=
  { Interval := 1000000000, Password := ascii "cliptun", Transport := transport,
    Blocksize := 65536, hasCallback := false }

/-- The slot value a client writes for its first packet when it has no data
and acknowledges a packet 0: no payload, `Seq` 0, `Ack` 0. -/
def sampleClientAck : GoString :=
  (packet2string plainLib sampleKey ⟨SERVER, PacketTypeData, [], 0, 0⟩ (some sampleNonce)).1

/-- The slot value a server writes for its second packet with payload "more",
sent when it has accepted the client's packet 0. -/
def sampleServerSecond : GoString :=
  (packet2string plainLib sampleKey
    ⟨CLIENT, PacketTypeData, [109, 111, 114, 101], 1, 0⟩ (some sampleNonce)).1

/-- The server's application sends "yo" and "more" and the server loop writes
its packet 0 with "yo".  The client loop reads the slot value "AAAA", three
bytes of base64 that no loop wrote, and answers with its packet 0; the server
loop reads that packet and writes its packet 1 with "more"; the client loop
then reads the server's packet 0 and after it the server's packet 1. -/
def lossSystem : System :=
  System.act plainLib sampleOptions
    (System.act plainLib sampleOptions
      (System.act plainLib sampleOptions
        (System.act plainLib sampleOptions
          (System.act plainLib sampleOptions
            (System.act plainLib sampleOptions
              (System.act plainLib sampleOptions (System.init (fun _ => 0)) Peer.server
                (Action.send [121, 111]))
              Peer.server (Action.send [109, 111, 114, 101]))
            Peer.server (Action.tick (sampleInput [] 1000000000)))
          Peer.client (Action.tick (sampleInput (ascii "AAAA") 1000000000)))
        Peer.server (Action.tick (sampleInput sampleClientAck 2000000000)))
      Peer.client (Action.tick (sampleInput sampleServerFirst 2000000000)))
    Peer.client (Action.tick (sampleInput sampleServerSecond 3000000000))
/-! ## Properties of the receive step -/

theorem PacketMap.lookup_set_self (m : PacketMap) (k : Int) (v : CBPacket) :
    (m.set k v).lookup k = some v := by
  simp [PacketMap.set, PacketMap.lookup]

theorem sendControl_frame (c : Channel) (st : LoopState) (msg : GoString) :
    (sendControl c st msg).1.lastRecvIndex = st.lastRecvIndex ∧
    (sendControl c st msg).1.lastSendIndex = st.lastSendIndex ∧
    (sendControl c st msg).1.lastAckReceived = st.lastAckReceived ∧
    (sendControl c st msg).1.lastAcked = st.lastAcked ∧
    (sendControl c st msg).1.receiveQueue = st.receiveQueue ∧
    (sendControl c st msg).1.sendQueue = st.sendQueue ∧
    (sendControl c st msg).1.lastSendTime = st.lastSendTime ∧
    (sendControl c st msg).1.lastRecvTime = st.lastRecvTime := by
  unfold sendControl
  split <;> simp

theorem initiateDelayedShutdown_frame (st : LoopState) :
    (initiateDelayedShutdown st).1.lastRecvIndex = st.lastRecvIndex ∧
    (initiateDelayedShutdown st).1.lastSendIndex = st.lastSendIndex ∧
    (initiateDelayedShutdown st).1.lastAckReceived = st.lastAckReceived ∧
    (initiateDelayedShutdown st).1.lastAcked = st.lastAcked ∧
    (initiateDelayedShutdown st).1.receiveQueue = st.receiveQueue ∧
    (initiateDelayedShutdown st).1.sendQueue = st.sendQueue ∧
    (initiateDelayedShutdown st).1.lastSendTime = st.lastSendTime ∧
    (initiateDelayedShutdown st).1.lastRecvTime = st.lastRecvTime ∧
    (initiateDelayedShutdown st).1.sendChan = st.sendChan := by
  unfold initiateDelayedShutdown
  split <;> simp

/-- The control handler touches neither the counters nor the two maps. -/
theorem processControlPacket_frame (c : Channel) (st : LoopState) (p : CBPacket) :
    (processControlPacket c st p).st.lastRecvIndex = st.lastRecvIndex ∧
    (processControlPacket c st p).st.lastSendIndex = st.lastSendIndex ∧
    (processControlPacket c st p).st.lastAckReceived = st.lastAckReceived ∧
    (processControlPacket c st p).st.lastAcked = st.lastAcked ∧
    (processControlPacket c st p).st.receiveQueue = st.receiveQueue ∧
    (processControlPacket c st p).st.sendQueue = st.sendQueue ∧
    (processControlPacket c st p).st.lastSendTime = st.lastSendTime ∧
    (processControlPacket c st p).st.lastRecvTime = st.lastRecvTime := by
  obtain ⟨h1, h2, h3, h4, h5, h6, h7, h8⟩ := sendControl_frame c st (ascii "FIN-ACK")
  obtain ⟨i1, i2, i3, i4, i5, i6, i7, i8, _⟩ :=
    initiateDelayedShutdown_frame (sendControl c st (ascii "FIN-ACK")).1
  unfold processControlPacket
  by_cases hT : p.Typ = PacketTypeControl
  · by_cases hF : (splitCmdArg p.Payload).1 = ascii "FIN"
    · by_cases hR : (sendControl c st (ascii "FIN-ACK")).2 = Status.running
      · rw [if_pos hT, if_pos hF, if_pos hR]
        simp [*]
      · rw [if_pos hT, if_pos hF, if_neg hR]
        simp [*]
    · by_cases hA : (splitCmdArg p.Payload).1 = ascii "FIN-ACK"
      · rw [if_pos hT, if_neg hF, if_pos hA]
        simp
      · by_cases hC : c.hasCallback = true
        · rw [if_pos hT, if_neg hF, if_neg hA, if_pos hC]
          simp
        · rw [if_pos hT, if_neg hF, if_neg hA, if_neg hC]
          simp
  · rw [if_neg hT]
    simp

/-- The control handler hands nothing to `Receive()`. -/
theorem processControlPacket_no_deliver (c : Channel) (st : LoopState) (p q : CBPacket) :
    Event.deliver q ∉ (processControlPacket c st p).events := by
  unfold processControlPacket initiateDelayedShutdown
  by_cases hT : p.Typ = PacketTypeControl
  · by_cases hF : (splitCmdArg p.Payload).1 = ascii "FIN"
    · by_cases hR : (sendControl c st (ascii "FIN-ACK")).2 = Status.running
      · rw [if_pos hT, if_pos hF, if_pos hR]
        by_cases hD : (sendControl c st (ascii "FIN-ACK")).1.delayedShutdown = true <;>
          simp [hD]
      · rw [if_pos hT, if_pos hF, if_neg hR]
        simp
    · by_cases hA : (splitCmdArg p.Payload).1 = ascii "FIN-ACK"
      · rw [if_pos hT, if_neg hF, if_pos hA]
        simp
      · by_cases hC : c.hasCallback = true
        · rw [if_pos hT, if_neg hF, if_neg hA, if_pos hC]
          simp
        · rw [if_pos hT, if_neg hF, if_neg hA, if_neg hC]
          simp
  · rw [if_neg hT]
    simp

theorem noteAck_frame (st : LoopState) (p : CBPacket) :
    (noteAck st p).lastRecvIndex = st.lastRecvIndex ∧
    (noteAck st p).lastSendIndex = st.lastSendIndex ∧
    (noteAck st p).lastAcked = st.lastAcked ∧
    (noteAck st p).receiveQueue = st.receiveQueue ∧
    (noteAck st p).sendQueue = st.sendQueue ∧
    (noteAck st p).lastSendTime = st.lastSendTime ∧
    (noteAck st p).lastRecvTime = st.lastRecvTime ∧
    (noteAck st p).sendChan = st.sendChan ∧
    (noteAck st p).delayedShutdown = st.delayedShutdown ∧
    (noteAck st p).lastAckReceived = max st.lastAckReceived p.Ack := by
  unfold noteAck
  by_cases hA : p.Ack > st.lastAckReceived
  · rw [if_pos hA]
    simp
    omega
  · rw [if_neg hA]
    simp
    omega

/-- Noting the same `Ack` twice is noting it once. -/
theorem noteAck_idem (st : LoopState) (p : CBPacket) : noteAck (noteAck st p) p = noteAck st p := by
  unfold noteAck
  by_cases hA : p.Ack > st.lastAckReceived
  · simp [hA]
  · simp [hA]

/-- The events of the control handler: at most one, and none of it a packet event. -/
theorem processControlPacket_events (c : Channel) (st : LoopState) (p : CBPacket) :
    (processControlPacket c st p).events = [] ∨
    (processControlPacket c st p).events = [Event.scheduleShutdown] ∨
    (processControlPacket c st p).events = [Event.shutdown] ∨
    (processControlPacket c st p).events =
      [Event.callback (splitCmdArg p.Payload).1 (splitCmdArg p.Payload).2] := by
  unfold processControlPacket initiateDelayedShutdown
  by_cases hT : p.Typ = PacketTypeControl
  · by_cases hF : (splitCmdArg p.Payload).1 = ascii "FIN"
    · by_cases hR : (sendControl c st (ascii "FIN-ACK")).2 = Status.running
      · rw [if_pos hT, if_pos hF, if_pos hR]
        by_cases hD : (sendControl c st (ascii "FIN-ACK")).1.delayedShutdown = true <;>
          simp [hD]
      · rw [if_pos hT, if_pos hF, if_neg hR]
        simp
    · by_cases hA : (splitCmdArg p.Payload).1 = ascii "FIN-ACK"
      · rw [if_pos hT, if_neg hF, if_pos hA]
        simp
      · by_cases hC : c.hasCallback = true
        · rw [if_pos hT, if_neg hF, if_neg hA, if_pos hC]
          simp
        · rw [if_pos hT, if_neg hF, if_neg hA, if_neg hC]
          simp
  · rw [if_neg hT]
    simp

/-- The state after the body of the acceptance branch. -/
theorem acceptPacket_state (c : Channel) (st : LoopState) (p : CBPacket) (now : Int)
    (consumer : Bool) :
    (acceptPacket c st p now consumer).st.lastRecvIndex = st.lastRecvIndex + 1 ∧
    (acceptPacket c st p now consumer).st.receiveQueue =
      st.receiveQueue.set (st.lastRecvIndex + 1) p ∧
    (acceptPacket c st p now consumer).st.lastAckReceived = st.lastAckReceived ∧
    (acceptPacket c st p now consumer).st.lastSendIndex = st.lastSendIndex ∧
    (acceptPacket c st p now consumer).st.lastAcked = st.lastAcked ∧
    (acceptPacket c st p now consumer).st.sendQueue = st.sendQueue ∧
    (acceptPacket c st p now consumer).st.lastSendTime = st.lastSendTime := by
  unfold acceptPacket
  by_cases hC : p.Typ = PacketTypeControl
  · simp only [if_pos hC]
    obtain ⟨h1, h2, h3, h4, h5, h6, h7, _⟩ := processControlPacket_frame c
      { st with lastRecvIndex := st.lastRecvIndex + 1,
                receiveQueue := st.receiveQueue.set (st.lastRecvIndex + 1) p,
                lastRecvTime := now } p
    simp only [h1, h2, h3, h4, h5, h6, h7, and_self]
  · simp only [if_neg hC]
    by_cases hP : p.Payload ≠ [] <;> by_cases hK : consumer = true <;> simp [hP, hK]

/-- The events of the acceptance branch: the packet is the one accepted, and
whatever is delivered is this packet, which then is no control packet. -/
theorem acceptPacket_events (c : Channel) (st : LoopState) (p : CBPacket) (now : Int)
    (consumer : Bool) :
    acceptedPackets (acceptPacket c st p now consumer).events = [p] ∧
    queuedPackets (acceptPacket c st p now consumer).events = [] ∧
    writtenPackets (acceptPacket c st p now consumer).events = [] ∧
    (deliveredPackets (acceptPacket c st p now consumer).events = [] ∨
      (deliveredPackets (acceptPacket c st p now consumer).events = [p] ∧
        p.Typ ≠ PacketTypeControl)) := by
  unfold acceptPacket
  by_cases hC : p.Typ = PacketTypeControl
  · simp only [if_pos hC]
    rcases processControlPacket_events c
      { st with lastRecvIndex := st.lastRecvIndex + 1,
                receiveQueue := st.receiveQueue.set (st.lastRecvIndex + 1) p,
                lastRecvTime := now } p with h | h | h | h <;>
      rw [h] <;>
      simp [acceptedPackets, queuedPackets, writtenPackets, deliveredPackets]
  · simp only [if_neg hC]
    by_cases hP : p.Payload ≠ [] <;> by_cases hK : consumer = true <;>
      simp [hP, hK, hC, acceptedPackets, queuedPackets, writtenPackets, deliveredPackets]

/-- A packet for another target leaves everything as it was. -/
theorem recvPacket_other_target (c : Channel) (st : LoopState) (p : CBPacket) (now : Int)
    (consumer : Bool) (hT : p.Target ≠ c.ownHeader) :
    recvPacket c st p now consumer = { st := st, events := [], status := Status.running } := by
  unfold recvPacket
  rw [if_neg hT]

/-- A packet for this peer whose `Seq` is not the next one only has its `Ack` noted. -/
theorem recvPacket_not_next (c : Channel) (st : LoopState) (p : CBPacket) (now : Int)
    (consumer : Bool) (hT : p.Target = c.ownHeader) (hS : p.Seq ≠ st.lastRecvIndex + 1) :
    recvPacket c st p now consumer =
      { st := noteAck st p, events := [], status := Status.running } := by
  unfold recvPacket
  rw [if_pos hT, (noteAck_frame st p).1, if_neg hS]

/-- A packet for this peer with the next `Seq` goes through the acceptance branch. -/
theorem recvPacket_next (c : Channel) (st : LoopState) (p : CBPacket) (now : Int)
    (consumer : Bool) (hT : p.Target = c.ownHeader) (hS : p.Seq = st.lastRecvIndex + 1) :
    recvPacket c st p now consumer = acceptPacket c (noteAck st p) p now consumer := by
  unfold recvPacket
  rw [if_pos hT, (noteAck_frame st p).1, if_pos hS]

/-- C1: the receive step accepts a decoded packet (moves `lastRecvIndex` up by
exactly one to `p.Seq` and stores `p` at `receiveQueue[p.Seq]`) if and only if
`p.Target == ownHeader` and `p.Seq == lastRecvIndex + 1`; when it accepts, `p`
is the one packet recorded as accepted; in every other case `lastRecvIndex`
and `receiveQueue` are unchanged and there is no event at all: nothing is
delivered, no control handler runs. -/
theorem recvPacket_accepts_iff (c : Channel) (st : LoopState) (p : CBPacket) (now : Int)
    (consumer : Bool) :
    (((recvPacket c st p now consumer).st.lastRecvIndex = st.lastRecvIndex + 1 ∧
        (recvPacket c st p now consumer).st.lastRecvIndex = p.Seq ∧
        (recvPacket c st p now consumer).st.receiveQueue.lookup p.Seq = some p) ↔
      (p.Target = c.ownHeader ∧ p.Seq = st.lastRecvIndex + 1)) ∧
    ((p.Target = c.ownHeader ∧ p.Seq = st.lastRecvIndex + 1) →
      acceptedPackets (recvPacket c st p now consumer).events = [p]) ∧
    (¬ (p.Target = c.ownHeader ∧ p.Seq = st.lastRecvIndex + 1) →
      (recvPacket c st p now consumer).st.lastRecvIndex = st.lastRecvIndex ∧
      (recvPacket c st p now consumer).st.receiveQueue = st.receiveQueue ∧
      (recvPacket c st p now consumer).events = [] ∧
      (recvPacket c st p now consumer).status = Status.running) := by
  have hrej : ¬ (p.Target = c.ownHeader ∧ p.Seq = st.lastRecvIndex + 1) →
      (recvPacket c st p now consumer).st.lastRecvIndex = st.lastRecvIndex ∧
      (recvPacket c st p now consumer).st.receiveQueue = st.receiveQueue ∧
      (recvPacket c st p now consumer).events = [] ∧
      (recvPacket c st p now consumer).status = Status.running := by
    intro h
    by_cases hT : p.Target = c.ownHeader
    · have hS : p.Seq ≠ st.lastRecvIndex + 1 := fun hS => h ⟨hT, hS⟩
      rw [recvPacket_not_next c st p now consumer hT hS]
      exact ⟨(noteAck_frame st p).1, (noteAck_frame st p).2.2.2.1, rfl, rfl⟩
    · rw [recvPacket_other_target c st p now consumer hT]
      exact ⟨rfl, rfl, rfl, rfl⟩
  refine ⟨⟨?_, ?_⟩, ?_, hrej⟩
  · intro ⟨h1, _, _⟩
    by_contra hn
    have := (hrej hn).1
    omega
  · intro ⟨hT, hS⟩
    rw [recvPacket_next c st p now consumer hT hS]
    obtain ⟨a1, a2, _⟩ := acceptPacket_state c (noteAck st p) p now consumer
    rw [a1, a2, (noteAck_frame st p).1, ← hS]
    exact ⟨rfl, rfl, PacketMap.lookup_set_self _ _ _⟩
  · intro ⟨hT, hS⟩
    rw [recvPacket_next c st p now consumer hT hS]
    exact (acceptPacket_events c (noteAck st p) p now consumer).1

theorem sendNew_frame (L : CodecLib) (c : Channel) (st : LoopState) (cbdata : CBPacket)
    (inp : Input) :
    (sendNew L c st cbdata inp).st.lastRecvIndex = st.lastRecvIndex ∧
    (sendNew L c st cbdata inp).st.lastAckReceived = st.lastAckReceived ∧
    (sendNew L c st cbdata inp).status = Status.running ∧
    acceptedPackets (sendNew L c st cbdata inp).events = [] ∧
    deliveredPackets (sendNew L c st cbdata inp).events = [] := by
  unfold sendNew writePacket
  by_cases hE : (packet2string L c.secretKey
      { cbdata with Seq := st.lastSendIndex + 1, Ack := st.lastRecvIndex } inp.rnd).2 = none
  · simp [hE, acceptedPackets, deliveredPackets]
  · simp [hE, acceptedPackets, deliveredPackets]

/-- The send half of an iteration neither accepts nor delivers, and leaves the
receive counters alone. -/
theorem sendPhase_frame (L : CodecLib) (c : Channel) (st : LoopState) (inp : Input) :
    (sendPhase L c st inp).st.lastRecvIndex = st.lastRecvIndex ∧
    (sendPhase L c st inp).st.lastAckReceived = st.lastAckReceived ∧
    (sendPhase L c st inp).status = Status.running ∧
    acceptedPackets (sendPhase L c st inp).events = [] ∧
    deliveredPackets (sendPhase L c st inp).events = [] := by
  unfold sendPhase
  by_cases h1 : st.lastAckReceived < st.lastSendIndex
  · rw [if_pos h1]
    by_cases h2 : inp.nowCheck - st.lastSendTime > 4 * c.interval
    · rw [if_pos h2]
      unfold writePacket
      by_cases hE : (packet2string L c.secretKey (st.sendQueue.get st.lastSendIndex)
          inp.rnd).2 = none
      · simp [hE, acceptedPackets, deliveredPackets]
      · simp [hE, acceptedPackets, deliveredPackets]
    · rw [if_neg h2]
      simp [acceptedPackets, deliveredPackets]
  · rw [if_neg h1]
    cases hch : st.sendChan with
    | nil =>
      simp only []
      by_cases h3 : st.lastAcked < st.lastRecvIndex
      · rw [if_pos h3]
        exact sendNew_frame L c st _ inp
      · rw [if_neg h3]
        simp [acceptedPackets, deliveredPackets]
    | cons cbdata rest =>
      simp only []
      exact sendNew_frame L c { st with sendChan := rest } cbdata inp

theorem acceptedPackets_append (a b : List Event) :
    acceptedPackets (a ++ b) = acceptedPackets a ++ acceptedPackets b := by
  induction a with
  | nil => rfl
  | cons e rest ih => cases e <;> simp [acceptedPackets, ih]

theorem deliveredPackets_append (a b : List Event) :
    deliveredPackets (a ++ b) = deliveredPackets a ++ deliveredPackets b := by
  induction a with
  | nil => rfl
  | cons e rest ih => cases e <;> simp [deliveredPackets, ih]

theorem queuedPackets_append (a b : List Event) :
    queuedPackets (a ++ b) = queuedPackets a ++ queuedPackets b := by
  induction a with
  | nil => rfl
  | cons e rest ih => cases e <;> simp [queuedPackets, ih]

theorem writtenPackets_append (a b : List Event) :
    writtenPackets (a ++ b) = writtenPackets a ++ writtenPackets b := by
  induction a with
  | nil => rfl
  | cons e rest ih => cases e <;> simp [writtenPackets, ih]

/-- An `Ack` that is not larger than the one noted changes nothing. -/
theorem noteAck_of_le (st : LoopState) (p : CBPacket) (h : p.Ack ≤ st.lastAckReceived) :
    noteAck st p = st := by
  unfold noteAck
  rw [if_neg (by omega)]

/-- The receive half of an iteration on a slot value `content`: either nothing
is accepted and `lastRecvIndex` stays, or the decoded packet is accepted, being
for this peer and carrying the next `Seq`, and `lastRecvIndex` becomes its `Seq`. -/
theorem recvPhase_cases (L : CodecLib) (c : Channel) (st : LoopState) (inp : Input) :
    (acceptedPackets (recvPhase L c st inp).events = [] ∧
      (recvPhase L c st inp).st.lastRecvIndex = st.lastRecvIndex) ∨
    (acceptedPackets (recvPhase L c st inp).events = [(string2packet L c.secretKey inp.content).1] ∧
      (recvPhase L c st inp).st.lastRecvIndex = (string2packet L c.secretKey inp.content).1.Seq ∧
      (string2packet L c.secretKey inp.content).1.Seq = st.lastRecvIndex + 1 ∧
      (string2packet L c.secretKey inp.content).1.Target = c.ownHeader ∧
      (string2packet L c.secretKey inp.content).2 = none ∧ inp.content ≠ []) := by
  unfold recvPhase
  by_cases h0 : inp.content ≠ []
  · rw [if_pos h0]
    by_cases hE : (string2packet L c.secretKey inp.content).2 ≠ none
    · rw [if_pos hE]
      exact Or.inl ⟨rfl, rfl⟩
    · rw [if_neg hE]
      by_cases hT : (string2packet L c.secretKey inp.content).1.Target = c.ownHeader
      · by_cases hS : (string2packet L c.secretKey inp.content).1.Seq = st.lastRecvIndex + 1
        · right
          rw [recvPacket_next c st _ _ _ hT hS]
          obtain ⟨a1, _⟩ := acceptPacket_state c
            (noteAck st (string2packet L c.secretKey inp.content).1)
            (string2packet L c.secretKey inp.content).1 inp.nowRecv inp.consumer
          refine ⟨(acceptPacket_events c _ _ _ _).1, ?_, hS, hT, by simpa using hE, h0⟩
          rw [a1, (noteAck_frame st _).1, hS]
        · left
          rw [recvPacket_not_next c st _ _ _ hT hS]
          exact ⟨rfl, (noteAck_frame st _).1⟩
      · left
        rw [recvPacket_other_target c st _ _ _ hT]
        exact ⟨rfl, rfl⟩
  · rw [if_neg h0]
    exact Or.inl ⟨rfl, rfl⟩

/-- The same for a whole iteration. -/
theorem iteration_cases (L : CodecLib) (c : Channel) (st : LoopState) (inp : Input) :
    (acceptedPackets (iteration L c st inp).events = [] ∧
      (iteration L c st inp).st.lastRecvIndex = st.lastRecvIndex) ∨
    (acceptedPackets (iteration L c st inp).events = [(string2packet L c.secretKey inp.content).1] ∧
      (iteration L c st inp).st.lastRecvIndex = (string2packet L c.secretKey inp.content).1.Seq ∧
      (string2packet L c.secretKey inp.content).1.Seq = st.lastRecvIndex + 1 ∧
      (string2packet L c.secretKey inp.content).1.Target = c.ownHeader ∧
      (string2packet L c.secretKey inp.content).2 = none ∧ inp.content ≠ []) := by
  have hr := recvPhase_cases L c st inp
  obtain ⟨s1, _, _, s4, _⟩ := sendPhase_frame L c (recvPhase L c st inp).st inp
  unfold iteration
  by_cases hR : (recvPhase L c st inp).status = Status.running
  · simp only [if_pos hR, acceptedPackets_append, s4, List.append_nil, s1]
    exact hr
  · simp only [if_neg hR]
    exact hr

/-- Reading one slot value any number of times in a row accepts at most one packet. -/
theorem run_same_content (L : CodecLib) (c : Channel) (content : GoString)
    (inputs : List Input) (st : LoopState) :
    (acceptedPackets (run L c st
      (inputs.map (fun i => Action.tick { i with content := content }))).events).length ≤ 1 ∧
    ((string2packet L c.secretKey content).1.Seq ≠ st.lastRecvIndex + 1 →
      acceptedPackets (run L c st
        (inputs.map (fun i => Action.tick { i with content := content }))).events = []) := by
  induction inputs generalizing st with
  | nil => simp [run, acceptedPackets]
  | cons i rest ih =>
    simp only [List.map_cons, run, step]
    have hc := iteration_cases L c st { i with content := content }
    simp only [] at hc
    by_cases hR : (iteration L c st { i with content := content }).status = Status.running
    · simp only [if_pos hR, acceptedPackets_append, List.length_append]
      obtain ⟨ih1, ih2⟩ := ih (iteration L c st { i with content := content }).st
      rcases hc with ⟨e, l⟩ | ⟨e, l, s, _⟩
      · rw [e]
        refine ⟨by simpa using ih1, fun h => ?_⟩
        have h2 := ih2 (by rw [l]; exact h)
        simpa using h2
      · have hne : (string2packet L c.secretKey content).1.Seq ≠
            (iteration L c st { i with content := content }).st.lastRecvIndex + 1 := by
          rw [l]; omega
        rw [e, ih2 hne]
        exact ⟨by simp, fun h => absurd s h⟩
    · simp only [if_neg hR]
      rcases hc with ⟨e, _⟩ | ⟨e, _, s, _⟩
      · rw [e]
        exact ⟨by simp, fun _ => rfl⟩
      · rw [e]
        exact ⟨by simp, fun h => absurd s h⟩

/-- C5: the receive step is idempotent.  Processing a decoded packet `p` a
second time directly after processing it once leaves the whole loop state
(in particular `lastRecvIndex`, `lastAckReceived` and `receiveQueue`) as it
was after the first processing and produces no event: nothing is delivered to
`Receive()` and no control handler runs.  And a slot value read any number of
times in a row (three, for one) has its packet accepted at most once. -/
theorem recvPacket_idempotent (L : CodecLib) (c : Channel) (st : LoopState) (p : CBPacket)
    (now1 now2 : Int) (consumer1 consumer2 : Bool) (content : GoString) (inputs : List Input) :
    recvPacket c (recvPacket c st p now1 consumer1).st p now2 consumer2 =
      { st := (recvPacket c st p now1 consumer1).st, events := [], status := Status.running } ∧
    (acceptedPackets (run L c st
      (inputs.map (fun i => Action.tick { i with content := content }))).events).length ≤ 1 := by
  refine ⟨?_, (run_same_content L c content inputs st).1⟩
  by_cases hT : p.Target = c.ownHeader
  · by_cases hS : p.Seq = st.lastRecvIndex + 1
    · obtain ⟨a1, _, a3, _⟩ := acceptPacket_state c (noteAck st p) p now1 consumer1
      have hl : (recvPacket c st p now1 consumer1).st.lastRecvIndex = p.Seq := by
        rw [recvPacket_next c st p now1 consumer1 hT hS, a1, (noteAck_frame st p).1, hS]
      have ha : p.Ack ≤ (recvPacket c st p now1 consumer1).st.lastAckReceived := by
        rw [recvPacket_next c st p now1 consumer1 hT hS, a3,
          (noteAck_frame st p).2.2.2.2.2.2.2.2.2]
        exact le_max_right _ _
      rw [recvPacket_not_next c _ p now2 consumer2 hT (by rw [hl]; omega), noteAck_of_le _ _ ha]
    · have h1 := recvPacket_not_next c st p now1 consumer1 hT hS
      rw [h1]
      simp only []
      rw [recvPacket_not_next c _ p now2 consumer2 hT (by rw [(noteAck_frame st p).1]; exact hS),
        noteAck_idem]
  · rw [recvPacket_other_target c st p now1 consumer1 hT,
      recvPacket_other_target c st p now2 consumer2 hT]

/-- C6, as stated, fails: a client that has accepted `Seq` 0 and then reads a
packet addressed to it with the old `Seq` 0 and `Ack` 7 moves `lastAckReceived`
from -1 to 7. -/
theorem recvPacket_out_of_window_changes_ack :
    (⟨CLIENT, 0, [], 0, 7⟩ : CBPacket).Target = clientChannel.ownHeader ∧
    (⟨CLIENT, 0, [], 0, 7⟩ : CBPacket).Seq <
      (recvPacket clientChannel (LoopState.init 0) ⟨CLIENT, 0, [], 0, -1⟩ 1 false).st.lastRecvIndex
        + 1 ∧
    (recvPacket clientChannel (LoopState.init 0) ⟨CLIENT, 0, [], 0, -1⟩ 1 false).st.lastAckReceived
      = -1 ∧
    (recvPacket clientChannel
      (recvPacket clientChannel (LoopState.init 0) ⟨CLIENT, 0, [], 0, -1⟩ 1 false).st
      ⟨CLIENT, 0, [], 0, 7⟩ 2 false).st.lastAckReceived = 7 := by
  decide

/-- C6, amended: a decoded packet addressed to this peer with
`p.Seq < lastRecvIndex + 1` is dropped; `lastRecvIndex`, `lastAcked`,
`lastSendIndex`, `sendQueue`, `receiveQueue` (and the clocks and `sendChan`)
are unchanged and there is no event, so nothing is delivered; only
`lastAckReceived` becomes the larger of its old value and `p.Ack`. -/
theorem recvPacket_out_of_window (c : Channel) (st : LoopState) (p : CBPacket) (now : Int)
    (consumer : Bool) (hT : p.Target = c.ownHeader) (hS : p.Seq < st.lastRecvIndex + 1) :
    recvPacket c st p now consumer =
      { st := { st with lastAckReceived := max st.lastAckReceived p.Ack }
        events := [], status := Status.running } := by
  rw [recvPacket_not_next c st p now consumer hT (by omega)]
  have h : noteAck st p = { st with lastAckReceived := max st.lastAckReceived p.Ack } := by
    unfold noteAck
    by_cases hA : p.Ack > st.lastAckReceived
    · rw [if_pos hA, max_eq_right (by omega)]
    · rw [if_neg hA, max_eq_left (by omega)]
  rw [h]

/-- The amended C6 at a client that has accepted `Seq` 3 and reads `Seq` 2 with `Ack` 5. -/
theorem recvPacket_out_of_window_witness :
    recvPacket clientChannel { LoopState.init 0 with lastRecvIndex := 3 }
        ⟨CLIENT, 0, [65], 2, 5⟩ 1 true =
      { st := { LoopState.init 0 with lastRecvIndex := 3, lastAckReceived := 5 }
        events := [], status := Status.running } :=
  recvPacket_out_of_window clientChannel { LoopState.init 0 with lastRecvIndex := 3 }
    ⟨CLIENT, 0, [65], 2, 5⟩ 1 true (by decide) (by decide)

theorem mem_deliveredPackets (evs : List Event) (q : CBPacket) :
    Event.deliver q ∈ evs ↔ q ∈ deliveredPackets evs := by
  induction evs with
  | nil => simp [deliveredPackets]
  | cons e rest ih => cases e <;> simp [deliveredPackets, ih]

theorem mem_queuedPackets (evs : List Event) (q : CBPacket) :
    Event.queued q ∈ evs ↔ q ∈ queuedPackets evs := by
  induction evs with
  | nil => simp [queuedPackets]
  | cons e rest ih => cases e <;> simp [queuedPackets, ih]

/-- Proving a property of the state and the events so far for every run: it is
enough that each kind of action keeps it. -/
theorem run_induction (L : CodecLib) (c : Channel) (P : LoopState → List Event → Prop)
    (hstep : ∀ st evs a, P st evs → P (step L c st a).st (evs ++ (step L c st a).events))
    (actions : List Action) (st : LoopState) (evs : List Event) (h : P st evs) :
    P (run L c st actions).st (evs ++ (run L c st actions).events) := by
  induction actions generalizing st evs with
  | nil => simpa [run] using h
  | cons a rest ih =>
    simp only [run]
    by_cases hR : (step L c st a).status = Status.running
    · simp only [if_pos hR]
      rw [← List.append_assoc]
      exact ih _ _ (hstep st evs a h)
    · simp only [if_neg hR]
      exact hstep st evs a h

/-- A property of the state and the events so far is kept by every action
when it is kept by the two application calls, by the receive step on an
arbitrary decoded packet and by the send half of an iteration. -/
theorem step_parts (L : CodecLib) (c : Channel) (P : LoopState → List Event → Prop)
    (hSend : ∀ st evs data, P st evs → P (Send c st data) evs)
    (hControl : ∀ st evs msg, P st evs → P (sendControl c st msg).1 evs)
    (hRecv : ∀ st evs p now consumer, P st evs →
      P (recvPacket c st p now consumer).st (evs ++ (recvPacket c st p now consumer).events))
    (hSendPhase : ∀ st evs inp, P st evs →
      P (sendPhase L c st inp).st (evs ++ (sendPhase L c st inp).events))
    (st : LoopState) (evs : List Event) (a : Action) (hP : P st evs) :
    P (step L c st a).st (evs ++ (step L c st a).events) := by
  cases a with
  | send data => simpa [step] using hSend st evs data hP
  | control msg => simpa [step] using hControl st evs msg hP
  | tick inp =>
    have hr : P (recvPhase L c st inp).st (evs ++ (recvPhase L c st inp).events) := by
      unfold recvPhase
      by_cases h0 : inp.content ≠ []
      · rw [if_pos h0]
        by_cases hE : (string2packet L c.secretKey inp.content).2 ≠ none
        · rw [if_pos hE]; simpa using hP
        · rw [if_neg hE]; exact hRecv _ _ _ _ _ hP
      · rw [if_neg h0]; simpa using hP
    simp only [step, iteration]
    by_cases hR : (recvPhase L c st inp).status = Status.running
    · simp only [if_pos hR]
      rw [← List.append_assoc]
      exact hSendPhase _ _ inp hr
    · simp only [if_neg hR]
      exact hr

/-- The same for a whole run. -/
theorem run_induction_parts (L : CodecLib) (c : Channel) (P : LoopState → List Event → Prop)
    (hSend : ∀ st evs data, P st evs → P (Send c st data) evs)
    (hControl : ∀ st evs msg, P st evs → P (sendControl c st msg).1 evs)
    (hRecv : ∀ st evs p now consumer, P st evs →
      P (recvPacket c st p now consumer).st (evs ++ (recvPacket c st p now consumer).events))
    (hSendPhase : ∀ st evs inp, P st evs →
      P (sendPhase L c st inp).st (evs ++ (sendPhase L c st inp).events))
    (actions : List Action) (st : LoopState) (evs : List Event) (h : P st evs) :
    P (run L c st actions).st (evs ++ (run L c st actions).events) :=
  run_induction L c P (step_parts L c P hSend hControl hRecv hSendPhase) actions st evs h

/-- The encoding step contributes no event or the one write of the packet. -/
theorem writePacket_cases (L : CodecLib) (c : Channel) (p : CBPacket) (rnd : Option Nonce)
    (r : Bool) :
    writePacket L c p rnd r = [] ∨
      writePacket L c p rnd r = [Event.write p (packet2string L c.secretKey p rnd).1 r] := by
  unfold writePacket
  by_cases hE : (packet2string L c.secretKey p rnd).2 = none
  · rw [if_pos hE]; exact Or.inr rfl
  · rw [if_neg hE]; exact Or.inl rfl

/-- Case analysis of the send half of an iteration: it idles, or it resyncs
(an unacknowledged packet and a stall), or it sends a packet taken from
`sendChan`, or it sends a synthesized empty packet. -/
theorem sendPhase_elim (L : CodecLib) (c : Channel) (st : LoopState) (inp : Input)
    (Q : Outcome → Prop)
    (hIdle : Q { st := st, events := [], status := Status.running })
    (hResync : st.lastAckReceived < st.lastSendIndex →
      inp.nowCheck - st.lastSendTime > 4 * c.interval →
      Q { st := { st with lastSendTime := inp.nowSend }
          events := Event.reset ::
            writePacket L c (st.sendQueue.get st.lastSendIndex) inp.rnd true
          status := Status.running })
    (hChan : ∀ cbdata rest, st.sendChan = cbdata :: rest →
      ¬ st.lastAckReceived < st.lastSendIndex →
      Q (sendNew L c { st with sendChan := rest } cbdata inp))
    (hEmpty : st.sendChan = [] → ¬ st.lastAckReceived < st.lastSendIndex →
      st.lastAcked < st.lastRecvIndex →
      Q (sendNew L c st
        { Target := c.peerHeader, Typ := 0, Payload := [], Seq := 0, Ack := 0 } inp)) :
    Q (sendPhase L c st inp) := by
  unfold sendPhase
  by_cases h1 : st.lastAckReceived < st.lastSendIndex
  · rw [if_pos h1]
    by_cases h2 : inp.nowCheck - st.lastSendTime > 4 * c.interval
    · rw [if_pos h2]; exact hResync h1 h2
    · rw [if_neg h2]; exact hIdle
  · rw [if_neg h1]
    cases hch : st.sendChan with
    | nil =>
      simp only []
      by_cases h3 : st.lastAcked < st.lastRecvIndex
      · rw [if_pos h3]; exact hEmpty hch h1 h3
      · rw [if_neg h3]; exact hIdle
    | cons cbdata rest =>
      simp only []
      exact hChan cbdata rest hch h1

theorem sendControl_sendChan (c : Channel) (st : LoopState) (msg : GoString) :
    (sendControl c st msg).1.sendChan = st.sendChan ∨
    (sendControl c st msg).1.sendChan =
      st.sendChan ++ [⟨c.peerHeader, PacketTypeControl, msg, 0, 0⟩] := by
  unfold sendControl
  by_cases h : (st.sendChan.length : Int) < QueueSize
  · rw [if_pos h]; exact Or.inr rfl
  · rw [if_neg h]; exact Or.inl rfl

theorem processControlPacket_sendChan (c : Channel) (st : LoopState) (p : CBPacket) :
    (processControlPacket c st p).st.sendChan = st.sendChan ∨
    (processControlPacket c st p).st.sendChan =
      st.sendChan ++ [⟨c.peerHeader, PacketTypeControl, ascii "FIN-ACK", 0, 0⟩] := by
  have hs := sendControl_sendChan c st (ascii "FIN-ACK")
  have hi := (initiateDelayedShutdown_frame (sendControl c st (ascii "FIN-ACK")).1).2.2.2.2.2.2.2.2
  unfold processControlPacket
  by_cases hT : p.Typ = PacketTypeControl
  · by_cases hF : (splitCmdArg p.Payload).1 = ascii "FIN"
    · by_cases hR : (sendControl c st (ascii "FIN-ACK")).2 = Status.running
      · rw [if_pos hT, if_pos hF, if_pos hR]
        simp only [hi]
        exact hs
      · rw [if_pos hT, if_pos hF, if_neg hR]
        exact hs
    · by_cases hA : (splitCmdArg p.Payload).1 = ascii "FIN-ACK"
      · rw [if_pos hT, if_neg hF, if_pos hA]
        exact Or.inl rfl
      · by_cases hC : c.hasCallback = true
        · rw [if_pos hT, if_neg hF, if_neg hA, if_pos hC]
          exact Or.inl rfl
        · rw [if_pos hT, if_neg hF, if_neg hA, if_neg hC]
          exact Or.inl rfl
  · rw [if_neg hT]
    exact Or.inl rfl

/-- The receive step leaves `sendChan` as it is or appends the answer to a `FIN`. -/
theorem recvPacket_sendChan (c : Channel) (st : LoopState) (p : CBPacket) (now : Int)
    (consumer : Bool) :
    (recvPacket c st p now consumer).st.sendChan = st.sendChan ∨
    (recvPacket c st p now consumer).st.sendChan =
      st.sendChan ++ [⟨c.peerHeader, PacketTypeControl, ascii "FIN-ACK", 0, 0⟩] := by
  by_cases hT : p.Target = c.ownHeader
  · by_cases hS : p.Seq = st.lastRecvIndex + 1
    · rw [recvPacket_next c st p now consumer hT hS]
      have hn := (noteAck_frame st p).2.2.2.2.2.2.2.1
      generalize noteAck st p = st1 at hn ⊢
      unfold acceptPacket
      by_cases hC : p.Typ = PacketTypeControl
      · simp only [if_pos hC]
        have := processControlPacket_sendChan c
          { st1 with lastRecvIndex := st1.lastRecvIndex + 1,
                     receiveQueue := st1.receiveQueue.set (st1.lastRecvIndex + 1) p,
                     lastRecvTime := now } p
        simpa [hn] using this
      · simp only [if_neg hC]
        by_cases hP : p.Payload ≠ [] <;> by_cases hK : consumer = true <;> simp [hP, hK, hn]
    · rw [recvPacket_not_next c st p now consumer hT hS]
      exact Or.inl (noteAck_frame st p).2.2.2.2.2.2.2.1
  · rw [recvPacket_other_target c st p now consumer hT]
    exact Or.inl rfl

/-- The receive step queues and writes nothing. -/
theorem recvPacket_no_send_events (c : Channel) (st : LoopState) (p : CBPacket) (now : Int)
    (consumer : Bool) :
    queuedPackets (recvPacket c st p now consumer).events = [] ∧
    writtenPackets (recvPacket c st p now consumer).events = [] := by
  by_cases hT : p.Target = c.ownHeader
  · by_cases hS : p.Seq = st.lastRecvIndex + 1
    · rw [recvPacket_next c st p now consumer hT hS]
      exact ⟨(acceptPacket_events c _ p now consumer).2.1,
        (acceptPacket_events c _ p now consumer).2.2.1⟩
    · rw [recvPacket_not_next c st p now consumer hT hS]
      exact ⟨rfl, rfl⟩
  · rw [recvPacket_other_target c st p now consumer hT]
    exact ⟨rfl, rfl⟩

/-- The packets queued by a send of a new packet. -/
theorem sendNew_queued (L : CodecLib) (c : Channel) (st : LoopState) (cbdata : CBPacket)
    (inp : Input) :
    queuedPackets (sendNew L c st cbdata inp).events =
      [{ cbdata with Seq := st.lastSendIndex + 1, Ack := st.lastRecvIndex }] := by
  unfold sendNew
  rcases writePacket_cases L c { cbdata with Seq := st.lastSendIndex + 1, Ack := st.lastRecvIndex }
    inp.rnd false with h | h <;> simp [h, queuedPackets]

/-- Every action keeps: the packets in `sendChan` and the packets queued for
sending are addressed to the peer. -/
theorem step_target (L : CodecLib) (c : Channel) (st : LoopState) (evs : List Event)
    (a : Action)
    (h : (∀ q ∈ st.sendChan, q.Target = c.peerHeader) ∧
      (∀ q ∈ queuedPackets evs, q.Target = c.peerHeader)) :
    (∀ q ∈ (step L c st a).st.sendChan, q.Target = c.peerHeader) ∧
      (∀ q ∈ queuedPackets (evs ++ (step L c st a).events), q.Target = c.peerHeader) := by
  refine step_parts L c
    (fun st evs => (∀ q ∈ st.sendChan, q.Target = c.peerHeader) ∧
      (∀ q ∈ queuedPackets evs, q.Target = c.peerHeader))
    ?_ ?_ ?_ ?_ st evs a h
  · intro st evs data ⟨h1, h2⟩
    refine ⟨?_, h2⟩
    unfold Send
    by_cases hr : (st.sendChan.length : Int) < QueueSize
    · rw [if_pos hr]
      intro q hq
      simp only [List.mem_append, List.mem_singleton] at hq
      rcases hq with hq | hq
      · exact h1 q hq
      · rw [hq]
    · rw [if_neg hr]; exact h1
  · intro st evs msg ⟨h1, h2⟩
    refine ⟨?_, h2⟩
    rcases sendControl_sendChan c st msg with h | h <;> rw [h]
    · exact h1
    · intro q hq
      simp only [List.mem_append, List.mem_singleton] at hq
      rcases hq with hq | hq
      · exact h1 q hq
      · rw [hq]
  · intro st evs p t k ⟨h1, h2⟩
    constructor
    · rcases recvPacket_sendChan c st p t k with h | h <;> rw [h]
      · exact h1
      · intro q hq
        simp only [List.mem_append, List.mem_singleton] at hq
        rcases hq with hq | hq
        · exact h1 q hq
        · rw [hq]
    · rw [queuedPackets_append, (recvPacket_no_send_events c st p t k).1, List.append_nil]
      exact h2
  · intro st evs inp ⟨h1, h2⟩
    refine sendPhase_elim L c st inp
      (fun o => (∀ q ∈ o.st.sendChan, q.Target = c.peerHeader) ∧
        (∀ q ∈ queuedPackets (evs ++ o.events), q.Target = c.peerHeader)) ?_ ?_ ?_ ?_
    · simpa using ⟨h1, h2⟩
    · intro _ _
      refine ⟨h1, ?_⟩
      rcases writePacket_cases L c (st.sendQueue.get st.lastSendIndex) inp.rnd true with h | h <;>
        simpa [h, queuedPackets_append, queuedPackets] using h2
    · intro cbdata rest hch _
      rw [hch] at h1
      constructor
      · intro q hq
        have : q ∈ rest := by simpa [sendNew] using hq
        exact h1 q (List.mem_cons_of_mem _ this)
      · rw [queuedPackets_append, sendNew_queued]
        intro q hq
        simp only [List.mem_append, List.mem_singleton] at hq
        rcases hq with hq | hq
        · exact h2 q hq
        · rw [hq]; exact h1 cbdata (List.mem_cons_self _ _)
    · intro hch _ _
      constructor
      · intro q hq
        have : q ∈ st.sendChan := by simpa [sendNew] using hq
        exact h1 q this
      · rw [queuedPackets_append, sendNew_queued]
        intro q hq
        simp only [List.mem_append, List.mem_singleton] at hq
        rcases hq with hq | hq
        · exact h2 q hq
        · rw [hq]

/-- Every packet a channel queues for sending is addressed to the peer. -/
theorem run_queued_target (L : CodecLib) (c : Channel) (now : Int) (actions : List Action) :
    ∀ q ∈ queuedPackets (run L c (LoopState.init now) actions).events,
      q.Target = c.peerHeader := by
  have h := run_induction L c
    (fun st evs => (∀ q ∈ st.sendChan, q.Target = c.peerHeader) ∧
      (∀ q ∈ queuedPackets evs, q.Target = c.peerHeader))
    (step_target L c) actions (LoopState.init now) [] (by simp [LoopState.init, queuedPackets])
  simpa using h.2

/-- C7: a decoded packet with `p.Target != ownHeader` changes no loop variable
at all (not even `lastAckReceived`) and produces no event, so nothing is
delivered and no control handler runs; whatever the receive step delivers to
`Receive()` is the packet itself and is addressed to this peer.  The headers
set by `NewChannel` differ, and every packet a channel queues for sending
(through `Send`, `sendControl` or the synthesis of an empty packet) is
addressed to the peer, so a channel made by `NewChannel` ignores each of its
own packets in every loop state. -/
theorem recvPacket_target_filter (L : CodecLib) (c : Channel) (st : LoopState) (p : CBPacket)
    (now : Int) (consumer : Bool) (typ : Int) (start : Int) (actions : List Action) :
    (p.Target ≠ c.ownHeader →
      recvPacket c st p now consumer = { st := st, events := [], status := Status.running }) ∧
    (∀ q, Event.deliver q ∈ (recvPacket c st p now consumer).events →
      q = p ∧ p.Target = c.ownHeader) ∧
    (NewChannel.headers typ).2 ≠ (NewChannel.headers typ).1 ∧
    (∀ q ∈ queuedPackets (run L c (LoopState.init start) actions).events,
      q.Target = c.peerHeader) ∧
    (c.peerHeader ≠ c.ownHeader →
      ∀ q ∈ queuedPackets (run L c (LoopState.init start) actions).events,
        recvPacket c st q now consumer =
          { st := st, events := [], status := Status.running }) := by
  refine ⟨recvPacket_other_target c st p now consumer, ?_, ?_,
    run_queued_target L c start actions, ?_⟩
  · intro q hq
    rw [mem_deliveredPackets] at hq
    by_cases hT : p.Target = c.ownHeader
    · by_cases hS : p.Seq = st.lastRecvIndex + 1
      · rw [recvPacket_next c st p now consumer hT hS] at hq
        rcases (acceptPacket_events c (noteAck st p) p now consumer).2.2.2 with h | ⟨h, _⟩
        · rw [h] at hq; simp at hq
        · rw [h] at hq; exact ⟨by simpa using hq, hT⟩
      · rw [recvPacket_not_next c st p now consumer hT hS] at hq
        simp [deliveredPackets] at hq
    · rw [recvPacket_other_target c st p now consumer hT] at hq
      simp [deliveredPackets] at hq
  · unfold NewChannel.headers
    by_cases h : typ = CLIENT
    · rw [if_pos h]; decide
    · rw [if_neg h]; decide
  · intro hne q hq
    exact recvPacket_other_target c st q now consumer
      (by rw [run_queued_target L c start actions q hq]; exact hne)

/-! ## Properties of the codec -/

theorem decodeMap_encodeStd (v : Nat) : decodeMap (encodeStd v) = some (v % 64) := by
  have h : v % 64 < 64 := Nat.mod_lt _ (by decide)
  unfold encodeStd
  simp only []
  generalize v % 64 = s at h
  interval_cases s <;> decide

theorem decodeFrom_char (dbuf : List Nat) (b : Byte) (rest : GoString) (si out : Nat)
    (hb : decodeMap b = some out) (hl : dbuf.length ≠ 3) :
    base64DecodeFrom dbuf (b :: rest) si = base64DecodeFrom (dbuf ++ [out]) rest (si + 1) := by
  rw [base64DecodeFrom]
  simp only [hb]
  rw [if_neg hl]

theorem decodeFrom_last_char (dbuf : List Nat) (b : Byte) (rest : GoString) (si out : Nat)
    (hb : decodeMap b = some out) (hl : dbuf.length = 3) :
    base64DecodeFrom dbuf (b :: rest) si =
      (quantumBytes (dbuf ++ [out]) ++ (base64DecodeFrom [] rest (si + 1)).1,
        (base64DecodeFrom [] rest (si + 1)).2) := by
  rw [base64DecodeFrom]
  simp only [hb]
  rw [if_pos hl]

theorem quantumBytes_three (b0 b1 b2 : Byte) :
    quantumBytes [(b0.val * 65536 + b1.val * 256 + b2.val) / 262144 % 64,
      (b0.val * 65536 + b1.val * 256 + b2.val) / 4096 % 64,
      (b0.val * 65536 + b1.val * 256 + b2.val) / 64 % 64,
      (b0.val * 65536 + b1.val * 256 + b2.val) % 64] = [b0, b1, b2] := by
  have h0 := b0.isLt
  have h1 := b1.isLt
  have h2 := b2.isLt
  simp only [quantumBytes, List.getD_cons_zero, List.getD_cons_succ, List.length_cons,
    List.length_nil, Nat.reduceAdd, Nat.add_one_sub_one, List.take_succ_cons, List.take_zero,
    List.cons.injEq, and_true]
  refine ⟨Fin.ext ?_, Fin.ext ?_, Fin.ext ?_⟩ <;> simp only [Fin.ofNat, Fin.val_mk] <;> omega

theorem quantumBytes_two (b0 b1 : Byte) :
    quantumBytes [(b0.val * 65536 + b1.val * 256) / 262144 % 64,
      (b0.val * 65536 + b1.val * 256) / 4096 % 64,
      (b0.val * 65536 + b1.val * 256) / 64 % 64] = [b0, b1] := by
  have h0 := b0.isLt
  have h1 := b1.isLt
  simp only [quantumBytes, List.getD_cons_zero, List.getD_cons_succ, List.length_cons,
    List.length_nil, Nat.reduceAdd, Nat.add_one_sub_one, List.take_succ_cons, List.take_zero,
    List.cons.injEq, and_true, List.getD_nil]
  refine ⟨Fin.ext ?_, Fin.ext ?_⟩ <;> simp only [Fin.ofNat, Fin.val_mk] <;> omega

theorem quantumBytes_one (b0 : Byte) :
    quantumBytes [(b0.val * 65536) / 262144 % 64, (b0.val * 65536) / 4096 % 64] = [b0] := by
  have h0 := b0.isLt
  simp only [quantumBytes, List.getD_cons_zero, List.getD_cons_succ, List.length_cons,
    List.length_nil, Nat.reduceAdd, Nat.add_one_sub_one, List.take_succ_cons, List.take_zero,
    List.cons.injEq, and_true, List.getD_nil]
  refine Fin.ext ?_
  simp only [Fin.ofNat, Fin.val_mk]
  omega

/-- Decoding what `EncodeToString` produced gives the bytes back, with no error. -/
theorem base64DecodeFrom_encode (bs : GoString) (si : Nat) :
    base64DecodeFrom [] (base64Encode bs) si = (bs, none) := by
  induction bs using base64Encode.induct generalizing si with
  | case1 => simp [base64Encode, base64DecodeFrom]
  | case2 b0 =>
    simp only [base64Encode]
    rw [decodeFrom_char _ _ _ _ _ (decodeMap_encodeStd _) (by simp),
      decodeFrom_char _ _ _ _ _ (decodeMap_encodeStd _) (by simp)]
    rw [base64DecodeFrom]
    have h61 : decodeMap 61 = none := by decide
    simp only [h61, List.nil_append, List.cons_append]
    simp [skipNewlines, quantumBytes_one]
  | case3 b0 b1 =>
    simp only [base64Encode]
    rw [decodeFrom_char _ _ _ _ _ (decodeMap_encodeStd _) (by simp),
      decodeFrom_char _ _ _ _ _ (decodeMap_encodeStd _) (by simp),
      decodeFrom_char _ _ _ _ _ (decodeMap_encodeStd _) (by simp)]
    rw [base64DecodeFrom]
    have h61 : decodeMap 61 = none := by decide
    simp only [h61, List.nil_append, List.cons_append]
    simp [skipNewlines, quantumBytes_two]
  | case4 b0 b1 b2 rest ih =>
    simp only [base64Encode]
    rw [decodeFrom_char _ _ _ _ _ (decodeMap_encodeStd _) (by simp),
      decodeFrom_char _ _ _ _ _ (decodeMap_encodeStd _) (by simp),
      decodeFrom_char _ _ _ _ _ (decodeMap_encodeStd _) (by simp),
      decodeFrom_last_char _ _ _ _ _ (decodeMap_encodeStd _) (by simp)]
    rw [ih]
    simp only [List.nil_append, List.cons_append, quantumBytes_three]

theorem base64DecodeString_encode (bs : GoString) :
    base64DecodeString (base64Encode bs) = (bs, none) :=
  base64DecodeFrom_encode bs 0

theorem readNat_plainNat (n : Nat) (rest : GoString) :
    readNat (plainNat n ++ rest) = some (n, rest) := by
  induction n with
  | zero => simp [plainNat, readNat]
  | succ n ih => simp [plainNat, readNat, ih]

theorem readInt_plainInt (i : Int) (rest : GoString) :
    readInt (plainInt i ++ rest) = some (i, rest) := by
  unfold plainInt
  by_cases h : i < 0
  · simp only [if_pos h, List.cons_append, readInt, readNat_plainNat]
    simp [abs_of_neg h]
  · simp only [if_neg h, List.cons_append, readInt, readNat_plainNat]
    simp [abs_of_nonneg (not_lt.mp h)]

theorem plainDecode_plainEncode (p : CBPacket) : plainDecode (plainEncode p) = some p := by
  unfold plainDecode plainEncode
  simp only [readInt_plainInt]

/-- The small instance meets the contracts. -/
theorem plainLib_lawful : plainLib.Lawful where
  gob_total := by intro p; simp [plainLib]
  gob_inverse := by
    intro p b h
    simp only [plainLib, Option.some.injEq] at h ⊢
    rw [← h]
    exact plainDecode_plainEncode p
  zlib_inverse := by intro b; rfl
  secretbox_inverse := by
    intro m n k
    have hk : (k.val.take 16).length = 16 := by
      rw [List.length_take, k.property]; rfl
    simp only [plainLib]
    rw [List.take_left' hk, if_pos rfl, List.drop_left' hk]

/-- With a working random source `packet2string` returns no error. -/
theorem packet2string_ok (L : CodecLib) (hL : L.Lawful) (p : CBPacket) (k : Key)
    (nonce : Nonce) : (packet2string L k p (some nonce)).2 = none := by
  obtain ⟨enc, henc⟩ := Option.ne_none_iff_exists'.mp (hL.gob_total p)
  unfold packet2string
  rw [henc]

/-- Whatever `packet2string` returns without error decodes to the packet. -/
theorem string2packet_of_packet2string (L : CodecLib) (hL : L.Lawful) (p : CBPacket) (k : Key)
    (rnd : Option Nonce) (h : (packet2string L k p rnd).2 = none) :
    string2packet L k (packet2string L k p rnd).1 = (p, none) := by
  obtain ⟨enc, henc⟩ := Option.ne_none_iff_exists'.mp (hL.gob_total p)
  cases rnd with
  | none =>
    unfold packet2string at h
    rw [henc] at h
    simp at h
  | some nonce =>
    have hp : packet2string L k p (some nonce) =
        (base64Encode (nonce.val ++ L.secretboxSeal (L.zlibCompress enc) nonce k), none) := by
      unfold packet2string
      rw [henc]
    rw [hp]
    unfold string2packet
    simp only [base64DecodeString_encode]
    have hlen : ¬ ((none : Option GoError) ≠ none ∨
        (nonce.val ++ L.secretboxSeal (L.zlibCompress enc) nonce k).length < 24) := by
      rw [List.length_append, nonce.property]
      simp
    rw [dif_neg hlen]
    have hn : nonceOf (nonce.val ++ L.secretboxSeal (L.zlibCompress enc) nonce k)
        (fun hlt => hlen (Or.inr hlt)) = nonce := by
      apply Subtype.ext
      simp only [nonceOf]
      exact List.take_left' nonce.property
    have hd : (nonce.val ++ L.secretboxSeal (L.zlibCompress enc) nonce k).drop 24 =
        L.secretboxSeal (L.zlibCompress enc) nonce k := List.drop_left' nonce.property
    simp only [hn, hd, hL.secretbox_inverse, hL.zlib_inverse, hL.gob_inverse p enc henc]

/-- C3: for a library that meets its contracts, every packet `p`, every key and
every nonce drawn by `packet2string`: `packet2string(p)` returns a string with
no error, and `string2packet` under the same key returns `p` for that string,
with no error. -/
theorem string2packet_packet2string (L : CodecLib) (hL : L.Lawful) (p : CBPacket) (k : Key)
    (nonce : Nonce) :
    (packet2string L k p (some nonce)).2 = none ∧
    string2packet L k (packet2string L k p (some nonce)).1 = (p, none) :=
  ⟨packet2string_ok L hL p k nonce,
    string2packet_of_packet2string L hL p k (some nonce) (packet2string_ok L hL p k nonce)⟩

/-- The statement of C3 at the small instance, for a data packet with payload "hi". -/
theorem string2packet_packet2string_witness :
    (packet2string plainLib sampleKey ⟨SERVER, PacketTypeData, [104, 105], 0, -1⟩
      (some sampleNonce)).2 = none ∧
    string2packet plainLib sampleKey
      (packet2string plainLib sampleKey ⟨SERVER, PacketTypeData, [104, 105], 0, -1⟩
        (some sampleNonce)).1 = (⟨SERVER, PacketTypeData, [104, 105], 0, -1⟩, none) :=
  string2packet_packet2string plainLib plainLib_lawful _ sampleKey sampleNonce

/-- C4 (the code does otherwise): when the base64 decoding succeeds with fewer
than 24 bytes, `string2packet` returns the zero packet and the nil error it got
from the decoder.  For the string "AAAA" (three zero bytes) under every
library and key; and a client loop in its first state then takes the zero
packet for the peer's packet with `Seq` 0: it accepts it. -/
theorem string2packet_short_input (L : CodecLib) (key : Key) (s : GoString) (c : Channel)
    (start : Int) (inp : Input) :
    ((base64DecodeString s).2 = none → (base64DecodeString s).1.length < 24 →
      string2packet L key s = (CBPacket.zero, none)) ∧
    string2packet L key (ascii "AAAA") = (CBPacket.zero, none) ∧
    acceptedPackets (recvPhase L { c with ownHeader := CLIENT } (LoopState.init start)
      { inp with content := ascii "AAAA" }).events = [CBPacket.zero] ∧
    (recvPhase L { c with ownHeader := CLIENT } (LoopState.init start)
      { inp with content := ascii "AAAA" }).st.lastRecvIndex = 0 := by
  have hgen : ∀ (k : Key) (s : GoString), (base64DecodeString s).2 = none →
      (base64DecodeString s).1.length < 24 → string2packet L k s = (CBPacket.zero, none) := by
    intro k s h1 h2
    unfold string2packet
    simp only []
    rw [dif_pos (Or.inr h2), h1]
  have hA : ∀ k : Key, string2packet L k (ascii "AAAA") = (CBPacket.zero, none) :=
    fun k => hgen k _ (by decide) (by decide)
  refine ⟨hgen key s, hA key, ?_⟩
  have hc := recvPhase_cases L { c with ownHeader := CLIENT } (LoopState.init start)
    { inp with content := ascii "AAAA" }
  simp only [hA] at hc
  rcases hc with ⟨_, h⟩ | ⟨h1, h2, _⟩
  · exfalso
    have hr : recvPhase L { c with ownHeader := CLIENT } (LoopState.init start)
        { inp with content := ascii "AAAA" } =
        recvPacket { c with ownHeader := CLIENT } (LoopState.init start) CBPacket.zero
          inp.nowRecv inp.consumer := by
      unfold recvPhase
      simp only [hA]
      rw [if_pos (by decide), if_neg (by simp)]
    rw [hr, recvPacket_next _ _ _ _ _ (by rfl) (by rfl),
      (acceptPacket_state _ _ _ _ _).1, (noteAck_frame _ _).1] at h
    simp [LoopState.init] at h
  · exact ⟨h1, h2⟩

/-! ## Invariants of a run -/

theorem PacketMap.lookup_delete_ne (m : PacketMap) (k j : Int) (h : k ≠ j) :
    (m.delete j).lookup k = m.lookup k := by
  induction m with
  | nil => rfl
  | cons e rest ih =>
    obtain ⟨k', v⟩ := e
    by_cases hj : k' = j
    · have hk : k' ≠ k := by rw [hj]; exact fun h' => h h'.symm
      simp only [PacketMap.delete, List.filter, hj, ne_eq, not_true_eq_false, decide_False,
        PacketMap.lookup]
      rw [if_neg (by rw [← hj]; exact hk)]
      exact ih
    · simp only [PacketMap.delete, List.filter, ne_eq, hj, not_false_eq_true, decide_True,
        PacketMap.lookup]
      by_cases hk : k' = k
      · rw [if_pos hk, if_pos hk]
      · rw [if_neg hk, if_neg hk]
        exact ih

theorem PacketMap.get_of_lookup (m : PacketMap) (k : Int) (v : CBPacket)
    (h : m.lookup k = some v) : m.get k = v := by
  simp [PacketMap.get, h]

/-- The state after a send of a new packet. -/
theorem sendNew_state (L : CodecLib) (c : Channel) (st : LoopState) (cbdata : CBPacket)
    (inp : Input) :
    (sendNew L c st cbdata inp).st.lastSendIndex = st.lastSendIndex + 1 ∧
    (sendNew L c st cbdata inp).st.lastAcked = st.lastRecvIndex ∧
    (sendNew L c st cbdata inp).st.sendChan = st.sendChan ∧
    (sendNew L c st cbdata inp).st.sendQueue.lookup (st.lastSendIndex + 1) =
      some { cbdata with Seq := st.lastSendIndex + 1, Ack := st.lastRecvIndex } := by
  unfold sendNew
  refine ⟨rfl, rfl, rfl, ?_⟩
  simp only []
  by_cases h : st.lastSendIndex + 1 ≥ QueueSize
  · rw [if_pos h, PacketMap.lookup_delete_ne _ _ _ (by unfold QueueSize; omega)]
    exact PacketMap.lookup_set_self _ _ _
  · rw [if_neg h]
    exact PacketMap.lookup_set_self _ _ _

/-- The packets written by a send of a new packet: none, or the packet queued. -/
theorem sendNew_written (L : CodecLib) (c : Channel) (st : LoopState) (cbdata : CBPacket)
    (inp : Input) :
    writtenPackets (sendNew L c st cbdata inp).events = [] ∨
    writtenPackets (sendNew L c st cbdata inp).events =
      [{ cbdata with Seq := st.lastSendIndex + 1, Ack := st.lastRecvIndex }] := by
  unfold sendNew
  rcases writePacket_cases L c { cbdata with Seq := st.lastSendIndex + 1, Ack := st.lastRecvIndex }
    inp.rnd false with h | h <;> simp [h, writtenPackets]

/-- The receive step never lowers `lastRecvIndex`. -/
theorem recvPacket_lastRecvIndex_le (c : Channel) (st : LoopState) (p : CBPacket) (now : Int)
    (consumer : Bool) : st.lastRecvIndex ≤ (recvPacket c st p now consumer).st.lastRecvIndex := by
  by_cases hT : p.Target = c.ownHeader
  · by_cases hS : p.Seq = st.lastRecvIndex + 1
    · rw [recvPacket_next c st p now consumer hT hS, (acceptPacket_state _ _ _ _ _).1,
        (noteAck_frame st p).1]
      omega
    · rw [recvPacket_not_next c st p now consumer hT hS, (noteAck_frame st p).1]
  · rw [recvPacket_other_target c st p now consumer hT]

/-- The receive step leaves the send side alone and never lowers `lastAckReceived`. -/
theorem recvPacket_send_side (c : Channel) (st : LoopState) (p : CBPacket) (now : Int)
    (consumer : Bool) :
    (recvPacket c st p now consumer).st.lastSendIndex = st.lastSendIndex ∧
    (recvPacket c st p now consumer).st.sendQueue = st.sendQueue ∧
    (recvPacket c st p now consumer).st.lastAcked = st.lastAcked ∧
    (recvPacket c st p now consumer).st.lastSendTime = st.lastSendTime ∧
    st.lastAckReceived ≤ (recvPacket c st p now consumer).st.lastAckReceived := by
  obtain ⟨_, n2, n3, _, n5, n6, _, _, _, n10⟩ := noteAck_frame st p
  by_cases hT : p.Target = c.ownHeader
  · by_cases hS : p.Seq = st.lastRecvIndex + 1
    · obtain ⟨_, _, a3, a4, a5, a6, a7⟩ := acceptPacket_state c (noteAck st p) p now consumer
      rw [recvPacket_next c st p now consumer hT hS, a3, a4, a5, a6, a7, n2, n3, n5, n6, n10]
      exact ⟨rfl, rfl, rfl, rfl, le_max_left _ _⟩
    · rw [recvPacket_not_next c st p now consumer hT hS]
      exact ⟨n2, n5, n3, n6, by rw [n10]; exact le_max_left _ _⟩
  · rw [recvPacket_other_target c st p now consumer hT]
    exact ⟨rfl, rfl, rfl, rfl, le_refl _⟩

/-- In a state that satisfies the invariant no packet written has an `Ack`
above `lastRecvIndex`. -/
theorem LoopInv.written_le {st : LoopState} {evs : List Event} (h : LoopInv st evs) :
    ∀ p ∈ writtenPackets evs, p.Ack ≤ st.lastRecvIndex := by
  intro p hp
  cases hq : (queuedPackets evs).getLast? with
  | none =>
    rw [List.getLast?_eq_none_iff] at hq
    have := h.writtenQueued p hp
    rw [hq] at this
    simp at this
  | some q =>
    obtain ⟨_, h2, h3⟩ := h.lastQueued q hq
    exact le_trans (h3 p hp) h2

theorem LoopInv.init_holds (now : Int) : LoopInv (LoopState.init now) [] where
  seqs := by simp [queuedPackets]
  lastSend := by simp [queuedPackets, LoopState.init]
  ackReceived := by simp [LoopState.init]
  recvIndex := by simp [LoopState.init]
  acksSorted := by simp [writtenPackets]
  lastQueued := by intro q hq; simp [queuedPackets] at hq
  writtenQueued := by intro p hp; simp [writtenPackets] at hp

/-- A change of the state that keeps the send side, and lowers neither
`lastRecvIndex` nor `lastAckReceived`, keeps the invariant when no packet is
queued or written. -/
theorem LoopInv.mono {st : LoopState} {evs : List Event} (h : LoopInv st evs)
    (st2 : LoopState) (evs2 : List Event)
    (hq : queuedPackets evs2 = []) (hw : writtenPackets evs2 = [])
    (h1 : st2.lastSendIndex = st.lastSendIndex) (h2 : st2.sendQueue = st.sendQueue)
    (h3 : st.lastRecvIndex ≤ st2.lastRecvIndex)
    (h4 : st.lastAckReceived ≤ st2.lastAckReceived) : LoopInv st2 (evs ++ evs2) where
  seqs := by rw [queuedPackets_append, hq, List.append_nil]; exact h.seqs
  lastSend := by rw [queuedPackets_append, hq, List.append_nil, h1]; exact h.lastSend
  ackReceived := le_trans h.ackReceived h4
  recvIndex := le_trans h.recvIndex h3
  acksSorted := by rw [writtenPackets_append, hw, List.append_nil]; exact h.acksSorted
  lastQueued := by
    intro q hql
    rw [queuedPackets_append, hq, List.append_nil] at hql
    obtain ⟨a, b, d⟩ := h.lastQueued q hql
    rw [writtenPackets_append, hw, List.append_nil, h1, h2]
    exact ⟨a, le_trans b h3, d⟩
  writtenQueued := by
    rw [writtenPackets_append, hw, List.append_nil, queuedPackets_append, hq, List.append_nil]
    exact h.writtenQueued

theorem Send_frame (c : Channel) (st : LoopState) (data : GoString) :
    (Send c st data).lastSendIndex = st.lastSendIndex ∧
    (Send c st data).sendQueue = st.sendQueue ∧
    (Send c st data).lastRecvIndex = st.lastRecvIndex ∧
    (Send c st data).lastAckReceived = st.lastAckReceived ∧
    (Send c st data).lastAcked = st.lastAcked ∧
    (Send c st data).receiveQueue = st.receiveQueue := by
  unfold Send
  by_cases h : (st.sendChan.length : Int) < QueueSize
  · rw [if_pos h]; exact ⟨rfl, rfl, rfl, rfl, rfl, rfl⟩
  · rw [if_neg h]; exact ⟨rfl, rfl, rfl, rfl, rfl, rfl⟩

/-- The resync branch keeps the invariant: it writes the last queued packet. -/
theorem LoopInv.of_resync {st : LoopState} {evs : List Event} (h : LoopInv st evs)
    (L : CodecLib) (c : Channel) (inp : Input) (hlt : st.lastAckReceived < st.lastSendIndex) :
    LoopInv { st with lastSendTime := inp.nowSend }
      (evs ++ Event.reset ::
        writePacket L c (st.sendQueue.get st.lastSendIndex) inp.rnd true) := by
  have hne : queuedPackets evs ≠ [] := by
    intro hnil
    have h1 := h.lastSend
    have h2 := h.ackReceived
    rw [hnil] at h1
    simp at h1
    omega
  obtain ⟨q, hq⟩ : ∃ q, (queuedPackets evs).getLast? = some q := by
    cases hq : (queuedPackets evs).getLast? with
    | none => exact absurd (List.getLast?_eq_none_iff.mp hq) hne
    | some q => exact ⟨q, rfl⟩
  obtain ⟨l1, l2, l3⟩ := h.lastQueued q hq
  rw [PacketMap.get_of_lookup _ _ _ l1]
  rcases writePacket_cases L c q inp.rnd true with hw | hw
  · rw [hw]
    exact h.mono _ [Event.reset] rfl rfl rfl rfl (le_refl _) (le_refl _)
  · rw [hw]
    have hqe : queuedPackets (evs ++ [Event.reset, Event.write q
        (packet2string L c.secretKey q inp.rnd).1 true]) = queuedPackets evs := by
      simp [queuedPackets_append, queuedPackets]
    have hwe : writtenPackets (evs ++ [Event.reset, Event.write q
        (packet2string L c.secretKey q inp.rnd).1 true]) = writtenPackets evs ++ [q] := by
      simp [writtenPackets_append, writtenPackets]
    exact
      { seqs := by rw [hqe]; exact h.seqs
        lastSend := by rw [hqe]; exact h.lastSend
        ackReceived := h.ackReceived
        recvIndex := h.recvIndex
        acksSorted := by
          rw [hwe, List.map_append, List.pairwise_append]
          refine ⟨h.acksSorted, by simp, ?_⟩
          intro a ha b hb
          simp only [List.map_cons, List.map_nil, List.mem_singleton] at hb
          obtain ⟨p, hp, rfl⟩ := List.mem_map.mp ha
          rw [hb]
          exact l3 p hp
        lastQueued := by
          intro q2 hq2
          rw [hqe, hq] at hq2
          cases hq2
          refine ⟨l1, l2, ?_⟩
          intro p hp
          rw [hwe, List.mem_append, List.mem_singleton] at hp
          rcases hp with hp | hp
          · exact l3 p hp
          · rw [hp]
        writtenQueued := by
          intro p hp
          rw [hwe, List.mem_append, List.mem_singleton] at hp
          rw [hqe]
          rcases hp with hp | hp
          · exact h.writtenQueued p hp
          · rw [hp]; exact List.mem_of_getLast?_eq_some hq }

/-- A send of a new packet keeps the invariant. -/
theorem LoopInv.of_sendNew {st : LoopState} {evs : List Event} (h : LoopInv st evs)
    (L : CodecLib) (c : Channel) (cbdata : CBPacket) (inp : Input) :
    LoopInv (sendNew L c st cbdata inp).st (evs ++ (sendNew L c st cbdata inp).events) := by
  obtain ⟨s1, _, _, s4⟩ := sendNew_state L c st cbdata inp
  have sr := (sendNew_frame L c st cbdata inp).1
  have sa := (sendNew_frame L c st cbdata inp).2.1
  have hq := sendNew_queued L c st cbdata inp
  have hlen : ((queuedPackets evs).length : Int) = st.lastSendIndex + 1 := by
    have := h.lastSend; omega
  have hwle := h.written_le
  have hnew : ∀ p ∈ writtenPackets (evs ++ (sendNew L c st cbdata inp).events),
      p.Ack ≤ st.lastRecvIndex ∧ p ∈ queuedPackets (evs ++ (sendNew L c st cbdata inp).events) := by
    intro p hp
    rw [writtenPackets_append, List.mem_append] at hp
    rw [queuedPackets_append, hq, List.mem_append, List.mem_singleton]
    rcases hp with hp | hp
    · exact ⟨hwle p hp, Or.inl (h.writtenQueued p hp)⟩
    · rcases sendNew_written L c st cbdata inp with hw | hw
      · rw [hw] at hp; simp at hp
      · rw [hw, List.mem_singleton] at hp
        rw [hp]
        exact ⟨le_refl _, Or.inr rfl⟩
  exact
    { seqs := by
        rw [queuedPackets_append, hq, List.map_append, List.length_append, List.length_singleton,
          List.range_succ, List.map_append, h.seqs]
        simp only [List.map_cons, List.map_nil, List.append_cancel_left_eq, List.cons.injEq,
          and_true]
        omega
      lastSend := by
        rw [queuedPackets_append, hq, List.length_append, List.length_singleton, s1]
        push_cast
        omega
      ackReceived := by rw [sa]; exact h.ackReceived
      recvIndex := by rw [sr]; exact h.recvIndex
      acksSorted := by
        rw [writtenPackets_append, List.map_append]
        rcases sendNew_written L c st cbdata inp with hw | hw
        · rw [hw]; simpa using h.acksSorted
        · rw [hw, List.pairwise_append]
          refine ⟨h.acksSorted, by simp, ?_⟩
          intro a ha b hb
          simp only [List.map_cons, List.map_nil, List.mem_singleton] at hb
          obtain ⟨p, hp, rfl⟩ := List.mem_map.mp ha
          rw [hb]
          exact hwle p hp
      lastQueued := by
        intro q hql
        rw [queuedPackets_append, hq, List.getLast?_concat] at hql
        simp only [Option.some.injEq] at hql
        rw [← hql, s1, sr]
        exact ⟨s4, le_refl _, fun p hp => (hnew p hp).1⟩
      writtenQueued := fun p hp => (hnew p hp).2 }

/-- Every action keeps the invariant. -/
theorem step_LoopInv (L : CodecLib) (c : Channel) (st : LoopState) (evs : List Event)
    (a : Action) (h : LoopInv st evs) :
    LoopInv (step L c st a).st (evs ++ (step L c st a).events) := by
  refine step_parts L c (fun st evs => LoopInv st evs) ?_ ?_ ?_ ?_ st evs a h
  · intro st evs data hI
    obtain ⟨f1, f2, f3, f4, _⟩ := Send_frame c st data
    simpa using hI.mono _ [] rfl rfl f1 f2 (le_of_eq f3.symm) (le_of_eq f4.symm)
  · intro st evs msg hI
    obtain ⟨f1, f2, f3, _, _, f6, _⟩ := sendControl_frame c st msg
    simpa using hI.mono _ [] rfl rfl f2 f6 (le_of_eq f1.symm) (le_of_eq f3.symm)
  · intro st evs p t k hI
    obtain ⟨f1, f2, _, _, f5⟩ := recvPacket_send_side c st p t k
    exact hI.mono _ _ (recvPacket_no_send_events c st p t k).1
      (recvPacket_no_send_events c st p t k).2 f1 f2 (recvPacket_lastRecvIndex_le c st p t k) f5
  · intro st evs inp hI
    refine sendPhase_elim L c st inp (fun o => LoopInv o.st (evs ++ o.events)) ?_ ?_ ?_ ?_
    · simpa using hI
    · intro hlt _
      exact hI.of_resync L c inp hlt
    · intro cbdata rest _ _
      have hI2 : LoopInv { st with sendChan := rest } evs := by
        simpa using hI.mono { st with sendChan := rest } [] rfl rfl rfl rfl
          (le_refl _) (le_refl _)
      exact hI2.of_sendNew L c cbdata inp
    · intro _ _ _
      exact hI.of_sendNew L c _ inp

/-- The invariant holds of every run of a loop from its first state. -/
theorem run_LoopInv (L : CodecLib) (c : Channel) (now : Int) (actions : List Action) :
    LoopInv (run L c (LoopState.init now) actions).st
      (run L c (LoopState.init now) actions).events := by
  have h := run_induction L c (fun st evs => LoopInv st evs) (step_LoopInv L c) actions
    (LoopState.init now) [] (LoopInv.init_holds now)
  simpa using h

/-- C8: in every run of the channel loop the packets that get a sequence number
(the new packets, in the order in which they are stored in `sendQueue` and
handed to the encoder, whether or not encoding or the write succeeds) carry
`Seq` 0, 1, 2, ... in this order, with no skip and no reuse, and
`lastSendIndex` is the `Seq` of the last of them (-1 when there is none). -/
theorem run_seq_consecutive (L : CodecLib) (c : Channel) (start : Int)
    (actions : List Action) :
    (LoopState.init start).lastSendIndex = -1 ∧
    (queuedPackets (run L c (LoopState.init start) actions).events).map CBPacket.Seq =
      (List.range (queuedPackets (run L c (LoopState.init start) actions).events).length).map
        (fun k : Nat => (k : Int)) ∧
    (run L c (LoopState.init start) actions).st.lastSendIndex =
      ((queuedPackets (run L c (LoopState.init start) actions).events).length : Int) - 1 ∧
    (∀ p ∈ writtenPackets (run L c (LoopState.init start) actions).events,
      p ∈ queuedPackets (run L c (LoopState.init start) actions).events) :=
  ⟨rfl, (run_LoopInv L c start actions).seqs, (run_LoopInv L c start actions).lastSend,
    (run_LoopInv L c start actions).writtenQueued⟩

/-- C9: for every run of the channel loop, the `Ack` fields of the packets it
writes to the transport, in write order and with the retransmissions, never
decrease. -/
theorem run_acks_nondecreasing (L : CodecLib) (c : Channel) (start : Int)
    (actions : List Action) :
    ((writtenPackets (run L c (LoopState.init start) actions).events).map
      CBPacket.Ack).Pairwise (fun a b => a ≤ b) :=
  (run_LoopInv L c start actions).acksSorted

theorem mem_writtenPackets (evs : List Event) (p : CBPacket) (s : GoString) (r : Bool)
    (h : Event.write p s r ∈ evs) : p ∈ writtenPackets evs := by
  induction evs with
  | nil => simp at h
  | cons e rest ih =>
    rcases List.mem_cons.mp h with h1 | h2
    · rw [← h1]; simp [writtenPackets]
    · have h3 := ih h2
      cases e <;> simp [writtenPackets, h3]

/-- The receive half of an iteration does nothing or is the receive step on
the decoded packet. -/
theorem recvPhase_eq (L : CodecLib) (c : Channel) (st : LoopState) (inp : Input) :
    recvPhase L c st inp = { st := st, events := [], status := Status.running } ∨
    recvPhase L c st inp =
      recvPacket c st (string2packet L c.secretKey inp.content).1 inp.nowRecv inp.consumer := by
  unfold recvPhase
  by_cases h0 : inp.content ≠ []
  · rw [if_pos h0]
    by_cases hE : (string2packet L c.secretKey inp.content).2 ≠ none
    · rw [if_pos hE]; exact Or.inl rfl
    · rw [if_neg hE]; exact Or.inr rfl
  · rw [if_neg h0]; exact Or.inl rfl

/-- The receive half of an iteration keeps the invariant, writes nothing and
leaves the send side alone. -/
theorem recvPhase_LoopInv (L : CodecLib) (c : Channel) (st : LoopState) (inp : Input)
    (evs : List Event) (h : LoopInv st evs) :
    LoopInv (recvPhase L c st inp).st (evs ++ (recvPhase L c st inp).events) ∧
    writtenPackets (recvPhase L c st inp).events = [] ∧
    queuedPackets (evs ++ (recvPhase L c st inp).events) = queuedPackets evs := by
  rcases recvPhase_eq L c st inp with e | e <;> rw [e]
  · simpa [writtenPackets] using h
  · obtain ⟨f1, f2, _, _, f5⟩ := recvPacket_send_side c st
      (string2packet L c.secretKey inp.content).1 inp.nowRecv inp.consumer
    obtain ⟨g1, g2⟩ := recvPacket_no_send_events c st
      (string2packet L c.secretKey inp.content).1 inp.nowRecv inp.consumer
    refine ⟨h.mono _ _ g1 g2 f1 f2 (recvPacket_lastRecvIndex_le _ _ _ _ _) f5, g2, ?_⟩
    rw [queuedPackets_append, g1, List.append_nil]

/-- The writes of the send half of an iteration: a retransmission writes
`sendQueue[lastSendIndex]`, a new packet carries the current `lastRecvIndex`. -/
theorem sendPhase_write (L : CodecLib) (c : Channel) (st : LoopState) (inp : Input)
    (p : CBPacket) (s : GoString) (r : Bool)
    (h : Event.write p s r ∈ (sendPhase L c st inp).events) :
    (r = true ∧ st.lastAckReceived < st.lastSendIndex ∧
      p = st.sendQueue.get st.lastSendIndex) ∨
    (r = false ∧ p.Ack = st.lastRecvIndex ∧ p.Seq = st.lastSendIndex + 1) := by
  revert h
  refine sendPhase_elim L c st inp (fun o => Event.write p s r ∈ o.events → _) ?_ ?_ ?_ ?_
  · intro h; simp at h
  · intro hlt _ h
    rcases writePacket_cases L c (st.sendQueue.get st.lastSendIndex) inp.rnd true with hw | hw
    · rw [hw] at h; simp at h
    · rw [hw] at h
      simp only [List.mem_cons, List.mem_singleton, Event.write.injEq, false_or,
        List.not_mem_nil, or_false] at h
      simp only [reduceCtorEq, false_or] at h
      exact Or.inl ⟨h.2.2, hlt, h.1⟩
  · intro cbdata rest _ _ h
    unfold sendNew at h
    rcases writePacket_cases L c
      { cbdata with Seq := st.lastSendIndex + 1, Ack := st.lastRecvIndex } inp.rnd false
      with hw | hw
    · simp only [hw] at h; simp at h
    · simp only [hw] at h
      simp only [List.mem_cons, List.mem_singleton, Event.write.injEq, reduceCtorEq, false_or,
        List.not_mem_nil, or_false] at h
      right
      rw [h.1]
      exact ⟨h.2.2, rfl, rfl⟩
  · intro _ _ _ h
    unfold sendNew at h
    rcases writePacket_cases L c
      { Target := c.peerHeader, Typ := 0, Payload := [], Seq := st.lastSendIndex + 1,
        Ack := st.lastRecvIndex } inp.rnd false with hw | hw
    · simp only [hw] at h; simp at h
    · simp only [hw] at h
      simp only [List.mem_cons, List.mem_singleton, Event.write.injEq, reduceCtorEq, false_or,
        List.not_mem_nil, or_false] at h
      right
      rw [h.1]
      exact ⟨h.2.2, rfl, rfl⟩

/-- C10, as stated, fails: a client sends "hi" (`Seq` 0, `Ack` -1), then
reads and accepts the server's first packet, so that `lastRecvIndex` is 0, and,
its own packet being unacknowledged for more than four intervals, writes it
again: the retransmission carries `Ack` -1.  (The strings in the slot are
those of the small instance of the library; the loop does the same with every
library that meets its contracts.) -/
theorem retransmission_keeps_old_ack :
    writtenPackets (iteration plainLib clientChannel
      (run plainLib clientChannel (LoopState.init 0)
        [Action.send [104, 105], Action.tick (sampleInput [] 1000000000)]).st
      (sampleInput sampleServerFirst 9000000000)).events =
        [⟨SERVER, PacketTypeData, [104, 105], 0, -1⟩] ∧
    (iteration plainLib clientChannel
      (run plainLib clientChannel (LoopState.init 0)
        [Action.send [104, 105], Action.tick (sampleInput [] 1000000000)]).st
      (sampleInput sampleServerFirst 9000000000)).st.lastRecvIndex = 0 := by
  decide

/-- C10, amended: in every iteration after any run of the loop, a new packet
that is written (an empty one included) carries `Ack` equal to `lastRecvIndex`
at the moment of the write; a retransmission is the packet stored in
`sendQueue` at its first send, with the `Ack` it got then, which is at most
the current `lastRecvIndex`. -/
theorem iteration_write_ack (L : CodecLib) (c : Channel) (start : Int)
    (actions : List Action) (inp : Input) (p : CBPacket) (s : GoString) (r : Bool)
    (hw : Event.write p s r ∈
      (iteration L c (run L c (LoopState.init start) actions).st inp).events) :
    (r = false →
      p.Ack = (iteration L c (run L c (LoopState.init start) actions).st inp).st.lastRecvIndex) ∧
    (r = true →
      p ∈ queuedPackets (run L c (LoopState.init start) actions).events ∧
      p.Ack ≤ (iteration L c (run L c (LoopState.init start) actions).st inp).st.lastRecvIndex) := by
  have hI := run_LoopInv L c start actions
  generalize (run L c (LoopState.init start) actions).st = st at hI hw ⊢
  generalize (run L c (LoopState.init start) actions).events = evs at hI ⊢
  obtain ⟨hI2, hnw, hq⟩ := recvPhase_LoopInv L c st inp evs hI
  unfold iteration at hw ⊢
  by_cases hR : (recvPhase L c st inp).status = Status.running
  · simp only [if_pos hR] at hw ⊢
    rw [(sendPhase_frame L c _ inp).1]
    rw [List.mem_append] at hw
    rcases hw with hw | hw
    · have := mem_writtenPackets _ _ _ _ hw
      rw [hnw] at this
      simp at this
    · rcases sendPhase_write L c _ inp p s r hw with ⟨h1, h2, h3⟩ | ⟨h1, h2, _⟩
      · refine ⟨fun h => (by rw [h1] at h; cases h), fun _ => ?_⟩
        have hne : queuedPackets (evs ++ (recvPhase L c st inp).events) ≠ [] := by
          intro hnil
          have l1 := hI2.lastSend
          have l2 := hI2.ackReceived
          rw [hnil] at l1
          simp at l1
          omega
        obtain ⟨q, hql⟩ : ∃ q, (queuedPackets (evs ++ (recvPhase L c st inp).events)).getLast? =
            some q := by
          cases hql : (queuedPackets (evs ++ (recvPhase L c st inp).events)).getLast? with
          | none => exact absurd (List.getLast?_eq_none_iff.mp hql) hne
          | some q => exact ⟨q, rfl⟩
        obtain ⟨m1, m2, _⟩ := hI2.lastQueued q hql
        rw [PacketMap.get_of_lookup _ _ _ m1] at h3
        rw [h3]
        refine ⟨?_, m2⟩
        rw [← hq]
        exact List.mem_of_getLast?_eq_some hql
      · exact ⟨fun _ => h2, fun h => (by rw [h1] at h; cases h)⟩
  · simp only [if_neg hR] at hw
    have := mem_writtenPackets _ _ _ _ hw
    rw [hnw] at this
    simp at this

/-- The amended C10 at the retransmission of the client's first packet. -/
theorem iteration_write_ack_witness :
    (true = false → (⟨SERVER, PacketTypeData, [104, 105], 0, -1⟩ : CBPacket).Ack =
      (iteration plainLib clientChannel
        (run plainLib clientChannel (LoopState.init 0)
          [Action.send [104, 105], Action.tick (sampleInput [] 1000000000)]).st
        (sampleInput sampleServerFirst 9000000000)).st.lastRecvIndex) ∧
    (true = true →
      (⟨SERVER, PacketTypeData, [104, 105], 0, -1⟩ : CBPacket) ∈
        queuedPackets (run plainLib clientChannel (LoopState.init 0)
          [Action.send [104, 105], Action.tick (sampleInput [] 1000000000)]).events ∧
      (⟨SERVER, PacketTypeData, [104, 105], 0, -1⟩ : CBPacket).Ack ≤
        (iteration plainLib clientChannel
          (run plainLib clientChannel (LoopState.init 0)
            [Action.send [104, 105], Action.tick (sampleInput [] 1000000000)]).st
          (sampleInput sampleServerFirst 9000000000)).st.lastRecvIndex) :=
  iteration_write_ack plainLib clientChannel 0
    [Action.send [104, 105], Action.tick (sampleInput [] 1000000000)]
    (sampleInput sampleServerFirst 9000000000) ⟨SERVER, PacketTypeData, [104, 105], 0, -1⟩
    (packet2string plainLib sampleKey ⟨SERVER, PacketTypeData, [104, 105], 0, -1⟩
      (some sampleNonce)).1 true (by decide)

/-! ## Two channels on one slot -/

theorem mem_writtenStrings (evs : List Event) (s : GoString) (h : s ∈ writtenStrings evs) :
    ∃ p r, Event.write p s r ∈ evs := by
  induction evs with
  | nil => simp [writtenStrings] at h
  | cons e rest ih =>
    cases e with
    | write p s2 r =>
      simp only [writtenStrings, List.mem_cons] at h
      rcases h with h | h
      · exact ⟨p, r, by rw [h]; exact List.mem_cons_self _ _⟩
      · obtain ⟨p2, r2, h2⟩ := ih h
        exact ⟨p2, r2, List.mem_cons_of_mem _ h2⟩
    | _ =>
      simp only [writtenStrings] at h
      obtain ⟨p2, r2, h2⟩ := ih h
      exact ⟨p2, r2, List.mem_cons_of_mem _ h2⟩

theorem not_mem_write_of_writtenPackets_nil (evs : List Event) (h : writtenPackets evs = [])
    (p : CBPacket) (s : GoString) (r : Bool) : Event.write p s r ∉ evs := by
  intro hm
  have := mem_writtenPackets evs p s r hm
  rw [h] at this
  simp at this

/-- What the encoding step writes decodes to the packet. -/
theorem writePacket_decodes (L : CodecLib) (hL : L.Lawful) (c : Channel) (q : CBPacket)
    (rnd : Option Nonce) (r0 : Bool) (p : CBPacket) (s : GoString) (r : Bool)
    (h : Event.write p s r ∈ writePacket L c q rnd r0) :
    string2packet L c.secretKey s = (p, none) := by
  unfold writePacket at h
  by_cases hE : (packet2string L c.secretKey q rnd).2 = none
  · rw [if_pos hE] at h
    simp only [List.mem_singleton, Event.write.injEq] at h
    rw [h.1, h.2.1]
    exact string2packet_of_packet2string L hL q c.secretKey rnd hE
  · rw [if_neg hE] at h
    simp at h

/-- Every action keeps: each string written decodes to the packet written. -/
theorem step_writes (L : CodecLib) (hL : L.Lawful) (c : Channel) (st : LoopState)
    (evs : List Event) (a : Action)
    (h : ∀ p s r, Event.write p s r ∈ evs → string2packet L c.secretKey s = (p, none)) :
    ∀ p s r, Event.write p s r ∈ evs ++ (step L c st a).events →
      string2packet L c.secretKey s = (p, none) := by
  refine step_parts L c
    (fun _ evs => ∀ p s r, Event.write p s r ∈ evs → string2packet L c.secretKey s = (p, none))
    ?_ ?_ ?_ ?_ st evs a h
  · intro _ _ _ h; exact h
  · intro _ _ _ h; exact h
  · intro st evs q t k h p s r hm
    rcases List.mem_append.mp hm with hm | hm
    · exact h p s r hm
    · exact absurd hm (not_mem_write_of_writtenPackets_nil _
        (recvPacket_no_send_events c st q t k).2 p s r)
  · intro st evs inp h p s r hm
    rcases List.mem_append.mp hm with hm | hm
    · exact h p s r hm
    · revert hm
      refine sendPhase_elim L c st inp (fun o => Event.write p s r ∈ o.events → _) ?_ ?_ ?_ ?_
      · intro hm; simp at hm
      · intro _ _ hm
        simp only [List.mem_cons, reduceCtorEq, false_or] at hm
        exact writePacket_decodes L hL c _ _ _ p s r hm
      · intro cbdata rest _ _ hm
        unfold sendNew at hm
        simp only [List.mem_cons, reduceCtorEq, false_or] at hm
        exact writePacket_decodes L hL c _ _ _ p s r hm
      · intro _ _ _ hm
        unfold sendNew at hm
        simp only [List.mem_cons, reduceCtorEq, false_or] at hm
        exact writePacket_decodes L hL c _ _ _ p s r hm

/-- Every action keeps: the number of accepted packets is `lastRecvIndex + 1`. -/
theorem step_acceptedLen (L : CodecLib) (c : Channel) (st : LoopState) (evs : List Event)
    (a : Action) (h : ((acceptedPackets evs).length : Int) = st.lastRecvIndex + 1) :
    ((acceptedPackets (evs ++ (step L c st a).events)).length : Int) =
      (step L c st a).st.lastRecvIndex + 1 := by
  refine step_parts L c
    (fun st evs => ((acceptedPackets evs).length : Int) = st.lastRecvIndex + 1)
    ?_ ?_ ?_ ?_ st evs a h
  · intro st evs data h
    rw [(Send_frame c st data).2.2.1]; exact h
  · intro st evs msg h
    rw [(sendControl_frame c st msg).1]; exact h
  · intro st evs p t k h
    by_cases hT : p.Target = c.ownHeader
    · by_cases hS : p.Seq = st.lastRecvIndex + 1
      · rw [recvPacket_next c st p t k hT hS, acceptedPackets_append,
          (acceptPacket_events _ _ _ _ _).1, (acceptPacket_state _ _ _ _ _).1,
          (noteAck_frame st p).1, List.length_append, List.length_singleton]
        push_cast
        omega
      · rw [recvPacket_not_next c st p t k hT hS]
        simpa [(noteAck_frame st p).1] using h
    · rw [recvPacket_other_target c st p t k hT]
      simpa using h
  · intro st evs inp h
    obtain ⟨f1, _, _, f4, _⟩ := sendPhase_frame L c st inp
    rw [acceptedPackets_append, f4, List.append_nil, f1]
    exact h

theorem dataPayloads_append (a b : List CBPacket) :
    dataPayloads (a ++ b) = dataPayloads a ++ dataPayloads b := by
  simp [dataPayloads]

theorem dataPayloads_singleton (p : CBPacket) :
    dataPayloads [p] = if p.Typ ≠ PacketTypeControl ∧ p.Payload ≠ [] then [p.Payload] else [] := by
  by_cases h1 : p.Typ = PacketTypeControl <;> by_cases h2 : p.Payload = [] <;>
    simp [dataPayloads, List.filter, h1, h2]

/-- What the acceptance branch hands to `Receive()`, empty payloads left aside,
is the payload of the accepted packet when that is a data packet with bytes,
unless the loop is left waiting for a consumer. -/
theorem acceptPacket_delivery (c : Channel) (st : LoopState) (p : CBPacket) (now : Int)
    (consumer : Bool) :
    ((deliveredPackets (acceptPacket c st p now consumer).events).map CBPacket.Payload).filter
        (fun d => decide (d ≠ [])) <+:
      dataPayloads (acceptedPackets (acceptPacket c st p now consumer).events) ∧
    ((acceptPacket c st p now consumer).status = Status.running →
      ((deliveredPackets (acceptPacket c st p now consumer).events).map CBPacket.Payload).filter
          (fun d => decide (d ≠ [])) =
        dataPayloads (acceptedPackets (acceptPacket c st p now consumer).events)) := by
  rw [(acceptPacket_events c st p now consumer).1, dataPayloads_singleton]
  unfold acceptPacket
  by_cases hC : p.Typ = PacketTypeControl
  · simp only [if_pos hC]
    rcases processControlPacket_events c
      { st with lastRecvIndex := st.lastRecvIndex + 1,
                receiveQueue := st.receiveQueue.set (st.lastRecvIndex + 1) p,
                lastRecvTime := now } p with h | h | h | h <;>
      rw [h] <;> simp [deliveredPackets, hC]
  · simp only [if_neg hC]
    by_cases hP : p.Payload ≠ [] <;> by_cases hK : consumer = true <;>
      simp [hP, hK, hC, deliveredPackets]

/-- The same for a whole iteration. -/
theorem iteration_delivery (L : CodecLib) (c : Channel) (st : LoopState) (inp : Input) :
    ((deliveredPackets (iteration L c st inp).events).map CBPacket.Payload).filter
        (fun d => decide (d ≠ [])) <+:
      dataPayloads (acceptedPackets (iteration L c st inp).events) ∧
    ((iteration L c st inp).status = Status.running →
      ((deliveredPackets (iteration L c st inp).events).map CBPacket.Payload).filter
          (fun d => decide (d ≠ [])) =
        dataPayloads (acceptedPackets (iteration L c st inp).events)) := by
  have hrecv :
      ((deliveredPackets (recvPhase L c st inp).events).map CBPacket.Payload).filter
          (fun d => decide (d ≠ [])) <+:
        dataPayloads (acceptedPackets (recvPhase L c st inp).events) ∧
      ((recvPhase L c st inp).status = Status.running →
        ((deliveredPackets (recvPhase L c st inp).events).map CBPacket.Payload).filter
            (fun d => decide (d ≠ [])) =
          dataPayloads (acceptedPackets (recvPhase L c st inp).events)) := by
    rcases recvPhase_eq L c st inp with e | e <;> rw [e]
    · simp [deliveredPackets, acceptedPackets, dataPayloads]
    · generalize (string2packet L c.secretKey inp.content).1 = p
      by_cases hT : p.Target = c.ownHeader
      · by_cases hS : p.Seq = st.lastRecvIndex + 1
        · rw [recvPacket_next c st p _ _ hT hS]
          exact acceptPacket_delivery c _ p _ _
        · rw [recvPacket_not_next c st p _ _ hT hS]
          simp [deliveredPackets, acceptedPackets, dataPayloads]
      · rw [recvPacket_other_target c st p _ _ hT]
        simp [deliveredPackets, acceptedPackets, dataPayloads]
  obtain ⟨_, _, f3, f4, f5⟩ := sendPhase_frame L c (recvPhase L c st inp).st inp
  unfold iteration
  by_cases hR : (recvPhase L c st inp).status = Status.running
  · simp only [if_pos hR, deliveredPackets_append, acceptedPackets_append, f4, f5,
      List.append_nil]
    exact ⟨hrecv.1, fun _ => hrecv.2 hR⟩
  · simp only [if_neg hR]
    exact hrecv

theorem recvPacket_pending (c : Channel) (st : LoopState) (p : CBPacket) (now : Int)
    (consumer : Bool) :
    dataPayloads (recvPacket c st p now consumer).st.sendChan = dataPayloads st.sendChan := by
  rcases recvPacket_sendChan c st p now consumer with h | h <;> rw [h]
  rw [dataPayloads_append, dataPayloads_singleton]
  simp

theorem sendNew_pending (L : CodecLib) (c : Channel) (st : LoopState) (cbdata : CBPacket)
    (inp : Input) :
    dataPayloads (queuedPackets (sendNew L c st cbdata inp).events) ++
        dataPayloads (sendNew L c st cbdata inp).st.sendChan =
      dataPayloads (cbdata :: st.sendChan) := by
  rw [sendNew_queued, (sendNew_state L c st cbdata inp).2.2.1]
  rw [show cbdata :: st.sendChan = [cbdata] ++ st.sendChan from rfl, dataPayloads_append,
    dataPayloads_singleton, dataPayloads_singleton]

theorem sendPhase_pending (L : CodecLib) (c : Channel) (st : LoopState) (inp : Input) :
    dataPayloads (queuedPackets (sendPhase L c st inp).events) ++
        dataPayloads (sendPhase L c st inp).st.sendChan =
      dataPayloads st.sendChan := by
  refine sendPhase_elim L c st inp
    (fun o => dataPayloads (queuedPackets o.events) ++ dataPayloads o.st.sendChan =
      dataPayloads st.sendChan) ?_ ?_ ?_ ?_
  · simp [queuedPackets, dataPayloads]
  · intro _ _
    rcases writePacket_cases L c (st.sendQueue.get st.lastSendIndex) inp.rnd true with h | h <;>
      simp [h, queuedPackets, dataPayloads]
  · intro cbdata rest hch _
    rw [sendNew_pending, hch]
  · intro hch _ _
    rw [sendNew_pending, hch, dataPayloads_singleton]
    simp [dataPayloads]

/-- An iteration moves packets from `sendChan` to the queued packets, adds
empty packets and control packets, and so keeps the bytes that are queued or
waiting in `sendChan`. -/
theorem iteration_pending (L : CodecLib) (c : Channel) (st : LoopState) (inp : Input) :
    dataPayloads (queuedPackets (iteration L c st inp).events) ++
        dataPayloads (iteration L c st inp).st.sendChan =
      dataPayloads st.sendChan := by
  have hq : queuedPackets (recvPhase L c st inp).events = [] ∧
      dataPayloads (recvPhase L c st inp).st.sendChan = dataPayloads st.sendChan := by
    rcases recvPhase_eq L c st inp with e | e <;> rw [e]
    · exact ⟨rfl, rfl⟩
    · exact ⟨(recvPacket_no_send_events c st _ _ _).1, recvPacket_pending c st _ _ _⟩
  unfold iteration
  by_cases hR : (recvPhase L c st inp).status = Status.running
  · simp only [if_pos hR, queuedPackets_append, hq.1, List.nil_append]
    rw [sendPhase_pending, hq.2]
  · simp only [if_neg hR, hq.1, hq.2]
    simp [dataPayloads]

theorem Send_pending (c : Channel) (st : LoopState) (data : GoString) :
    dataPayloads (Send c st data).sendChan =
      dataPayloads st.sendChan ++
        (if ((st.sendChan.length : Nat) : Int) < QueueSize then [data] else []).filter
          (fun d => decide (d ≠ [])) := by
  unfold Send
  by_cases h : ((st.sendChan.length : Nat) : Int) < QueueSize
  · rw [if_pos h, if_pos h, dataPayloads_append, dataPayloads_singleton]
    by_cases hd : data = [] <;> simp [hd, PacketTypeControl]
  · rw [if_neg h, if_neg h]
    simp

theorem sendControl_pending (c : Channel) (st : LoopState) (msg : GoString) :
    dataPayloads (sendControl c st msg).1.sendChan = dataPayloads st.sendChan := by
  rcases sendControl_sendChan c st msg with h | h <;> rw [h]
  rw [dataPayloads_append, dataPayloads_singleton]
  simp

/-- In a list of packets numbered 0, 1, 2, ... a packet extends an initial
segment when its number is the length of the segment. -/
theorem prefix_extend (A Q : List CBPacket) (p : CBPacket) (hA : A <+: Q) (hp : p ∈ Q)
    (hseq : Q.map CBPacket.Seq = (List.range Q.length).map (fun k : Nat => (k : Int)))
    (hs : p.Seq = (A.length : Int)) : A ++ [p] <+: Q := by
  obtain ⟨i, hi, hQi⟩ := List.getElem_of_mem hp
  have h1 : (Q.map CBPacket.Seq)[i]? = some p.Seq := by
    rw [List.getElem?_map, List.getElem?_eq_getElem hi, hQi]
    rfl
  rw [hseq, List.getElem?_map, List.getElem?_range hi] at h1
  simp only [Option.map_some', Option.some.injEq] at h1
  have hiA : i = A.length := by omega
  obtain ⟨t, rfl⟩ := hA
  subst hiA
  cases t with
  | nil => simp at hi
  | cons q t2 =>
    have : q = p := by
      rw [List.getElem_append_right (le_refl _)] at hQi
      simpa using hQi
    rw [this]
    exact ⟨t2, by simp⟩

theorem Peer.other_ne (who : Peer) : who.other ≠ who := by
  cases who <;> decide

theorem Peer.eq_or_other (who x : Peer) : x = who ∨ x = who.other := by
  cases who <;> cases x <;> decide

theorem Peer.other_other (who : Peer) : who.other.other = who := by
  cases who <;> rfl

theorem Options.channel_headers (o : Options) (who : Peer) :
    (o.channel who).peerHeader ≠ (o.channel who).ownHeader ∧
    (o.channel who.other).peerHeader = (o.channel who).ownHeader ∧
    (o.channel who).secretKey = o.secretKey := by
  cases who <;>
    simp [Options.channel, NewChannel.headers, Peer.typ, Peer.other, CLIENT, SERVER]

theorem PeerInv.start_holds (L : CodecLib) (c : Channel) (now : Int) :
    PeerInv L c { st := LoopState.init now, status := Status.running, events := [], sent := [] }
    where
  loop := LoopInv.init_holds now
  chanTarget := by simp [LoopState.init]
  queuedTarget := by simp [queuedPackets]
  writes := by simp
  acceptedLen := by simp [acceptedPackets, LoopState.init]
  deliveredLe := by simp [deliveredPackets, acceptedPackets, dataPayloads]
  deliveredEq := by simp [deliveredPackets, acceptedPackets, dataPayloads]
  sentEq := by simp [queuedPackets, dataPayloads, LoopState.init]

theorem System.act_other (L : CodecLib) (o : Options) (s : System) (who x : Peer) (a : Action)
    (h : x ≠ who) : System.act L o s who a x = s x := by
  unfold System.act
  exact Function.update_noteq h _ _

theorem System.act_same (L : CodecLib) (o : Options) (s : System) (who : Peer) (a : Action) :
    (System.act L o s who a who).st = (step L (o.channel who) (s who).st a).st ∧
    (System.act L o s who a who).events =
      (s who).events ++ (step L (o.channel who) (s who).st a).events := by
  unfold System.act
  rw [Function.update_same]
  exact ⟨rfl, rfl⟩

/-- The end that takes an action keeps its invariant. -/
theorem PeerInv.of_act (L : CodecLib) (hL : L.Lawful) (o : Options) (s : System) (who : Peer)
    (a : Action) (h : PeerInv L (o.channel who) (s who)) (hen : Enabled L o s who a) :
    PeerInv L (o.channel who) (System.act L o s who a who) := by
  obtain ⟨e1, e2⟩ := System.act_same L o s who a
  have ht := step_target L (o.channel who) (s who).st (s who).events a
    ⟨h.chanTarget, h.queuedTarget⟩
  have hdel :
      (((deliveredPackets (System.act L o s who a who).events).map CBPacket.Payload).filter
          (fun d => decide (d ≠ [])) <+:
        dataPayloads (acceptedPackets (System.act L o s who a who).events)) ∧
      ((System.act L o s who a who).status = Status.running →
        ((deliveredPackets (System.act L o s who a who).events).map CBPacket.Payload).filter
            (fun d => decide (d ≠ [])) =
          dataPayloads (acceptedPackets (System.act L o s who a who).events)) ∧
      dataPayloads (queuedPackets (System.act L o s who a who).events) ++
          dataPayloads (System.act L o s who a who).st.sendChan =
        (System.act L o s who a who).sent.filter (fun d => decide (d ≠ [])) := by
    unfold System.act
    rw [Function.update_same]
    cases a with
    | send data =>
      simp only [step, List.append_nil]
      refine ⟨h.deliveredLe, h.deliveredEq, ?_⟩
      rw [Send_pending, ← List.append_assoc, h.sentEq]
      by_cases hr : (((s who).st.sendChan.length : Nat) : Int) < QueueSize
      · rw [if_pos hr, if_pos hr, List.filter_append]
      · rw [if_neg hr, if_neg hr]
        simp
    | control msg =>
      simp only [step, List.append_nil]
      refine ⟨h.deliveredLe, h.deliveredEq, ?_⟩
      rw [sendControl_pending, h.sentEq]
    | tick inp =>
      simp only [step]
      obtain ⟨d1, d2⟩ := iteration_delivery L (o.channel who) (s who).st inp
      have hold := h.deliveredEq hen.1
      rw [deliveredPackets_append, acceptedPackets_append, List.map_append, List.filter_append,
        dataPayloads_append, hold, queuedPackets_append, dataPayloads_append, List.append_assoc,
        iteration_pending, h.sentEq]
      refine ⟨(List.prefix_append_right_inj _).mpr d1, fun hr => ?_, rfl⟩
      rw [d2 hr]
  exact
    { loop := by rw [e1, e2]; exact step_LoopInv L _ _ _ a h.loop
      chanTarget := by rw [e1]; exact ht.1
      queuedTarget := by rw [e2]; exact ht.2
      writes := by rw [e2]; exact step_writes L hL _ _ _ a h.writes
      acceptedLen := by rw [e1, e2]; exact step_acceptedLen L _ _ _ a h.acceptedLen
      deliveredLe := hdel.1
      deliveredEq := hdel.2.1
      sentEq := hdel.2.2 }

/-- The tick of one end keeps: what it has accepted is an initial segment of
what the other end has queued. -/
theorem accepted_prefix_tick (L : CodecLib) (o : Options) (s : System) (who : Peer)
    (inp : Input)
    (hI : ∀ x, PeerInv L (o.channel x) (s x))
    (hA : acceptedPackets (s who).events <+: queuedPackets (s who.other).events)
    (hslot : SlotOk L o s inp.content) :
    acceptedPackets ((s who).events ++ (iteration L (o.channel who) (s who).st inp).events) <+:
      queuedPackets (s who.other).events := by
  rw [acceptedPackets_append]
  obtain ⟨hne, hpeer, hkey⟩ := Options.channel_headers o who
  rcases iteration_cases L (o.channel who) (s who).st inp with ⟨e, _⟩ | ⟨e, _, hS, hT, hE, h0⟩
  · rw [e, List.append_nil]; exact hA
  · rw [e]
    rw [hkey] at hS hT hE ⊢
    rcases hslot with h | h | ⟨x, hx⟩
    · exact absurd h h0
    · exact absurd hE h
    · obtain ⟨p, r, hw⟩ := mem_writtenStrings _ _ hx
      have hdec := (hI x).writes p inp.content r hw
      rw [(Options.channel_headers o x).2.2] at hdec
      rw [hdec] at hS hT ⊢
      simp only [] at hS hT ⊢
      have hq : p ∈ queuedPackets (s x).events :=
        (hI x).loop.writtenQueued p (mem_writtenPackets _ _ _ _ hw)
      have htx := (hI x).queuedTarget p hq
      rcases Peer.eq_or_other who x with hx | hx
      · rw [hx] at htx
        exact absurd (htx.symm.trans hT) hne
      · rw [hx] at hq
        refine prefix_extend _ _ p hA hq (hI who.other).loop.seqs ?_
        rw [hS]
        have := (hI who).acceptedLen
        omega

/-- Every reachable state of the two ends satisfies the invariants of each end,
and each end has accepted an initial segment of what the other has queued. -/
theorem Reachable.invariant (L : CodecLib) (hL : L.Lawful) (o : Options) (s : System)
    (hs : Reachable L o s) :
    ∀ who, PeerInv L (o.channel who) (s who) ∧
      acceptedPackets (s who).events <+: queuedPackets (s who.other).events := by
  induction hs with
  | init start =>
    intro who
    exact ⟨PeerInv.start_holds L _ _, by simp [System.init, acceptedPackets]⟩
  | act s who a _ hen ih =>
    intro x
    rcases Peer.eq_or_other who x with hx | hx
    · subst hx
      refine ⟨PeerInv.of_act L hL o s x a (ih x).1 hen, ?_⟩
      rw [System.act_other L o s x x.other a (Peer.other_ne x), (System.act_same L o s x a).2]
      cases a with
      | send data => simpa [step] using (ih x).2
      | control msg => simpa [step] using (ih x).2
      | tick inp => exact accepted_prefix_tick L o s x inp (fun y => (ih y).1) (ih x).2 hen.2
    · subst hx
      rw [System.act_other L o s who who.other a (Peer.other_ne who), Peer.other_other,
        (System.act_same L o s who a).2, queuedPackets_append]
      exact ⟨(ih who.other).1,
        List.IsPrefix.trans (by simpa [Peer.other_other] using (ih who.other).2)
          (List.prefix_append _ _)⟩

theorem flatten_filter_nonempty (l : List GoString) :
    (l.filter (fun d => decide (d ≠ []))).flatten = l.flatten := by
  induction l with
  | nil => rfl
  | cons d rest ih =>
    by_cases hd : d = []
    · rw [List.filter_cons_of_neg (by simp [hd]), ih, hd]
      rfl
    · rw [List.filter_cons_of_pos (by simp [hd]), List.flatten_cons, List.flatten_cons, ih]

theorem flatten_prefix (a b : List GoString) (h : a <+: b) : a.flatten <+: b.flatten := by
  obtain ⟨t, rfl⟩ := h
  rw [List.flatten_append]
  exact List.prefix_append _ _

/-- Stream fidelity while the slot shows only values written by the two loops
or values that `string2packet` rejects.  For two channel loops, one CLIENT and
one SERVER with the same key, on a slot that may lose, repeat, delay or
overwrite such values, and for a library that meets its contracts: in every
reachable state the packets an end has accepted are, in order, the first
packets the other end's loop has queued for sending, the packet accepted at
`Seq` k being the k-th of them (counting from 0); so the payloads with bytes
handed to `Receive()` are, in order, the first of the payloads with bytes that
were passed to the other end's `Send()`, and the bytes handed to `Receive()`,
concatenated, are an initial segment of the bytes passed to the other end's
`Send()`, concatenated. -/
theorem stream_fidelity (L : CodecLib) (hL : L.Lawful) (o : Options) (s : System)
    (hs : Reachable L o s) (who : Peer) :
    acceptedPackets (s who).events <+: queuedPackets (s who.other).events ∧
    (acceptedPackets (s who).events).map CBPacket.Seq =
      (List.range (acceptedPackets (s who).events).length).map (fun k : Nat => (k : Int)) ∧
    ((deliveredPackets (s who).events).map CBPacket.Payload).filter
        (fun d => decide (d ≠ [])) <+:
      (s who.other).sent.filter (fun d => decide (d ≠ [])) ∧
    ((deliveredPackets (s who).events).map CBPacket.Payload).flatten <+:
      (s who.other).sent.flatten := by
  obtain ⟨hI, hA⟩ := Reachable.invariant L hL o s hs who
  obtain ⟨hJ, _⟩ := Reachable.invariant L hL o s hs who.other
  have hP : ((deliveredPackets (s who).events).map CBPacket.Payload).filter
        (fun d => decide (d ≠ [])) <+:
      (s who.other).sent.filter (fun d => decide (d ≠ [])) := by
    rw [← hJ.sentEq]
    refine List.IsPrefix.trans hI.deliveredLe (List.IsPrefix.trans ?_ (List.prefix_append _ _))
    unfold dataPayloads
    exact ((hA.filter _).map _).filter _
  refine ⟨hA, ?_, hP, ?_⟩
  · have hlen := hA.length_le
    have ht := List.prefix_iff_eq_take.mp hA
    conv_lhs => rw [ht]
    rw [List.map_take, hJ.loop.seqs, ← List.map_take, List.take_range, min_eq_left hlen]
  · have := flatten_prefix _ _ hP
    rwa [flatten_filter_nonempty, flatten_filter_nonempty] at this

/-- Stream fidelity at the sample system, for the server. -/
theorem stream_fidelity_witness :
    acceptedPackets (sampleSystem Peer.server).events <+:
      queuedPackets (sampleSystem Peer.server.other).events ∧
    (acceptedPackets (sampleSystem Peer.server).events).map CBPacket.Seq =
      (List.range (acceptedPackets (sampleSystem Peer.server).events).length).map
        (fun k : Nat => (k : Int)) ∧
    ((deliveredPackets (sampleSystem Peer.server).events).map CBPacket.Payload).filter
        (fun d => decide (d ≠ [])) <+:
      (sampleSystem Peer.server.other).sent.filter (fun d => decide (d ≠ [])) ∧
    ((deliveredPackets (sampleSystem Peer.server).events).map CBPacket.Payload).flatten <+:
      (sampleSystem Peer.server.other).sent.flatten :=
  stream_fidelity plainLib plainLib_lawful sampleOptions sampleSystem
    (Reachable.act _ Peer.server _
      (Reachable.act _ Peer.client _
        (Reachable.act _ Peer.client _ (Reachable.init _) trivial)
        ⟨by decide, Or.inl rfl⟩)
      ⟨by decide, Or.inr (Or.inr ⟨Peer.client, by decide⟩)⟩)
    Peer.server

/-- In the sample system the server's `Receive()` has returned "hi", the
payload the client's application passed to `Send()`. -/
theorem sampleSystem_delivered :
    (deliveredPackets (sampleSystem Peer.server).events).map CBPacket.Payload = [[104, 105]] ∧
    (sampleSystem Peer.client).sent = [[104, 105]] := by
  decide

/-! ## A short slot value and the stream -/

/-- C2 (the code does otherwise): a slot value that decodes to fewer than 24
bytes, which the loops never write and the decoder is meant to reject, breaks
the stream.  "AAAA" decodes to three bytes, and `string2packet` returns the
zero packet and no error for it.  The server's application sends "yo" and
"more" and the server loop writes its packet 0 with "yo"; the client loop
reads "AAAA", accepts the zero packet as the packet with `Seq` 0 and
acknowledges 0; the server takes its packet 0 for acknowledged and sends
"more" as packet 1; the client drops the server's real packet 0 when it reads
it and accepts packet 1.  The packet the client accepted at `Seq` 0 is not the
packet the server sent with `Seq` 0, `Receive()` at the client returns "more"
and never "yo", and the bytes received are no initial segment of the bytes
sent; all other values the loops read in this run were written by the other
loop. -/
theorem stream_gap_after_short_value :
    (base64DecodeString (ascii "AAAA")).2 = none ∧
    (base64DecodeString (ascii "AAAA")).1.length = 3 ∧
    string2packet plainLib sampleKey (ascii "AAAA") = (CBPacket.zero, none) ∧
    (∀ who : Peer, ascii "AAAA" ∉ writtenStrings (lossSystem who).events) ∧
    writtenStrings (lossSystem Peer.server).events = [sampleServerFirst, sampleServerSecond] ∧
    sampleClientAck ∈ writtenStrings (lossSystem Peer.client).events ∧
    (lossSystem Peer.server).sent = [[121, 111], [109, 111, 114, 101]] ∧
    queuedPackets (lossSystem Peer.server).events =
      [⟨CLIENT, PacketTypeData, [121, 111], 0, -1⟩,
       ⟨CLIENT, PacketTypeData, [109, 111, 114, 101], 1, 0⟩] ∧
    acceptedPackets (lossSystem Peer.client).events =
      [CBPacket.zero, ⟨CLIENT, PacketTypeData, [109, 111, 114, 101], 1, 0⟩] ∧
    (deliveredPackets (lossSystem Peer.client).events).map CBPacket.Payload =
      [[], [109, 111, 114, 101]] ∧
    ¬ (acceptedPackets (lossSystem Peer.client).events <+:
      queuedPackets (lossSystem Peer.server).events) ∧
    ¬ (((deliveredPackets (lossSystem Peer.client).events).map CBPacket.Payload).flatten <+:
      (lossSystem Peer.server).sent.flatten) ∧
    (lossSystem Peer.server).st.lastAckReceived = 0 ∧
    (lossSystem Peer.client).st.lastRecvIndex = 1 ∧
    (∀ who : Peer, (lossSystem who).status = Status.running) := by
  refine ⟨by decide, by decide, by decide, ?_, by decide, by decide, by decide, by decide,
    by decide, by decide, by decide, by decide, by decide, by decide, ?_⟩
  · intro who
    cases who <;> decide
  · intro who
    cases who <;> decide

/-! ## What reaches the application and the control handler -/

/-- C11, as stated, fails: a client whose application is waiting in `Receive()`
accepts a data packet with an empty payload, and the `select` of line 359 hands
it over: `Receive()` returns the empty payload. -/
theorem empty_payload_is_delivered :
    (⟨CLIENT, PacketTypeData, [], 0, -1⟩ : CBPacket).Payload = [] ∧
    (recvPacket clientChannel (LoopState.init 0) ⟨CLIENT, PacketTypeData, [], 0, -1⟩ 1
      true).events =
      [Event.accepted ⟨CLIENT, PacketTypeData, [], 0, -1⟩,
        Event.deliver ⟨CLIENT, PacketTypeData, [], 0, -1⟩] := by
  decide

/-- C11, amended: what the receive step hands to `Receive()` is the accepted
packet itself, and only when its `Type` is not `PacketTypeControl`: a packet
with a payload is handed over when a consumer takes it (the loop waits for one,
and is left waiting when none comes), a packet with an empty payload is handed
over exactly when a `Receive()` is pending at that moment and is dropped
otherwise, a control packet is never handed over. -/
theorem recvPacket_delivers (c : Channel) (st : LoopState) (p : CBPacket) (now : Int)
    (consumer : Bool) :
    deliveredPackets (recvPacket c st p now consumer).events =
      (if p.Target = c.ownHeader ∧ p.Seq = st.lastRecvIndex + 1 ∧
          p.Typ ≠ PacketTypeControl ∧ consumer = true then [p] else []) ∧
    (p.Target = c.ownHeader → p.Seq = st.lastRecvIndex + 1 → p.Typ ≠ PacketTypeControl →
      p.Payload ≠ [] → consumer = false →
      (recvPacket c st p now consumer).status = Status.blocked) ∧
    (p.Target = c.ownHeader → p.Seq = st.lastRecvIndex + 1 → p.Typ ≠ PacketTypeControl →
      p.Payload = [] → (recvPacket c st p now consumer).status = Status.running) := by
  by_cases hT : p.Target = c.ownHeader
  · by_cases hS : p.Seq = st.lastRecvIndex + 1
    · rw [recvPacket_next c st p now consumer hT hS]
      generalize noteAck st p = st1
      unfold acceptPacket
      by_cases hC : p.Typ = PacketTypeControl
      · simp only [if_pos hC]
        have hd : deliveredPackets (processControlPacket c
            { st1 with lastRecvIndex := st1.lastRecvIndex + 1,
                       receiveQueue := st1.receiveQueue.set (st1.lastRecvIndex + 1) p,
                       lastRecvTime := now } p).events = [] := by
          rcases processControlPacket_events c
            { st1 with lastRecvIndex := st1.lastRecvIndex + 1,
                       receiveQueue := st1.receiveQueue.set (st1.lastRecvIndex + 1) p,
                       lastRecvTime := now } p with h | h | h | h <;>
            rw [h] <;> simp [deliveredPackets]
        simp [deliveredPackets, hd, hC]
      · simp only [if_neg hC]
        by_cases hP : p.Payload ≠ [] <;> by_cases hK : consumer = true <;>
          simp [hP, hK, hC, hT, hS, deliveredPackets]
    · rw [recvPacket_not_next c st p now consumer hT hS]
      simp [deliveredPackets, hS]
  · rw [recvPacket_other_target c st p now consumer hT]
    simp [deliveredPackets, hT]

theorem splitCmdArg_no_colon (s : GoString) (h : (58 : Byte) ∉ s) : splitCmdArg s = (s, []) := by
  induction s with
  | nil => rfl
  | cons b rest ih =>
    have hb : b ≠ 58 := fun hb => h (by rw [hb]; exact List.mem_cons_self _ _)
    have hr : (58 : Byte) ∉ rest := fun hr => h (List.mem_cons_of_mem _ hr)
    simp [splitCmdArg, hb, ih hr]

theorem splitCmdArg_colon (a b : GoString) (h : (58 : Byte) ∉ a) :
    splitCmdArg (a ++ 58 :: b) = (a, b) := by
  induction a with
  | nil => simp [splitCmdArg]
  | cons x rest ih =>
    have hx : x ≠ 58 := fun hx => h (by rw [hx]; exact List.mem_cons_self _ _)
    have hr : (58 : Byte) ∉ rest := fun hr => h (List.mem_cons_of_mem _ hr)
    simp [splitCmdArg, hx, ih hr]

/-- C12, as stated, fails: the application has filled `sendChan` with 16
packets; the loop accepts a control packet "FIN", and `sendControl("FIN-ACK")`
finds no room: nothing is enqueued, no shutdown is scheduled, the loop waits. -/
theorem fin_with_full_sendChan :
    (run plainLib clientChannel (LoopState.init 0)
      (List.replicate 16 (Action.send [120]))).st.sendChan.length = 16 ∧
    processControlPacket clientChannel
      (run plainLib clientChannel (LoopState.init 0) (List.replicate 16 (Action.send [120]))).st
      ⟨CLIENT, PacketTypeControl, ascii "FIN", 0, -1⟩ =
      { st := (run plainLib clientChannel (LoopState.init 0)
          (List.replicate 16 (Action.send [120]))).st
        events := [], status := Status.blocked } := by
  decide

/-- C12, amended: `processControlPacket` splits the payload at the first `':'`
into `cmd` (all of it when there is no `':'`) and `arg` (the rest, which may
contain `':'`, or "" when there is none).  For a control packet: `cmd == "FIN"`
with room in `sendChan` enqueues one control packet "FIN-ACK" for the peer and
schedules the delayed shutdown unless it has been scheduled before; with a full
`sendChan` the loop waits in `sendControl` and does neither; `cmd == "FIN-ACK"`
shuts down at once; every other `cmd`, on a channel that has a callback, calls
the callback exactly once with `(cmd, arg)`.  A packet whose `Type` is not
`PacketTypeControl` triggers none of these. -/
theorem processControlPacket_spec (c : Channel) (st : LoopState) (p : CBPacket) :
    ((58 : Byte) ∉ p.Payload → splitCmdArg p.Payload = (p.Payload, [])) ∧
    (∀ a b : GoString, (58 : Byte) ∉ a → p.Payload = a ++ 58 :: b →
      splitCmdArg p.Payload = (a, b)) ∧
    (p.Typ ≠ PacketTypeControl →
      processControlPacket c st p = { st := st, events := [], status := Status.running }) ∧
    (p.Typ = PacketTypeControl → (splitCmdArg p.Payload).1 = ascii "FIN" →
      (st.sendChan.length : Int) < QueueSize →
      processControlPacket c st p =
        { st := { st with
                  sendChan := st.sendChan ++
                    [⟨c.peerHeader, PacketTypeControl, ascii "FIN-ACK", 0, 0⟩]
                  delayedShutdown := true }
          events := if st.delayedShutdown then [] else [Event.scheduleShutdown]
          status := Status.running }) ∧
    (p.Typ = PacketTypeControl → (splitCmdArg p.Payload).1 = ascii "FIN" →
      ¬ (st.sendChan.length : Int) < QueueSize →
      processControlPacket c st p = { st := st, events := [], status := Status.blocked }) ∧
    (p.Typ = PacketTypeControl → (splitCmdArg p.Payload).1 = ascii "FIN-ACK" →
      processControlPacket c st p =
        { st := st, events := [Event.shutdown], status := Status.exited }) ∧
    (p.Typ = PacketTypeControl → (splitCmdArg p.Payload).1 ≠ ascii "FIN" →
      (splitCmdArg p.Payload).1 ≠ ascii "FIN-ACK" → c.hasCallback = true →
      processControlPacket c st p =
        { st := st
          events := [Event.callback (splitCmdArg p.Payload).1 (splitCmdArg p.Payload).2]
          status := Status.running }) := by
  have hne : ascii "FIN-ACK" ≠ ascii "FIN" := by decide
  refine ⟨splitCmdArg_no_colon _, ?_, ?_, ?_, ?_, ?_, ?_⟩
  · intro a b ha hp
    rw [hp]
    exact splitCmdArg_colon a b ha
  · intro hT
    unfold processControlPacket
    rw [if_neg hT]
  · intro hT hF hroom
    unfold processControlPacket sendControl initiateDelayedShutdown
    rw [if_pos hT, if_pos hF]
    simp only [if_pos hroom, if_true]
    by_cases hD : st.delayedShutdown = true
    · simp [hD]
    · simp [hD]
  · intro hT hF hroom
    unfold processControlPacket sendControl
    rw [if_pos hT, if_pos hF]
    simp [if_neg hroom]
  · intro hT hA
    unfold processControlPacket
    rw [if_pos hT, if_neg (by rw [hA]; exact hne), if_pos hA]
  · intro hT hF hA hC
    unfold processControlPacket
    rw [if_pos hT, if_neg hF, if_neg hA, if_pos hC]

/-! ## The send window and the two buffers -/

/-- Every action keeps `lastSendIndex <= lastAckReceived + 1`. -/
theorem step_window (L : CodecLib) (c : Channel) (st : LoopState) (evs : List Event)
    (a : Action) (h : st.lastSendIndex ≤ st.lastAckReceived + 1) :
    (step L c st a).st.lastSendIndex ≤ (step L c st a).st.lastAckReceived + 1 := by
  refine step_parts L c (fun st _ => st.lastSendIndex ≤ st.lastAckReceived + 1)
    ?_ ?_ ?_ ?_ st evs a h
  · intro st _ data h
    obtain ⟨f1, _, _, f4, _⟩ := Send_frame c st data
    rw [f1, f4]; exact h
  · intro st _ msg h
    obtain ⟨_, f2, f3, _⟩ := sendControl_frame c st msg
    rw [f2, f3]; exact h
  · intro st _ p t k h
    obtain ⟨f1, _, _, _, f5⟩ := recvPacket_send_side c st p t k
    rw [f1]; omega
  · intro st _ inp h
    refine sendPhase_elim L c st inp (fun o => o.st.lastSendIndex ≤ o.st.lastAckReceived + 1)
      h (fun _ _ => h) ?_ ?_
    · intro cbdata rest _ hn
      rw [(sendNew_state L c _ cbdata inp).1, (sendNew_frame L c _ cbdata inp).2.1]
      simp only []
      omega
    · intro _ hn _
      rw [(sendNew_state L c _ _ inp).1, (sendNew_frame L c _ _ inp).2.1]
      omega

/-- The send half of an iteration queues a packet only when no packet is
unacknowledged. -/
theorem sendPhase_queues_when_acked (L : CodecLib) (c : Channel) (st : LoopState)
    (inp : Input) (h : queuedPackets (sendPhase L c st inp).events ≠ []) :
    st.lastSendIndex ≤ st.lastAckReceived := by
  revert h
  refine sendPhase_elim L c st inp (fun o => queuedPackets o.events ≠ [] → _) ?_ ?_ ?_ ?_
  · intro h; exact absurd rfl h
  · intro _ _ h
    rcases writePacket_cases L c (st.sendQueue.get st.lastSendIndex) inp.rnd true with hw | hw <;>
      rw [hw] at h <;> exact absurd rfl h
  · intro _ _ _ hn _; omega
  · intro _ hn _ _; omega

/-- C17: in every state a run of the channel loop reaches, whatever packets it
received, `lastSendIndex <= lastAckReceived + 1`, so the sender is never past
`lastAckReceived + QueueSize - 1` with `QueueSize = 16`; and in every state an
iteration assigns a new `Seq` only when no packet is unacknowledged
(`lastAckReceived >= lastSendIndex` after the receive half). -/
theorem run_send_window (L : CodecLib) (c : Channel) (start : Int) (actions : List Action)
    (st : LoopState) (inp : Input) :
    (run L c (LoopState.init start) actions).st.lastSendIndex ≤
      (run L c (LoopState.init start) actions).st.lastAckReceived + 1 ∧
    (run L c (LoopState.init start) actions).st.lastSendIndex ≤
      (run L c (LoopState.init start) actions).st.lastAckReceived + QueueSize - 1 ∧
    QueueSize = 16 ∧
    (queuedPackets (iteration L c st inp).events ≠ [] →
      (recvPhase L c st inp).st.lastSendIndex ≤ (recvPhase L c st inp).st.lastAckReceived) := by
  have h := run_induction L c (fun st _ => st.lastSendIndex ≤ st.lastAckReceived + 1)
    (fun st evs a h => step_window L c st evs a h) actions (LoopState.init start) []
    (by simp [LoopState.init])
  simp only [] at h
  refine ⟨h, by unfold QueueSize; omega, rfl, ?_⟩
  intro hq
  unfold iteration at hq
  have hr : queuedPackets (recvPhase L c st inp).events = [] := by
    rcases recvPhase_eq L c st inp with e | e <;> rw [e]
    · rfl
    · exact (recvPacket_no_send_events c st _ _ _).1
  by_cases hR : (recvPhase L c st inp).status = Status.running
  · simp only [if_pos hR, queuedPackets_append, hr, List.nil_append] at hq
    exact sendPhase_queues_when_acked L c _ inp hq
  · simp only [if_neg hR] at hq
    exact absurd hr hq

theorem PacketMap.lookup_delete_self (m : PacketMap) (k : Int) : (m.delete k).lookup k = none := by
  induction m with
  | nil => rfl
  | cons e rest ih =>
    obtain ⟨k', v⟩ := e
    by_cases hj : k' = k
    · simpa [PacketMap.delete, List.filter, hj] using ih
    · simp only [PacketMap.delete, List.filter, ne_eq, hj, not_false_eq_true, decide_True,
        PacketMap.lookup, if_false]
      exact ih

theorem PacketMap.lookup_set_ne (m : PacketMap) (k j : Int) (v : CBPacket) (h : k ≠ j) :
    (m.set j v).lookup k = m.lookup k := by
  simp only [PacketMap.set, PacketMap.lookup]
  rw [if_neg (fun h' => h h'.symm)]
  exact PacketMap.lookup_delete_ne m k j h

theorem PacketMap.mem_keys_iff (m : PacketMap) (k : Int) :
    k ∈ m.keys ↔ (m.lookup k).isSome = true := by
  induction m with
  | nil => simp [PacketMap.keys, PacketMap.lookup]
  | cons e rest ih =>
    obtain ⟨k', v⟩ := e
    by_cases hj : k' = k
    · simp [PacketMap.keys, PacketMap.lookup, hj]
    · have hk : ¬ k = k' := fun h => hj h.symm
      simp only [PacketMap.keys, List.map_cons, List.mem_cons, hk, false_or,
        PacketMap.lookup, if_neg hj]
      exact ih

theorem PacketMap.keys_delete (m : PacketMap) (j : Int) :
    (m.delete j).keys = m.keys.filter (fun k => decide (k ≠ j)) := by
  induction m with
  | nil => rfl
  | cons e rest ih =>
    obtain ⟨k', v⟩ := e
    by_cases hj : k' = j
    · simpa [PacketMap.delete, PacketMap.keys, List.filter, hj] using ih
    · simpa [PacketMap.delete, PacketMap.keys, List.filter, hj] using ih

theorem PacketMap.nodup_delete (m : PacketMap) (j : Int) (h : m.keys.Nodup) :
    (m.delete j).keys.Nodup := by
  rw [PacketMap.keys_delete]
  exact h.filter _

theorem PacketMap.nodup_set (m : PacketMap) (j : Int) (v : CBPacket) (h : m.keys.Nodup) :
    (m.set j v).keys.Nodup := by
  have hd := PacketMap.nodup_delete m j h
  have hn : j ∉ (m.delete j).keys := by
    rw [PacketMap.mem_keys_iff, PacketMap.lookup_delete_self]
    simp
  simpa [PacketMap.set, PacketMap.keys] using And.intro hn hd

theorem PacketMap.length_keys (m : PacketMap) : m.keys.length = m.length := by
  simp [PacketMap.keys]

/-- A map without repeated keys whose keys lie between `lo` and `hi` has at
most `hi + 1 - lo` entries. -/
theorem PacketMap.length_le_of_keys (m : PacketMap) (lo hi : Int) (h : m.keys.Nodup)
    (hk : ∀ k ∈ m.keys, lo ≤ k ∧ k ≤ hi) : (m.length : Int) ≤ max 0 (hi + 1 - lo) := by
  rw [← PacketMap.length_keys, ← List.toFinset_card_of_nodup h]
  have hsub : m.keys.toFinset ⊆ Finset.Icc lo hi := by
    intro k hk'
    rw [List.mem_toFinset] at hk'
    rw [Finset.mem_Icc]
    exact hk k hk'
  have hc := Finset.card_le_card hsub
  rw [Int.card_Icc] at hc
  omega

theorem sendNew_sendQueue (L : CodecLib) (c : Channel) (st : LoopState) (cbdata : CBPacket)
    (inp : Input) :
    (sendNew L c st cbdata inp).st.sendQueue =
      (if st.lastSendIndex + 1 ≥ QueueSize then
        (st.sendQueue.set (st.lastSendIndex + 1)
          { cbdata with Seq := st.lastSendIndex + 1, Ack := st.lastRecvIndex }).delete
          (st.lastSendIndex + 1 - QueueSize)
      else st.sendQueue.set (st.lastSendIndex + 1)
          { cbdata with Seq := st.lastSendIndex + 1, Ack := st.lastRecvIndex }) := rfl

/-- A send of a new packet keeps the invariant of the send buffer. -/
theorem SendQueueInv.after_sendNew {st : LoopState} (h : SendQueueInv st) (L : CodecLib)
    (c : Channel) (cbdata : CBPacket) (inp : Input) :
    SendQueueInv (Cliptun.sendNew L c st cbdata inp).st := by
  have hn := (sendNew_state L c st cbdata inp).1
  have hq := sendNew_sendQueue L c st cbdata inp
  have hlow := h.lower
  have hlook : ∀ k, (Cliptun.sendNew L c st cbdata inp).st.sendQueue.lookup k =
      if k = st.lastSendIndex + 1 then
        some { cbdata with Seq := st.lastSendIndex + 1, Ack := st.lastRecvIndex }
      else if st.lastSendIndex + 1 ≥ QueueSize ∧ k = st.lastSendIndex + 1 - QueueSize then none
      else st.sendQueue.lookup k := by
    intro k
    rw [hq]
    by_cases hk : k = st.lastSendIndex + 1
    · rw [if_pos hk, hk]
      by_cases hg : st.lastSendIndex + 1 ≥ QueueSize
      · rw [if_pos hg, PacketMap.lookup_delete_ne _ _ _ (by unfold QueueSize; omega)]
        exact PacketMap.lookup_set_self _ _ _
      · rw [if_neg hg]
        exact PacketMap.lookup_set_self _ _ _
    · rw [if_neg hk]
      by_cases hg : st.lastSendIndex + 1 ≥ QueueSize
      · rw [if_pos hg]
        by_cases hd : k = st.lastSendIndex + 1 - QueueSize
        · rw [if_pos ⟨hg, hd⟩, hd]
          exact PacketMap.lookup_delete_self _ _
        · rw [if_neg (fun h' => hd h'.2), PacketMap.lookup_delete_ne _ _ _ hd,
            PacketMap.lookup_set_ne _ _ _ _ hk]
      · rw [if_neg hg, if_neg (fun h' => hg h'.1), PacketMap.lookup_set_ne _ _ _ _ hk]
  refine ⟨?_, ?_, ?_, by rw [hn]; omega⟩
  · rw [hq]
    by_cases hg : st.lastSendIndex + 1 ≥ QueueSize
    · rw [if_pos hg]
      exact PacketMap.nodup_delete _ _ (PacketMap.nodup_set _ _ _ h.nodup)
    · rw [if_neg hg]
      exact PacketMap.nodup_set _ _ _ h.nodup
  · intro k
    rw [hlook k, hn]
    have hold := h.keys k
    unfold QueueSize at hold ⊢
    by_cases hk : k = st.lastSendIndex + 1
    · rw [if_pos hk]
      simp only [Option.isSome_some, true_iff]
      omega
    · rw [if_neg hk]
      by_cases hd : st.lastSendIndex + 1 ≥ 16 ∧ k = st.lastSendIndex + 1 - 16
      · rw [if_pos hd]
        simp only [Option.isSome_none, Bool.false_eq_true, false_iff]
        omega
      · rw [if_neg hd, hold]
        constructor
        · intro ⟨a, b⟩
          constructor
          · by_contra hc
            apply hd
            omega
          · omega
        · intro ⟨a, b⟩
          constructor <;> omega
  · intro k q hkq
    rw [hlook k] at hkq
    by_cases hk : k = st.lastSendIndex + 1
    · rw [if_pos hk] at hkq
      cases hkq
      exact hk.symm
    · rw [if_neg hk] at hkq
      by_cases hd : st.lastSendIndex + 1 ≥ QueueSize ∧ k = st.lastSendIndex + 1 - QueueSize
      · rw [if_pos hd] at hkq; cases hkq
      · rw [if_neg hd] at hkq
        exact h.seqs k q hkq

/-- A change of the state that keeps `sendQueue` and `lastSendIndex` keeps the
invariant of the send buffer. -/
theorem SendQueueInv.congr {st : LoopState} (h : SendQueueInv st) (st2 : LoopState)
    (h1 : st2.sendQueue = st.sendQueue) (h2 : st2.lastSendIndex = st.lastSendIndex) :
    SendQueueInv st2 :=
  ⟨by rw [h1]; exact h.nodup, by rw [h1, h2]; exact h.keys, by rw [h1]; exact h.seqs,
    by rw [h2]; exact h.lower⟩

/-- Every action keeps the invariant of the send buffer. -/
theorem step_SendQueueInv (L : CodecLib) (c : Channel) (st : LoopState) (evs : List Event)
    (a : Action) (h : SendQueueInv st) : SendQueueInv (step L c st a).st := by
  refine step_parts L c (fun st _ => SendQueueInv st) ?_ ?_ ?_ ?_ st evs a h
  · intro st _ data h
    exact h.congr _ (Send_frame c st data).2.1 (Send_frame c st data).1
  · intro st _ msg h
    exact h.congr _ (sendControl_frame c st msg).2.2.2.2.2.1 (sendControl_frame c st msg).2.1
  · intro st _ p t k h
    exact h.congr _ (recvPacket_send_side c st p t k).2.1 (recvPacket_send_side c st p t k).1
  · intro st _ inp h
    refine sendPhase_elim L c st inp (fun o => SendQueueInv o.st) h ?_ ?_ ?_
    · intro _ _
      exact h.congr _ rfl rfl
    · intro cbdata rest _ _
      exact (h.congr { st with sendChan := rest } rfl rfl).after_sendNew L c cbdata inp
    · intro _ _ _
      exact h.after_sendNew L c _ inp

theorem SendQueueInv.at_start (now : Int) : SendQueueInv (LoopState.init now) where
  nodup := by simp [LoopState.init, PacketMap.keys]
  keys := by
    intro k
    simp only [LoopState.init, PacketMap.lookup, Option.isSome_none, Bool.false_eq_true,
      false_iff]
    unfold QueueSize
    omega
  seqs := by intro k q h; simp [LoopState.init, PacketMap.lookup] at h
  lower := by simp [LoopState.init]

/-- C18: in every state a run of the channel loop reaches, so after every
iteration, with `n = lastSendIndex`: `sendQueue` holds exactly the keys `k`
with `max(0, n - QueueSize + 1) <= k <= n`, the entry at `k` has `Seq == k`, it
holds at most `QueueSize = 16` packets, and it holds the last packet sent
whenever `n >= 0`. -/
theorem run_sendQueue_window (L : CodecLib) (c : Channel) (start : Int)
    (actions : List Action) :
    (∀ k, ((run L c (LoopState.init start) actions).st.sendQueue.lookup k).isSome = true ↔
      (max 0 ((run L c (LoopState.init start) actions).st.lastSendIndex - QueueSize + 1) ≤ k ∧
        k ≤ (run L c (LoopState.init start) actions).st.lastSendIndex)) ∧
    (∀ k q, (run L c (LoopState.init start) actions).st.sendQueue.lookup k = some q →
      q.Seq = k) ∧
    (run L c (LoopState.init start) actions).st.sendQueue.keys.Nodup ∧
    ((run L c (LoopState.init start) actions).st.sendQueue.length : Int) ≤ QueueSize ∧
    QueueSize = 16 ∧
    (0 ≤ (run L c (LoopState.init start) actions).st.lastSendIndex →
      ((run L c (LoopState.init start) actions).st.sendQueue.lookup
        (run L c (LoopState.init start) actions).st.lastSendIndex).isSome = true) := by
  have h := run_induction L c (fun st _ => SendQueueInv st)
    (fun st evs a h => step_SendQueueInv L c st evs a h) actions (LoopState.init start) []
    (SendQueueInv.at_start start)
  simp only [] at h
  generalize (run L c (LoopState.init start) actions).st = st at h ⊢
  refine ⟨h.keys, h.seqs, h.nodup, ?_, rfl, ?_⟩
  · have hl := PacketMap.length_le_of_keys st.sendQueue
      (max 0 (st.lastSendIndex - QueueSize + 1)) st.lastSendIndex h.nodup
      (fun k hk => (h.keys k).mp ((PacketMap.mem_keys_iff _ _).mp hk))
    have := h.lower
    unfold QueueSize at hl ⊢
    omega
  · intro hn
    rw [h.keys]
    unfold QueueSize
    omega

/-- C20: in an iteration where, after the receive half, no packet is
unacknowledged and `sendChan` is empty: if `lastAcked < lastRecvIndex` the loop
makes exactly one packet, `{Target: peerHeader, Type: Data, Payload: "",
Seq: lastSendIndex + 1, Ack: lastRecvIndex}`, stores it, hands it to the
encoder and writes it (the one write of the iteration, made unless the
encoding fails), and sets `lastAcked` to `lastRecvIndex` and `lastSendIndex`
to the new `Seq`; otherwise it writes nothing, makes no packet and leaves the
whole state, so `lastSendIndex`, `lastAcked` and `sendQueue`, unchanged. -/
theorem sendPhase_empty_ack (L : CodecLib) (c : Channel) (st : LoopState) (inp : Input)
    (hAcked : ¬ st.lastAckReceived < st.lastSendIndex) (hChan : st.sendChan = []) :
    (st.lastAcked < st.lastRecvIndex →
      (sendPhase L c st inp).events =
        Event.queued ⟨c.peerHeader, PacketTypeData, [], st.lastSendIndex + 1, st.lastRecvIndex⟩ ::
          writePacket L c
            ⟨c.peerHeader, PacketTypeData, [], st.lastSendIndex + 1, st.lastRecvIndex⟩
            inp.rnd false ∧
      ((packet2string L c.secretKey
          ⟨c.peerHeader, PacketTypeData, [], st.lastSendIndex + 1, st.lastRecvIndex⟩
          inp.rnd).2 = none →
        writtenPackets (sendPhase L c st inp).events =
          [⟨c.peerHeader, PacketTypeData, [], st.lastSendIndex + 1, st.lastRecvIndex⟩]) ∧
      (sendPhase L c st inp).st.lastAcked = st.lastRecvIndex ∧
      (sendPhase L c st inp).st.lastSendIndex = st.lastSendIndex + 1 ∧
      (sendPhase L c st inp).st.sendQueue.lookup (st.lastSendIndex + 1) =
        some ⟨c.peerHeader, PacketTypeData, [], st.lastSendIndex + 1, st.lastRecvIndex⟩) ∧
    (¬ st.lastAcked < st.lastRecvIndex →
      sendPhase L c st inp = { st := st, events := [], status := Status.running }) := by
  constructor
  · intro hlt
    have he : sendPhase L c st inp = sendNew L c st
        { Target := c.peerHeader, Typ := 0, Payload := [], Seq := 0, Ack := 0 } inp := by
      unfold sendPhase
      rw [if_neg hAcked, hChan]
      simp only []
      rw [if_pos hlt]
    rw [he]
    obtain ⟨s1, s2, _, s4⟩ := sendNew_state L c st
      { Target := c.peerHeader, Typ := 0, Payload := [], Seq := 0, Ack := 0 } inp
    refine ⟨rfl, ?_, s2, s1, s4⟩
    intro hE
    have hE2 : (packet2string L c.secretKey
        { Target := c.peerHeader, Typ := 0, Payload := [], Seq := st.lastSendIndex + 1,
          Ack := st.lastRecvIndex } inp.rnd).2 = none := hE
    unfold sendNew writePacket
    simp only []
    rw [if_pos hE2]
    rfl
  · intro hge
    unfold sendPhase
    rw [if_neg hAcked, hChan]
    simp only []
    rw [if_neg hge]

/-- The statement of C20 at a client that has accepted the server's first
packet and has nothing to send. -/
theorem sendPhase_empty_ack_witness :
    ((recvPacket clientChannel (LoopState.init 0) ⟨CLIENT, PacketTypeData, [121, 111], 0, -1⟩ 1
        true).st.lastAcked <
      (recvPacket clientChannel (LoopState.init 0) ⟨CLIENT, PacketTypeData, [121, 111], 0, -1⟩ 1
        true).st.lastRecvIndex) ∧
    writtenPackets (sendPhase plainLib clientChannel
      (recvPacket clientChannel (LoopState.init 0) ⟨CLIENT, PacketTypeData, [121, 111], 0, -1⟩ 1
        true).st (sampleInput [] 2)).events = [⟨SERVER, PacketTypeData, [], 0, 0⟩] :=
  ⟨by decide,
    ((sendPhase_empty_ack plainLib clientChannel
      (recvPacket clientChannel (LoopState.init 0) ⟨CLIENT, PacketTypeData, [121, 111], 0, -1⟩ 1
        true).st (sampleInput [] 2) (by decide) (by decide)).1 (by decide)).2.1 (by decide)⟩

/-! ## The value of a reset -/

/-- A string of characters of the base64 alphabet whose length is no multiple
of four is rejected by the decoder; one whose length is a multiple of four is
decoded, three bytes for four characters. -/
theorem base64DecodeFrom_alphabet (l : GoString) (hl : ∀ b ∈ l, decodeMap b ≠ none) :
    ∀ (dbuf : List Nat) (si : Nat), dbuf.length < 4 →
      (((dbuf.length + l.length) % 4 ≠ 0 → (base64DecodeFrom dbuf l si).2 ≠ none) ∧
       ((dbuf.length + l.length) % 4 = 0 → (base64DecodeFrom dbuf l si).2 = none ∧
          (base64DecodeFrom dbuf l si).1.length = (dbuf.length + l.length) / 4 * 3)) := by
  induction l with
  | nil =>
    intro dbuf si hd
    rw [base64DecodeFrom]
    constructor
    · intro h
      have : dbuf.length ≠ 0 := by
        intro h0; rw [h0] at h; simp at h
      rw [if_neg this]
      simp
    · intro h
      have : dbuf.length = 0 := by simp at h; omega
      rw [if_pos this, this]
      simp
  | cons b rest ih =>
    intro dbuf si hd
    have hb : decodeMap b ≠ none := hl b (List.mem_cons_self _ _)
    obtain ⟨out, hout⟩ := Option.ne_none_iff_exists'.mp hb
    have ihr := ih (fun x hx => hl x (List.mem_cons_of_mem _ hx))
    by_cases h3 : dbuf.length = 3
    · rw [decodeFrom_last_char dbuf b rest si out hout h3]
      obtain ⟨i1, i2⟩ := ihr [] (si + 1) (by simp)
      simp only [List.length_cons, List.length_nil, h3] at i1 i2 ⊢
      constructor
      · intro h
        exact i1 (by omega)
      · intro h
        obtain ⟨j1, j2⟩ := i2 (by omega)
        refine ⟨j1, ?_⟩
        have hq : (quantumBytes (dbuf ++ [out])).length = 3 := by
          simp [quantumBytes, h3]
        rw [List.length_append, hq, j2]
        omega
    · rw [decodeFrom_char dbuf b rest si out hout h3]
      obtain ⟨i1, i2⟩ := ihr (dbuf ++ [out]) (si + 1) (by simp; omega)
      simp only [List.length_append, List.length_cons, List.length_nil] at i1 i2 ⊢
      constructor
      · intro h
        exact i1 (by omega)
      · intro h
        obtain ⟨j1, j2⟩ := i2 (by omega)
        refine ⟨j1, ?_⟩
        rw [j2]
        congr 2
        omega

/-- The digits of a number of `k + 1` decimal digits: `k + 1` characters
between `'0'` and `'9'`. -/
theorem decimalDigits_spec (k : Nat) :
    ∀ (n fuel : Nat) (acc : GoString), n < 10 ^ (k + 1) → (k = 0 ∨ 10 ^ k ≤ n) → k < fuel →
      ∃ ds : GoString, decimalDigits fuel n acc = ds ++ acc ∧ ds.length = k + 1 ∧
        ∀ d ∈ ds, 48 ≤ d.val ∧ d.val ≤ 57 := by
  induction k with
  | zero =>
    intro n fuel acc hn _ hf
    obtain ⟨f, rfl⟩ : ∃ f, fuel = f + 1 := ⟨fuel - 1, by omega⟩
    have h0 : n / 10 = 0 := by simp at hn; omega
    refine ⟨[Fin.ofNat (48 + n % 10)], ?_, rfl, ?_⟩
    · rw [decimalDigits, if_pos h0]
      rfl
    · intro d hd
      rw [List.mem_singleton] at hd
      rw [hd]
      simp only [Fin.ofNat, Fin.val_mk]
      omega
  | succ k ih =>
    intro n fuel acc hn hlo hf
    obtain ⟨f, rfl⟩ : ∃ f, fuel = f + 1 := ⟨fuel - 1, by omega⟩
    have hlo2 : 10 ^ (k + 1) ≤ n := by
      rcases hlo with h | h
      · omega
      · exact h
    have hp : 0 < 10 ^ k := pow_pos (by decide) k
    simp only [pow_succ] at hn hlo2 ih
    generalize 10 ^ k = p at hn hlo2 hp ih
    have h0 : ¬ n / 10 = 0 := by omega
    obtain ⟨ds, e1, e2, e3⟩ := ih (n / 10) f (Fin.ofNat (48 + n % 10) :: acc)
      (by omega) (Or.inr (by omega)) (by omega)
    refine ⟨ds ++ [Fin.ofNat (48 + n % 10)], ?_, by simp [e2], ?_⟩
    · rw [decimalDigits, if_neg h0, e1]
      simp
    · intro d hd
      rw [List.mem_append, List.mem_singleton] at hd
      rcases hd with hd | hd
      · exact e3 d hd
      · rw [hd]
        simp only [Fin.ofNat, Fin.val_mk]
        omega

/-- The string a reset writes for a clock reading of `k + 1` decimal digits:
`k + 1` characters of the base64 alphabet. -/
theorem Reset_digits (k : Nat) (t : Int) (h0 : 0 ≤ t) (hlt : t < 10 ^ (k + 1))
    (hlo : k = 0 ∨ 10 ^ k ≤ t) :
    (Clipboard.Reset t).length = k + 1 ∧ ∀ b ∈ Clipboard.Reset t, decodeMap b ≠ none := by
  have hn : ((t.natAbs : Nat) : Int) = t := Int.natAbs_of_nonneg h0
  have h1 : t.natAbs < 10 ^ (k + 1) := by
    have : ((t.natAbs : Nat) : Int) < ((10 ^ (k + 1) : Nat) : Int) := by
      rw [hn]; exact_mod_cast hlt
    exact_mod_cast this
  have h2 : k = 0 ∨ 10 ^ k ≤ t.natAbs := by
    rcases hlo with h | h
    · exact Or.inl h
    · right
      have : ((10 ^ k : Nat) : Int) ≤ ((t.natAbs : Nat) : Int) := by
        rw [hn]; exact_mod_cast h
      exact_mod_cast this
  have hk : k < t.natAbs + 1 := by
    rcases h2 with h | h
    · omega
    · have := Nat.lt_pow_self (show 1 < 10 by decide) k
      omega
  obtain ⟨ds, e1, e2, e3⟩ := decimalDigits_spec k t.natAbs (t.natAbs + 1) [] h1 h2 hk
  unfold Clipboard.Reset FormatInt
  rw [if_neg (by omega), e1, List.append_nil]
  refine ⟨e2, ?_⟩
  intro b hb
  obtain ⟨l1, l2⟩ := e3 b hb
  unfold decodeMap
  rw [if_neg (by omega), if_neg (by omega), if_pos ⟨l1, l2⟩]
  simp

/-- What the receive half of a client's first iteration does with a slot value
that `string2packet` turns into the zero packet: it accepts it. -/
theorem recvPhase_zero_packet (L : CodecLib) (c : Channel) (start : Int) (inp : Input)
    (hown : c.ownHeader = CLIENT) (h0 : inp.content ≠ [])
    (hz : string2packet L c.secretKey inp.content = (CBPacket.zero, none)) :
    acceptedPackets (recvPhase L c (LoopState.init start) inp).events = [CBPacket.zero] ∧
    (recvPhase L c (LoopState.init start) inp).st.lastRecvIndex = 0 := by
  have hr : recvPhase L c (LoopState.init start) inp =
      recvPacket c (LoopState.init start) CBPacket.zero inp.nowRecv inp.consumer := by
    unfold recvPhase
    rw [if_pos h0, hz, if_neg (by simp)]
  have hT : CBPacket.zero.Target = c.ownHeader := by rw [hown]; rfl
  rw [hr, recvPacket_next _ _ _ _ _ hT (by rfl)]
  refine ⟨(acceptPacket_events _ _ _ _ _).1, ?_⟩
  rw [(acceptPacket_state _ _ _ _ _).1, (noteAck_frame _ _).1]
  rfl

/-- C13 (the code does otherwise): the string `Clipboard.Reset` writes for a
clock reading `t >= 0` is rejected by `string2packet` when the number of its
decimal digits is no multiple of four, as for every reading of 19 digits; when
it is a multiple of four (4, 8, 12 or 16 digits) `string2packet` returns the
zero packet and no error.  So for `t = 1000000000000000`, and a client loop in
its first state that reads this value accepts the zero packet as the peer's
packet with `Seq` 0. -/
theorem reset_value_taken_for_packet (L : CodecLib) (key : Key) (c : Channel) (start : Int)
    (inp : Input) :
    (∀ (k : Nat) (t : Int), 0 ≤ t → t < 10 ^ (k + 1) → (k = 0 ∨ 10 ^ k ≤ t) → k + 1 ≤ 19 →
      ((k + 1) % 4 ≠ 0 → (string2packet L key (Clipboard.Reset t)).2 ≠ none) ∧
      ((k + 1) % 4 = 0 → string2packet L key (Clipboard.Reset t) = (CBPacket.zero, none))) ∧
    (∀ t : Int, 10 ^ 18 ≤ t → t < 10 ^ 19 →
      (string2packet L key (Clipboard.Reset t)).2 ≠ none) ∧
    Clipboard.Reset 1000000000000000 = ascii "1000000000000000" ∧
    string2packet L key (Clipboard.Reset 1000000000000000) = (CBPacket.zero, none) ∧
    acceptedPackets (recvPhase L { c with ownHeader := CLIENT } (LoopState.init start)
      { inp with content := Clipboard.Reset 1000000000000000 }).events = [CBPacket.zero] ∧
    (recvPhase L { c with ownHeader := CLIENT } (LoopState.init start)
      { inp with content := Clipboard.Reset 1000000000000000 }).st.lastRecvIndex = 0 := by
  have hgen : ∀ (key : Key) (k : Nat) (t : Int), 0 ≤ t → t < 10 ^ (k + 1) →
      (k = 0 ∨ 10 ^ k ≤ t) → k + 1 ≤ 19 →
      ((k + 1) % 4 ≠ 0 → (string2packet L key (Clipboard.Reset t)).2 ≠ none) ∧
      ((k + 1) % 4 = 0 → string2packet L key (Clipboard.Reset t) = (CBPacket.zero, none)) := by
    intro key k t h0 hlt hlo hk
    obtain ⟨hlen, halpha⟩ := Reset_digits k t h0 hlt hlo
    obtain ⟨d1, d2⟩ := base64DecodeFrom_alphabet (Clipboard.Reset t) halpha [] 0 (by simp)
    simp only [List.length_nil, Nat.zero_add, hlen] at d1 d2
    have hds : base64DecodeString (Clipboard.Reset t) =
        base64DecodeFrom [] (Clipboard.Reset t) 0 := rfl
    rw [← hds] at d1 d2
    constructor
    · intro h
      have he := d1 h
      unfold string2packet
      simp only []
      rw [dif_pos (Or.inl he)]
      exact he
    · intro h
      obtain ⟨e1, e2⟩ := d2 h
      unfold string2packet
      simp only []
      have hshort : (base64DecodeString (Clipboard.Reset t)).1.length < 24 := by
        rw [e2]
        omega
      rw [dif_pos (Or.inr hshort), e1]
  have h16 : ∀ key : Key,
      string2packet L key (Clipboard.Reset 1000000000000000) = (CBPacket.zero, none) :=
    fun key => (hgen key 15 1000000000000000 (by norm_num) (by norm_num)
      (Or.inr (by norm_num)) (by norm_num)).2 (by norm_num)
  refine ⟨hgen key, ?_, by decide, h16 key, ?_⟩
  · intro t h1 h2
    exact (hgen key 18 t (by omega) h2 (Or.inr h1) (by norm_num)).1 (by norm_num)
  · exact recvPhase_zero_packet L { c with ownHeader := CLIENT } start
      { inp with content := Clipboard.Reset 1000000000000000 } rfl
      (show Clipboard.Reset 1000000000000000 ≠ [] by decide) (h16 _)

/-! ## Command-line values -/

theorem isDigit_iff (b : Byte) : isDigit b = true ↔ 48 ≤ b.val ∧ b.val ≤ 57 := by
  unfold isDigit
  simp

theorem takeWhile_append_stop {α : Type} (p : α → Bool) (l1 l2 : List α)
    (h1 : ∀ a ∈ l1, p a = true) (h2 : ∀ a, l2.head? = some a → p a = false) :
    (l1 ++ l2).takeWhile p = l1 ∧ (l1 ++ l2).dropWhile p = l2 := by
  induction l1 with
  | nil =>
    cases l2 with
    | nil => simp
    | cons a r =>
      have := h2 a rfl
      simp [List.takeWhile, List.dropWhile, this]
  | cons a r ih =>
    have ha := h1 a (List.mem_cons_self _ _)
    have := ih (fun b hb => h1 b (List.mem_cons_of_mem _ hb))
    simp [List.takeWhile, List.dropWhile, ha, this]

theorem takeWhile_all {α : Type} (p : α → Bool) (l : List α) :
    ∀ a ∈ l.takeWhile p, p a = true := by
  intro a ha
  exact List.mem_takeWhile_imp ha

theorem blocksizeRe_iff (arg : GoString) : blocksizeRe arg = true ↔ BlocksizeForm arg := by
  constructor
  · intro h
    unfold blocksizeRe at h
    simp only [Bool.and_eq_true, Bool.or_eq_true, decide_eq_true_eq] at h
    refine ⟨arg.takeWhile isDigit, arg.dropWhile isDigit,
      (List.takeWhile_append_dropWhile _ _).symm, h.1, takeWhile_all _ _, ?_⟩
    tauto
  · rintro ⟨ds, suf, rfl, hne, hd, hs⟩
    have hstop : ∀ a, suf.head? = some a → isDigit a = false := by
      intro a ha
      rcases hs with h | h | h | h | h <;> subst h <;> revert ha <;> simp [ascii] <;>
        intro h <;> subst h <;> decide
    obtain ⟨e1, e2⟩ := takeWhile_append_stop isDigit ds suf hd hstop
    unfold blocksizeRe
    simp only [e1, e2, Bool.and_eq_true, Bool.or_eq_true, decide_eq_true_eq]
    refine ⟨hne, ?_⟩
    tauto

theorem Atoi_digits (ds : GoString) (hne : ds ≠ []) (hd : ∀ d ∈ ds, isDigit d = true) :
    Atoi ds = (if 2 ^ 63 ≤ digitsValue ds then
      ((2 ^ 63 - 1 : Int), some (GoError.errorf "strconv.Atoi: value out of range"))
      else ((digitsValue ds : Int), none)) := by
  cases ds with
  | nil => exact absurd rfl hne
  | cons d r =>
    have hdig := (isDigit_iff d).1 (hd d (List.mem_cons_self _ _))
    have h43 : d ≠ 43 := by
      intro h; subst h; revert hdig; decide
    have h45 : d ≠ 45 := by
      intro h; subst h; revert hdig; decide
    have hall : (d :: r).all isDigit = true := by
      rw [List.all_eq_true]; exact hd
    have hbody : Atoi.unsigned (d :: r) = d :: r := by
      unfold Atoi.unsigned
      split
      · rename_i h; exact absurd (List.cons.inj h).1 h43
      · rename_i h; exact absurd (List.cons.inj h).1 h45
      · rfl
    unfold Atoi
    simp only [hbody]
    rw [if_neg (by simp [hall])]
    rw [if_neg (by simp [h45])]

theorem wrapInt64_of_range (x : Int) (h0 : -(2 ^ 63) ≤ x) (h1 : x < 2 ^ 63) :
    wrapInt64 x = x := by
  unfold wrapInt64
  rw [Int.emod_eq_of_lt (by omega) (by omega)]
  omega

theorem drop_take_append_singleton (ds : GoString) (b : Byte) :
    (ds ++ [b]).drop ((ds ++ [b]).length - 1) = [b] ∧
    (ds ++ [b]).take ((ds ++ [b]).length - 1) = ds := by
  simp

theorem last_of_digits (ds : GoString) (hne : ds ≠ []) (hd : ∀ d ∈ ds, isDigit d = true) :
    ∃ b, ds.drop (ds.length - 1) = [b] ∧ isDigit b = true := by
  obtain ⟨r, b, rfl⟩ : ∃ r b, ds = r ++ [b] :=
    ⟨ds.dropLast, ds.getLast hne, (List.dropLast_append_getLast hne).symm⟩
  exact ⟨b, (drop_take_append_singleton r b).1, hd b (by simp)⟩

theorem parseBlocksize_digits (ds : GoString) (hne : ds ≠ []) (hd : ∀ d ∈ ds, isDigit d = true) :
    parseBlocksize ds = ((Atoi ds).1, none) := by
  have hre : blocksizeRe ds = true :=
    (blocksizeRe_iff ds).2 ⟨ds, [], by simp, hne, hd, Or.inl rfl⟩
  obtain ⟨b, hb, hdig⟩ := last_of_digits ds hne hd
  have hne4 : ∀ x : Byte, isDigit x = false → [b] ≠ [x] := by
    intro x hx h
    rw [(List.cons.inj h).1, hx] at hdig
    exact Bool.noConfusion hdig
  unfold parseBlocksize
  rw [if_neg (by simp [hre])]
  simp only [hb]
  rw [if_neg, if_neg]
  · rintro (h | h)
    · exact hne4 109 (by decide) h
    · exact hne4 77 (by decide) h
  · rintro (h | h)
    · exact hne4 107 (by decide) h
    · exact hne4 75 (by decide) h

theorem parseBlocksize_suffixed (ds : GoString) (hne : ds ≠ [])
    (hd : ∀ d ∈ ds, isDigit d = true) :
    parseBlocksize (ds ++ ascii "k") = (wrapInt64 ((Atoi ds).1 * 1024), none) ∧
    parseBlocksize (ds ++ ascii "K") = (wrapInt64 ((Atoi ds).1 * 1024), none) ∧
    parseBlocksize (ds ++ ascii "m") =
      (wrapInt64 (wrapInt64 ((Atoi ds).1 * 1024) * 1024), none) ∧
    parseBlocksize (ds ++ ascii "M") =
      (wrapInt64 (wrapInt64 ((Atoi ds).1 * 1024) * 1024), none) := by
  have hk : ascii "k" = [107] := by decide
  have hK : ascii "K" = [75] := by decide
  have hm : ascii "m" = [109] := by decide
  have hM : ascii "M" = [77] := by decide
  have hre : ∀ suf : GoString, (suf = [] ∨ suf = ascii "k" ∨ suf = ascii "K" ∨
      suf = ascii "m" ∨ suf = ascii "M") → blocksizeRe (ds ++ suf) = true :=
    fun suf h => (blocksizeRe_iff _).2 ⟨ds, suf, rfl, hne, hd, h⟩
  refine ⟨?_, ?_, ?_, ?_⟩
  · unfold parseBlocksize
    rw [if_neg (by simp [hre _ (Or.inr (Or.inl rfl))])]
    simp only [hk, (drop_take_append_singleton ds 107).1, (drop_take_append_singleton ds 107).2]
    rw [if_pos (by simp)]
  · unfold parseBlocksize
    rw [if_neg (by simp [hre _ (Or.inr (Or.inr (Or.inl rfl)))])]
    simp only [hk, hK, (drop_take_append_singleton ds 75).1,
      (drop_take_append_singleton ds 75).2]
    rw [if_pos (by simp)]
  · unfold parseBlocksize
    rw [if_neg (by simp [hre _ (Or.inr (Or.inr (Or.inr (Or.inl rfl))))])]
    simp only [hk, hK, hm, hM, (drop_take_append_singleton ds 109).1,
      (drop_take_append_singleton ds 109).2]
    rw [if_neg (by decide), if_pos (by simp)]
  · unfold parseBlocksize
    rw [if_neg (by simp [hre _ (Or.inr (Or.inr (Or.inr (Or.inr rfl))))])]
    simp only [hk, hK, hm, hM, (drop_take_append_singleton ds 77).1,
      (drop_take_append_singleton ds 77).2]
    rw [if_neg (by decide), if_pos (by simp)]

/-- C14: `parseBlocksize` returns an error exactly when its argument is not one
or more decimal digits optionally followed by a single `k`, `K`, `m` or `M`
(and then returns 0); for digits denoting `n` it returns `n` with no suffix,
`n * 1024` with `k` or `K` and `n * 1024 * 1024` with `m` or `M`, provided
that product is below `2 ^ 63`; the default `"64k"` yields 65536. -/
theorem parseBlocksize_spec :
    (∀ arg : GoString, (parseBlocksize arg).2 ≠ none ↔ ¬ BlocksizeForm arg) ∧
    (∀ arg : GoString, ¬ BlocksizeForm arg → (parseBlocksize arg).1 = 0) ∧
    (∀ ds : GoString, ds ≠ [] → (∀ d ∈ ds, isDigit d = true) →
      (digitsValue ds < 2 ^ 63 → parseBlocksize ds = ((digitsValue ds : Int), none)) ∧
      (digitsValue ds * 1024 < 2 ^ 63 →
        parseBlocksize (ds ++ ascii "k") = ((digitsValue ds : Int) * 1024, none) ∧
        parseBlocksize (ds ++ ascii "K") = ((digitsValue ds : Int) * 1024, none)) ∧
      (digitsValue ds * 1024 * 1024 < 2 ^ 63 →
        parseBlocksize (ds ++ ascii "m") = ((digitsValue ds : Int) * 1024 * 1024, none) ∧
        parseBlocksize (ds ++ ascii "M") = ((digitsValue ds : Int) * 1024 * 1024, none))) ∧
    parseBlocksize (ascii "64k") = (65536, none) := by
  refine ⟨?_, ?_, ?_, by decide⟩
  · intro arg
    rw [← blocksizeRe_iff]
    unfold parseBlocksize
    by_cases h : blocksizeRe arg = true
    · rw [if_neg (by simp [h])]
      simp only [h, not_true_eq_false, iff_false, not_not]
      split_ifs <;> rfl
    · rw [if_pos (by simpa using h)]
      simp [h]
  · intro arg hf
    rw [← blocksizeRe_iff] at hf
    unfold parseBlocksize
    rw [if_pos (by simpa using hf)]
  · intro ds hne hd
    have hA : digitsValue ds < 2 ^ 63 → (Atoi ds).1 = (digitsValue ds : Int) := by
      intro h
      rw [Atoi_digits ds hne hd, if_neg (by omega)]
    obtain ⟨s1, s2, s3, s4⟩ := parseBlocksize_suffixed ds hne hd
    refine ⟨?_, ?_, ?_⟩
    · intro h
      rw [parseBlocksize_digits ds hne hd, hA h]
    · intro h
      have hw : wrapInt64 ((digitsValue ds : Int) * 1024) = (digitsValue ds : Int) * 1024 :=
        wrapInt64_of_range _ (by omega) (by omega)
      rw [s1, s2, hA (by omega), hw]
      exact ⟨rfl, rfl⟩
    · intro h
      have hw : wrapInt64 ((digitsValue ds : Int) * 1024) = (digitsValue ds : Int) * 1024 :=
        wrapInt64_of_range _ (by omega) (by omega)
      have hw2 : wrapInt64 ((digitsValue ds : Int) * 1024 * 1024) =
          (digitsValue ds : Int) * 1024 * 1024 :=
        wrapInt64_of_range _ (by omega) (by omega)
      rw [s3, s4, hA (by omega), hw, hw2]
      exact ⟨rfl, rfl⟩

theorem portForwardingRe_of_form (port host hostPort : GoString)
    (h1 : port ≠ []) (h2 : ∀ d ∈ port, isDigit d = true)
    (h3 : host ≠ []) (h4 : ∀ b ∈ host, b ≠ 58)
    (h5 : hostPort ≠ []) (h6 : ∀ d ∈ hostPort, isDigit d = true) :
    portForwardingRe (port ++ ascii ":" ++ host ++ ascii ":" ++ hostPort) =
      some (port, host, hostPort) := by
  have hc : ascii ":" = [58] := by decide
  have e0 : port ++ ascii ":" ++ host ++ ascii ":" ++ hostPort =
      port ++ (58 :: (host ++ 58 :: hostPort)) := by
    rw [hc]; simp
  obtain ⟨a1, a2⟩ := takeWhile_append_stop isDigit port (58 :: (host ++ 58 :: hostPort)) h2
    (by intro a ha; simp at ha; subst ha; decide)
  obtain ⟨b1, b2⟩ := takeWhile_append_stop (fun b : Byte => decide (b ≠ 58)) host
    (58 :: hostPort) (by intro b hb; simpa using h4 b hb)
    (by intro a ha; simp at ha; subst ha; decide)
  have hall : hostPort.all isDigit = true := by
    rw [List.all_eq_true]; exact h6
  rw [e0]
  unfold portForwardingRe
  simp only [a1, a2, b1, b2]
  rw [if_pos ⟨h1, h3, h5, hall⟩]

theorem portForwardingRe_some (param port host hostPort : GoString)
    (h : portForwardingRe param = some (port, host, hostPort)) :
    param = port ++ ascii ":" ++ host ++ ascii ":" ++ hostPort ∧
    port ≠ [] ∧ (∀ d ∈ port, isDigit d = true) ∧
    host ≠ [] ∧ (∀ b ∈ host, b ≠ 58) ∧
    hostPort ≠ [] ∧ (∀ d ∈ hostPort, isDigit d = true) := by
  have hc : ascii ":" = [58] := by decide
  unfold portForwardingRe at h
  simp only [] at h
  split at h
  · rename_i r2 hr2
    split at h
    · rename_i r3 hr3
      split at h
      · rename_i hcond
        obtain ⟨c1, c2, c3, c4⟩ := hcond
        simp only [Option.some.injEq, Prod.mk.injEq] at h
        obtain ⟨rfl, rfl, rfl⟩ := h
        have ep : param = param.takeWhile isDigit ++ param.dropWhile isDigit :=
          (List.takeWhile_append_dropWhile _ _).symm
        have er : r2 = r2.takeWhile (fun b : Byte => decide (b ≠ 58)) ++
            r2.dropWhile (fun b : Byte => decide (b ≠ 58)) :=
          (List.takeWhile_append_dropWhile _ _).symm
        rw [hr3] at er
        rw [hr2] at ep
        refine ⟨?_, c1, takeWhile_all _ _, c2, ?_, c3, ?_⟩
        · rw [hc]
          conv_lhs => rw [ep, er]
          simp
        · intro b hb
          simpa using takeWhile_all _ _ b hb
        · rw [List.all_eq_true] at c4; exact c4
      · exact Option.noConfusion h
    · exact Option.noConfusion h
  · exact Option.noConfusion h

/-- C15: `ParsePortForwarding(param)` succeeds exactly when `param` has the
form `PORT:HOST:HOSTPORT` with `PORT` and `HOSTPORT` non-empty strings of
decimal digits and `HOST` a non-empty string without `:`; on success the
fields are these three parts, so `Port + ":" + Host + ":" + HostPort` is
`param`; for every other `param` the result is nil with an error. -/
theorem ParsePortForwarding_spec (param : GoString) :
    ((ParsePortForwarding param).2 = none ↔ PortForwardingForm param) ∧
    ((∃ pf, (ParsePortForwarding param).1 = some pf) ↔ PortForwardingForm param) ∧
    (∀ port host hostPort : GoString,
      param = port ++ ascii ":" ++ host ++ ascii ":" ++ hostPort →
      port ≠ [] → (∀ d ∈ port, isDigit d = true) →
      host ≠ [] → (∀ b ∈ host, b ≠ 58) →
      hostPort ≠ [] → (∀ d ∈ hostPort, isDigit d = true) →
      ParsePortForwarding param =
        (some { Port := port, Host := host, HostPort := hostPort }, none)) ∧
    (∀ pf, (ParsePortForwarding param).1 = some pf →
      pf.Port ++ ascii ":" ++ pf.Host ++ ascii ":" ++ pf.HostPort = param ∧
      (ParsePortForwarding param).2 = none) ∧
    (¬ PortForwardingForm param →
      ParsePortForwarding param =
        (none, some (GoError.errorf "Bad port forwarding format"))) := by
  have hform : ∀ port host hostPort : GoString,
      param = port ++ ascii ":" ++ host ++ ascii ":" ++ hostPort →
      port ≠ [] → (∀ d ∈ port, isDigit d = true) →
      host ≠ [] → (∀ b ∈ host, b ≠ 58) →
      hostPort ≠ [] → (∀ d ∈ hostPort, isDigit d = true) →
      ParsePortForwarding param =
        (some { Port := port, Host := host, HostPort := hostPort }, none) := by
    intro port host hostPort e h1 h2 h3 h4 h5 h6
    unfold ParsePortForwarding
    rw [e, portForwardingRe_of_form port host hostPort h1 h2 h3 h4 h5 h6]
  cases hre : portForwardingRe param with
  | none =>
    have hP : ParsePortForwarding param =
        (none, some (GoError.errorf "Bad port forwarding format")) := by
      unfold ParsePortForwarding
      rw [hre]
    have hnf : ¬ PortForwardingForm param := by
      rintro ⟨port, host, hostPort, e, h1, h2, h3, h4, h5, h6⟩
      have := hform port host hostPort e h1 h2 h3 h4 h5 h6
      rw [hP] at this
      exact Option.noConfusion (Prod.mk.inj this).1
    refine ⟨?_, ?_, hform, ?_, fun _ => hP⟩
    · rw [hP]; simp [hnf]
    · rw [hP]; simp [hnf]
    · intro pf h
      rw [hP] at h
      exact Option.noConfusion h
  | some t =>
    obtain ⟨port, host, hostPort⟩ := t
    have hP : ParsePortForwarding param =
        (some { Port := port, Host := host, HostPort := hostPort }, none) := by
      unfold ParsePortForwarding
      rw [hre]
    obtain ⟨e, h1, h2, h3, h4, h5, h6⟩ := portForwardingRe_some param port host hostPort hre
    have hf : PortForwardingForm param := ⟨port, host, hostPort, e, h1, h2, h3, h4, h5, h6⟩
    refine ⟨?_, ?_, hform, ?_, fun h => absurd hf h⟩
    · rw [hP]; simp [hf]
    · rw [hP]; simp [hf]
    · intro pf h
      rw [hP] at h ⊢
      simp only [Option.some.injEq] at h
      subst h
      exact ⟨e.symm, rfl⟩

/-! ## The transport of a new channel -/

theorem HasPrefix_iff (s p : GoString) : HasPrefix s p = true ↔ ∃ r, s = p ++ r := by
  unfold HasPrefix
  simp only [Bool.and_eq_true, decide_eq_true_eq]
  constructor
  · rintro ⟨_, h⟩
    refine ⟨s.drop p.length, ?_⟩
    conv_lhs => rw [← List.take_append_drop p.length s, h]
  · rintro ⟨r, rfl⟩
    simp

theorem HasPrefix_drop (s p : GoString) (h : HasPrefix s p = true) :
    s = p ++ s.drop p.length := by
  obtain ⟨r, rfl⟩ := (HasPrefix_iff s p).1 h
  simp

theorem transport_prefixes (s : GoString) :
    (HasPrefix s (ascii "exec=") = true → s ≠ [] ∧ s ≠ ascii "clipboard") ∧
    (HasPrefix s (ascii "tcp=") = true →
      s ≠ [] ∧ s ≠ ascii "clipboard" ∧ HasPrefix s (ascii "exec=") = false) ∧
    (HasPrefix s (ascii "tcp-listen=") = true →
      s ≠ [] ∧ s ≠ ascii "clipboard" ∧ HasPrefix s (ascii "exec=") = false ∧
      HasPrefix s (ascii "tcp=") = false) := by
  have e1 : ascii "exec=" = [101, 120, 101, 99, 61] := by decide
  have e2 : ascii "tcp=" = [116, 99, 112, 61] := by decide
  have e3 : ascii "tcp-listen=" = [116, 99, 112, 45, 108, 105, 115, 116, 101, 110, 61] := by
    decide
  have e4 : ascii "clipboard" = [99, 108, 105, 112, 98, 111, 97, 114, 100] := by decide
  rw [e1, e2, e3, e4]
  refine ⟨?_, ?_, ?_⟩
  · intro h
    obtain ⟨r, rfl⟩ := (HasPrefix_iff _ _).1 h
    refine ⟨by simp, ?_⟩
    intro h2
    have := (List.cons.inj h2).1
    revert this; decide
  · intro h
    obtain ⟨r, rfl⟩ := (HasPrefix_iff _ _).1 h
    refine ⟨by simp, ?_, ?_⟩
    · intro h2
      have := (List.cons.inj h2).1
      revert this; decide
    · cases hp : HasPrefix ([116, 99, 112, 61] ++ r) [101, 120, 101, 99, 61] with
      | false => rfl
      | true =>
        obtain ⟨r2, h2⟩ := (HasPrefix_iff _ _).1 hp
        have := (List.cons.inj h2).1
        revert this; decide
  · intro h
    obtain ⟨r, rfl⟩ := (HasPrefix_iff _ _).1 h
    refine ⟨by simp, ?_, ?_, ?_⟩
    · intro h2
      have := (List.cons.inj h2).1
      revert this; decide
    · cases hp : HasPrefix ([116, 99, 112, 45, 108, 105, 115, 116, 101, 110, 61] ++ r)
          [101, 120, 101, 99, 61] with
      | false => rfl
      | true =>
        obtain ⟨r2, h2⟩ := (HasPrefix_iff _ _).1 hp
        have := (List.cons.inj h2).1
        revert this; decide
    · cases hp : HasPrefix ([116, 99, 112, 45, 108, 105, 115, 116, 101, 110, 61] ++ r)
          [116, 99, 112, 61] with
      | false => rfl
      | true =>
        obtain ⟨r2, h2⟩ := (HasPrefix_iff _ _).1 hp
        have := (List.cons.inj (List.cons.inj (List.cons.inj (List.cons.inj h2).2).2).2).1
        revert this; decide

/-- The choice of the transport from the option string: `""` or
`"clipboard"` gives the clipboard transport; a string starting with `"exec="`
gives the command transport on the remainder, `"tcp="` a TCP dial to the
remainder, `"tcp-listen="` a TCP listen on the remainder (each when its
constructor returns no error, otherwise `NewChannel` returns that failure);
for every other string `NewChannel` returns a nil channel and the error
"unknown transport method" and does not start the channel loop.  A channel
that is returned has the transport selected this way. -/
theorem NewChannel_transport_cases (w : World) (typ : Int) (options : ChannelOptions)
    (bufferSize interval : Int) :
    ((options.Transport = [] ∨ options.Transport = ascii "clipboard") →
      NewChannel.transport w options bufferSize interval = Except.ok Transport.clipboard) ∧
    (HasPrefix options.Transport (ascii "exec=") = true →
      options.Transport = ascii "exec=" ++ options.Transport.drop 5 ∧
      (w.NewCommand (options.Transport.drop 5) (wrapInt64 (bufferSize * 2)) interval = none →
        NewChannel.transport w options bufferSize interval = Except.ok
          (Transport.command (options.Transport.drop 5) (wrapInt64 (bufferSize * 2)) interval)) ∧
      (w.NewCommand (options.Transport.drop 5) (wrapInt64 (bufferSize * 2)) interval ≠ none →
        NewChannel.transport w options bufferSize interval =
          Except.error (GoError.errorf "cannot create transport"))) ∧
    (HasPrefix options.Transport (ascii "tcp=") = true →
      options.Transport = ascii "tcp=" ++ options.Transport.drop 4 ∧
      (w.DialTCP (options.Transport.drop 4) (wrapInt64 (bufferSize * 2)) interval = none →
        NewChannel.transport w options bufferSize interval = Except.ok
          (Transport.tcpDial (options.Transport.drop 4) (wrapInt64 (bufferSize * 2)) interval)) ∧
      (w.DialTCP (options.Transport.drop 4) (wrapInt64 (bufferSize * 2)) interval ≠ none →
        NewChannel.transport w options bufferSize interval =
          Except.error (GoError.errorf "cannot dial tcp connection"))) ∧
    (HasPrefix options.Transport (ascii "tcp-listen=") = true →
      options.Transport = ascii "tcp-listen=" ++ options.Transport.drop 11 ∧
      (w.ListenTCP (options.Transport.drop 11) (wrapInt64 (bufferSize * 2)) interval = none →
        NewChannel.transport w options bufferSize interval = Except.ok
          (Transport.tcpListen (options.Transport.drop 11) (wrapInt64 (bufferSize * 2))
            interval)) ∧
      (w.ListenTCP (options.Transport.drop 11) (wrapInt64 (bufferSize * 2)) interval ≠ none →
        NewChannel.transport w options bufferSize interval =
          Except.error (GoError.errorf "cannot dial tcp connection"))) ∧
    (options.Transport ≠ [] → options.Transport ≠ ascii "clipboard" →
      HasPrefix options.Transport (ascii "exec=") = false →
      HasPrefix options.Transport (ascii "tcp=") = false →
      HasPrefix options.Transport (ascii "tcp-listen=") = false →
      NewChannel w typ options =
        NewChannelResult.failed (GoError.errorf "unknown transport method") ∧
      (NewChannel w typ options).loopStarted = false) ∧
    (∀ c t, NewChannel w typ options = NewChannelResult.started c t →
      (NewChannel w typ options).loopStarted = true ∧
      c.interval = (if options.Interval > 0 then options.Interval else 0) ∧
      NewChannel.transport w options options.Blocksize c.interval = Except.ok t) := by
  obtain ⟨p1, p2, p3⟩ := transport_prefixes options.Transport
  refine ⟨?_, ?_, ?_, ?_, ?_, ?_⟩
  · intro h
    unfold NewChannel.transport
    rw [if_pos h]
  · intro h
    obtain ⟨n1, n2⟩ := p1 h
    refine ⟨HasPrefix_drop _ _ h, ?_, ?_⟩
    · intro hw
      unfold NewChannel.transport
      rw [if_neg (by tauto), if_pos h, hw]
    · intro hw
      unfold NewChannel.transport
      rw [if_neg (by tauto), if_pos h]
      cases hc : w.NewCommand (options.Transport.drop 5) (wrapInt64 (bufferSize * 2))
        interval with
      | none => exact absurd hc hw
      | some e => rfl
  · intro h
    obtain ⟨n1, n2, n3⟩ := p2 h
    refine ⟨HasPrefix_drop _ _ h, ?_, ?_⟩
    · intro hw
      unfold NewChannel.transport
      rw [if_neg (by tauto), if_neg (by simp [n3]), if_pos h, hw]
    · intro hw
      unfold NewChannel.transport
      rw [if_neg (by tauto), if_neg (by simp [n3]), if_pos h]
      cases hc : w.DialTCP (options.Transport.drop 4) (wrapInt64 (bufferSize * 2))
        interval with
      | none => exact absurd hc hw
      | some e => rfl
  · intro h
    obtain ⟨n1, n2, n3, n4⟩ := p3 h
    refine ⟨HasPrefix_drop _ _ h, ?_, ?_⟩
    · intro hw
      unfold NewChannel.transport
      rw [if_neg (by tauto), if_neg (by simp [n3]), if_neg (by simp [n4]), if_pos h, hw]
    · intro hw
      unfold NewChannel.transport
      rw [if_neg (by tauto), if_neg (by simp [n3]), if_neg (by simp [n4]), if_pos h]
      cases hc : w.ListenTCP (options.Transport.drop 11) (wrapInt64 (bufferSize * 2))
        interval with
      | none => exact absurd hc hw
      | some e => rfl
  · intro n1 n2 n3 n4 n5
    have ht : ∀ b i, NewChannel.transport w options b i =
        Except.error (GoError.errorf "unknown transport method") := by
      intro b i
      unfold NewChannel.transport
      rw [if_neg (by tauto), if_neg (by simp [n3]), if_neg (by simp [n4]),
        if_neg (by simp [n5])]
    have hN : NewChannel w typ options =
        NewChannelResult.failed (GoError.errorf "unknown transport method") := by
      unfold NewChannel
      simp only [ht]
    rw [hN]
    exact ⟨rfl, rfl⟩
  · intro c t h
    refine ⟨by rw [h]; rfl, ?_⟩
    unfold NewChannel at h
    simp only [] at h
    split at h
    · exact NewChannelResult.noConfusion h
    · rename_i t2 ht
      split at h
      · exact NewChannelResult.noConfusion h
      · split at h
        · simp only [NewChannelResult.started.injEq] at h
          obtain ⟨rfl, rfl⟩ := h
          exact ⟨rfl, ht⟩
        · exact NewChannelResult.noConfusion h


/-- What `NewChannel` returns once the transport is chosen: the failure of the
choice; for an empty password the fatal exit; otherwise the channel with the
chosen transport, its loop started, unless the derived key is short. -/
theorem NewChannel_of_transport (w : World) (typ : Int) (options : ChannelOptions) :
    (∀ e, NewChannel.transport w options options.Blocksize
        (if options.Interval > 0 then options.Interval else 0) = Except.error e →
      NewChannel w typ options = NewChannelResult.failed e) ∧
    (∀ t, NewChannel.transport w options options.Blocksize
        (if options.Interval > 0 then options.Interval else 0) = Except.ok t →
      options.Password = [] → NewChannel w typ options = NewChannelResult.fatal) ∧
    (∀ t, NewChannel.transport w options options.Blocksize
        (if options.Interval > 0 then options.Interval else 0) = Except.ok t →
      options.Password ≠ [] →
      ∀ h32 : ((w.pbkdf2Key options.Password).take 32).length = 32,
      NewChannel w typ options =
        NewChannelResult.started (NewChannel.made w typ options h32) t) ∧
    (∀ t, NewChannel.transport w options options.Blocksize
        (if options.Interval > 0 then options.Interval else 0) = Except.ok t →
      options.Password ≠ [] → ((w.pbkdf2Key options.Password).take 32).length ≠ 32 →
      NewChannel w typ options =
        NewChannelResult.failed (GoError.errorf "could not derive key from password")) := by
  refine ⟨?_, ?_, ?_, ?_⟩
  · intro e he
    unfold NewChannel
    simp only [he]
  · intro t ht hp
    unfold NewChannel
    simp only [ht]
    rw [if_pos hp]
  · intro t ht hp h32
    unfold NewChannel
    simp only [ht]
    rw [if_neg hp, dif_pos h32]
    rfl
  · intro t ht hp h32
    unfold NewChannel
    simp only [ht]
    rw [if_neg hp, dif_neg h32]

/-- C16: `NewChannel` selects the transport from the option string.  With a
password and a derived key of 32 bytes it returns the channel, its loop
started, with the clipboard transport for `""` and `"clipboard"`, the command
transport on the remainder for a string starting with `"exec="`, a TCP dial to
the remainder for `"tcp="` and a TCP listen on the remainder for
`"tcp-listen="` (each when its constructor returns no error; when it returns
one, `NewChannel` returns nil and an error and starts no loop).  For every
other string `NewChannel` returns a nil channel and the error "unknown
transport method" and does not start the channel loop.  So for the options of
the command line with each of the transport strings. -/
theorem NewChannel_transport_selection (w : World) (typ : Int) (options : ChannelOptions) :
    (∀ h32 : ((w.pbkdf2Key options.Password).take 32).length = 32, options.Password ≠ [] →
      ((options.Transport = [] ∨ options.Transport = ascii "clipboard") →
        NewChannel w typ options =
          NewChannelResult.started (NewChannel.made w typ options h32) Transport.clipboard) ∧
      (HasPrefix options.Transport (ascii "exec=") = true →
        w.NewCommand (options.Transport.drop 5) (wrapInt64 (options.Blocksize * 2))
          (if options.Interval > 0 then options.Interval else 0) = none →
        NewChannel w typ options =
          NewChannelResult.started (NewChannel.made w typ options h32)
            (Transport.command (options.Transport.drop 5) (wrapInt64 (options.Blocksize * 2))
              (if options.Interval > 0 then options.Interval else 0))) ∧
      (HasPrefix options.Transport (ascii "tcp=") = true →
        w.DialTCP (options.Transport.drop 4) (wrapInt64 (options.Blocksize * 2))
          (if options.Interval > 0 then options.Interval else 0) = none →
        NewChannel w typ options =
          NewChannelResult.started (NewChannel.made w typ options h32)
            (Transport.tcpDial (options.Transport.drop 4) (wrapInt64 (options.Blocksize * 2))
              (if options.Interval > 0 then options.Interval else 0))) ∧
      (HasPrefix options.Transport (ascii "tcp-listen=") = true →
        w.ListenTCP (options.Transport.drop 11) (wrapInt64 (options.Blocksize * 2))
          (if options.Interval > 0 then options.Interval else 0) = none →
        NewChannel w typ options =
          NewChannelResult.started (NewChannel.made w typ options h32)
            (Transport.tcpListen (options.Transport.drop 11)
              (wrapInt64 (options.Blocksize * 2))
              (if options.Interval > 0 then options.Interval else 0)))) ∧
    (HasPrefix options.Transport (ascii "exec=") = true →
      options.Transport = ascii "exec=" ++ options.Transport.drop 5 ∧
      (w.NewCommand (options.Transport.drop 5) (wrapInt64 (options.Blocksize * 2))
          (if options.Interval > 0 then options.Interval else 0) ≠ none →
        NewChannel w typ options =
          NewChannelResult.failed (GoError.errorf "cannot create transport"))) ∧
    (HasPrefix options.Transport (ascii "tcp=") = true →
      options.Transport = ascii "tcp=" ++ options.Transport.drop 4 ∧
      (w.DialTCP (options.Transport.drop 4) (wrapInt64 (options.Blocksize * 2))
          (if options.Interval > 0 then options.Interval else 0) ≠ none →
        NewChannel w typ options =
          NewChannelResult.failed (GoError.errorf "cannot dial tcp connection"))) ∧
    (HasPrefix options.Transport (ascii "tcp-listen=") = true →
      options.Transport = ascii "tcp-listen=" ++ options.Transport.drop 11 ∧
      (w.ListenTCP (options.Transport.drop 11) (wrapInt64 (options.Blocksize * 2))
          (if options.Interval > 0 then options.Interval else 0) ≠ none →
        NewChannel w typ options =
          NewChannelResult.failed (GoError.errorf "cannot dial tcp connection"))) ∧
    (options.Transport ≠ [] → options.Transport ≠ ascii "clipboard" →
      HasPrefix options.Transport (ascii "exec=") = false →
      HasPrefix options.Transport (ascii "tcp=") = false →
      HasPrefix options.Transport (ascii "tcp-listen=") = false →
      NewChannel w typ options =
        NewChannelResult.failed (GoError.errorf "unknown transport method") ∧
      (NewChannel w typ options).loopStarted = false) ∧
    (∀ c t, NewChannel w typ options = NewChannelResult.started c t →
      (NewChannel w typ options).loopStarted = true ∧
      c.interval = (if options.Interval > 0 then options.Interval else 0) ∧
      NewChannel.transport w options options.Blocksize c.interval = Except.ok t) ∧
    (∀ e, NewChannel w typ options = NewChannelResult.failed e →
      (NewChannel w typ options).loopStarted = false) ∧
    NewChannel sampleWorld CLIENT (sampleChannelOptions (ascii "")) =
      NewChannelResult.started clientChannel Transport.clipboard ∧
    NewChannel sampleWorld CLIENT (sampleChannelOptions (ascii "clipboard")) =
      NewChannelResult.started clientChannel Transport.clipboard ∧
    NewChannel sampleWorld SERVER (sampleChannelOptions (ascii "exec=nc -l 9000")) =
      NewChannelResult.started serverChannel
        (Transport.command (ascii "nc -l 9000") 131072 1000000000) ∧
    NewChannel sampleWorld CLIENT (sampleChannelOptions (ascii "tcp=10.0.0.1:9000")) =
      NewChannelResult.started clientChannel
        (Transport.tcpDial (ascii "10.0.0.1:9000") 131072 1000000000) ∧
    NewChannel sampleWorld SERVER (sampleChannelOptions (ascii "tcp-listen=:9000")) =
      NewChannelResult.started serverChannel
        (Transport.tcpListen (ascii ":9000") 131072 1000000000) ∧
    NewChannel sampleWorld CLIENT (sampleChannelOptions (ascii "udp=10.0.0.1:9000")) =
      NewChannelResult.failed (GoError.errorf "unknown transport method") := by
  obtain ⟨c1, c2, c3, c4, c5, c6⟩ := NewChannel_transport_cases w typ options
    options.Blocksize (if options.Interval > 0 then options.Interval else 0)
  obtain ⟨n1, n2, n3, n4⟩ := NewChannel_of_transport w typ options
  refine ⟨?_, ?_, ?_, ?_, c5, c6, ?_, by decide, by decide, by decide, by decide, by decide,
    by decide⟩
  · intro h32 hp
    refine ⟨?_, ?_, ?_, ?_⟩
    · intro h
      exact n3 _ (c1 h) hp h32
    · intro h hw
      exact n3 _ ((c2 h).2.1 hw) hp h32
    · intro h hw
      exact n3 _ ((c3 h).2.1 hw) hp h32
    · intro h hw
      exact n3 _ ((c4 h).2.1 hw) hp h32
  · intro h
    exact ⟨(c2 h).1, fun hw => n1 _ ((c2 h).2.2 hw)⟩
  · intro h
    exact ⟨(c3 h).1, fun hw => n1 _ ((c3 h).2.2 hw)⟩
  · intro h
    exact ⟨(c4 h).1, fun hw => n1 _ ((c4 h).2.2 hw)⟩
  · intro e he
    rw [he]
    rfl

/-! ## The receive buffer -/

/-- C19, the claim as first stated fails: a server loop accepts the packets
with `Seq` 0 to 17 of a peer that acknowledges nothing; after the first of them
it has sent its own packet 0, which stays unacknowledged, so no later iteration
reaches the send path and its trimming: after eighteen iterations
`lastRecvIndex` is 17 and `receiveQueue` still holds key 0, which is below
`lastRecvIndex - QueueSize`, and has 18 entries. -/
theorem receiveQueue_keeps_old_entry :
    (run plainLib serverChannel (LoopState.init 0) stalledRun).status = Status.running ∧
    (run plainLib serverChannel (LoopState.init 0) stalledRun).st.lastRecvIndex = 17 ∧
    ((run plainLib serverChannel (LoopState.init 0) stalledRun).st.receiveQueue.lookup 0).isSome
      = true ∧
    (0 : Int) < 17 - QueueSize ∧
    (run plainLib serverChannel (LoopState.init 0) stalledRun).st.receiveQueue.length = 18 := by
  decide

theorem AckInv.first_state (now : Int) : AckInv (LoopState.init now) [] where
  ackedLe := by simp [LoopState.init]
  queuedAck := by simp [queuedPackets]

/-- Every action keeps the invariant of the acknowledgements and does not
lower `lastAcked`. -/
theorem step_AckInv (L : CodecLib) (c : Channel) (st : LoopState) (evs : List Event)
    (a : Action) (b : Int) (h : AckInv st evs) (hb : b ≤ st.lastAcked) :
    AckInv (step L c st a).st (evs ++ (step L c st a).events) ∧
    b ≤ (step L c st a).st.lastAcked := by
  refine step_parts L c (fun st evs => AckInv st evs ∧ b ≤ st.lastAcked)
    ?_ ?_ ?_ ?_ st evs a ⟨h, hb⟩
  · intro st evs data h
    obtain ⟨_, _, f3, _, f5, _⟩ := Send_frame c st data
    exact ⟨⟨by rw [f3, f5]; exact h.1.ackedLe, by rw [f5]; exact h.1.queuedAck⟩,
      by rw [f5]; exact h.2⟩
  · intro st evs msg h
    obtain ⟨f1, _, _, f4, _⟩ := sendControl_frame c st msg
    exact ⟨⟨by rw [f1, f4]; exact h.1.ackedLe, by rw [f4]; exact h.1.queuedAck⟩,
      by rw [f4]; exact h.2⟩
  · intro st evs p t k h
    obtain ⟨_, _, f3, _, _⟩ := recvPacket_send_side c st p t k
    have hle := recvPacket_lastRecvIndex_le c st p t k
    have hq := (recvPacket_no_send_events c st p t k).1
    refine ⟨⟨by rw [f3]; exact le_trans h.1.ackedLe hle, ?_⟩, by rw [f3]; exact h.2⟩
    intro q hq2
    rw [queuedPackets_append, hq, List.append_nil] at hq2
    rw [f3]; exact h.1.queuedAck q hq2
  · intro st evs inp h
    refine sendPhase_elim L c st inp
      (fun o => AckInv o.st (evs ++ o.events) ∧ b ≤ o.st.lastAcked) ?_ ?_ ?_ ?_
    · simpa using h
    · intro _ _
      refine ⟨⟨h.1.ackedLe, ?_⟩, h.2⟩
      intro q hq
      rw [queuedPackets_append] at hq
      rcases writePacket_cases L c (st.sendQueue.get st.lastSendIndex) inp.rnd true with hw | hw
      · rw [hw] at hq
        simp only [queuedPackets, List.append_nil] at hq
        exact h.1.queuedAck q hq
      · rw [hw] at hq
        simp only [queuedPackets, List.append_nil] at hq
        exact h.1.queuedAck q hq
    · intro cbdata rest _ _
      obtain ⟨g1, _⟩ := sendNew_frame L c { st with sendChan := rest } cbdata inp
      obtain ⟨_, g2, _⟩ := sendNew_state L c { st with sendChan := rest } cbdata inp
      have hq := sendNew_queued L c { st with sendChan := rest } cbdata inp
      refine ⟨⟨by rw [g1, g2], ?_⟩, by rw [g2]; exact le_trans h.2 h.1.ackedLe⟩
      intro q hq2
      rw [queuedPackets_append, hq, List.mem_append, List.mem_singleton] at hq2
      rw [g2]
      rcases hq2 with h1 | h1
      · exact le_trans (h.1.queuedAck q h1) h.1.ackedLe
      · rw [h1]
    · intro _ _ _
      obtain ⟨g1, _⟩ := sendNew_frame L c st
        { Target := c.peerHeader, Typ := 0, Payload := [], Seq := 0, Ack := 0 } inp
      obtain ⟨_, g2, _⟩ := sendNew_state L c st
        { Target := c.peerHeader, Typ := 0, Payload := [], Seq := 0, Ack := 0 } inp
      have hq := sendNew_queued L c st
        { Target := c.peerHeader, Typ := 0, Payload := [], Seq := 0, Ack := 0 } inp
      refine ⟨⟨by rw [g1, g2], ?_⟩, by rw [g2]; exact le_trans h.2 h.1.ackedLe⟩
      intro q hq2
      rw [queuedPackets_append, hq, List.mem_append, List.mem_singleton] at hq2
      rw [g2]
      rcases hq2 with h1 | h1
      · exact le_trans (h.1.queuedAck q h1) h.1.ackedLe
      · rw [h1]

theorem RecvKeys.first_state_keys (now : Int) : RecvKeys (LoopState.init now) where
  nodup := by simp [LoopState.init, PacketMap.keys]
  bounds := by simp [LoopState.init, PacketMap.lookup]

theorem RecvKeys.transfer {st : LoopState} (h : RecvKeys st) (st2 : LoopState)
    (h1 : st2.receiveQueue = st.receiveQueue) (h2 : st2.lastAcked = st.lastAcked)
    (h3 : st2.lastRecvIndex = st.lastRecvIndex) : RecvKeys st2 where
  nodup := by rw [h1]; exact h.nodup
  bounds := by rw [h1, h2, h3]; exact h.bounds

/-- The receive step on a decoded packet: the buffer and `lastRecvIndex` stay,
or the packet is stored under the next index. -/
theorem recvPacket_receiveQueue (c : Channel) (st : LoopState) (p : CBPacket) (now : Int)
    (consumer : Bool) :
    ((recvPacket c st p now consumer).st.receiveQueue = st.receiveQueue ∧
      (recvPacket c st p now consumer).st.lastRecvIndex = st.lastRecvIndex) ∨
    ((recvPacket c st p now consumer).st.receiveQueue =
        st.receiveQueue.set (st.lastRecvIndex + 1) p ∧
      (recvPacket c st p now consumer).st.lastRecvIndex = st.lastRecvIndex + 1) := by
  obtain ⟨n1, _, _, n4, _⟩ := noteAck_frame st p
  by_cases hT : p.Target = c.ownHeader
  · by_cases hS : p.Seq = st.lastRecvIndex + 1
    · right
      rw [recvPacket_next c st p now consumer hT hS]
      obtain ⟨a1, a2, _⟩ := acceptPacket_state c (noteAck st p) p now consumer
      rw [a1, a2, n1, n4]
      exact ⟨rfl, rfl⟩
    · left
      rw [recvPacket_not_next c st p now consumer hT hS]
      exact ⟨n4, n1⟩
  · left
    rw [recvPacket_other_target c st p now consumer hT]
    exact ⟨rfl, rfl⟩

/-- The receive step keeps the bounds of the keys of the receive buffer. -/
theorem recvPacket_RecvKeys (c : Channel) (st : LoopState) (p : CBPacket) (now : Int)
    (consumer : Bool) (h : RecvKeys st) (hA : st.lastAcked ≤ st.lastRecvIndex)
    (hlri : -1 ≤ st.lastRecvIndex) : RecvKeys (recvPacket c st p now consumer).st := by
  obtain ⟨_, _, f3, _, _⟩ := recvPacket_send_side c st p now consumer
  rcases recvPacket_receiveQueue c st p now consumer with ⟨e1, e2⟩ | ⟨e1, e2⟩
  · exact h.transfer _ e1 f3 e2
  · refine ⟨by rw [e1]; exact PacketMap.nodup_set _ _ _ h.nodup, ?_⟩
    intro k hk
    rw [e1] at hk
    rw [f3, e2]
    by_cases hkk : k = st.lastRecvIndex + 1
    · rw [hkk]
      unfold QueueSize
      omega
    · rw [PacketMap.lookup_set_ne _ _ _ _ hkk] at hk
      have := h.bounds k hk
      omega

/-- The send of a new packet keeps the bounds of the keys of the receive buffer
when at most one accepted packet is unacknowledged. -/
theorem sendNew_RecvKeys (L : CodecLib) (c : Channel) (st : LoopState) (cbdata : CBPacket)
    (inp : Input) (h : RecvKeys st) (hJ : st.lastRecvIndex ≤ st.lastAcked + 1) :
    RecvKeys (sendNew L c st cbdata inp).st := by
  have hq : (sendNew L c st cbdata inp).st.receiveQueue =
      if st.lastRecvIndex ≥ QueueSize then st.receiveQueue.delete (st.lastRecvIndex - QueueSize)
      else st.receiveQueue := rfl
  obtain ⟨g1, _⟩ := sendNew_frame L c st cbdata inp
  obtain ⟨_, g2, _⟩ := sendNew_state L c st cbdata inp
  by_cases hge : st.lastRecvIndex ≥ QueueSize
  · rw [if_pos hge] at hq
    refine ⟨by rw [hq]; exact PacketMap.nodup_delete _ _ h.nodup, ?_⟩
    intro k hk
    rw [hq] at hk
    rw [g1, g2]
    by_cases hkk : k = st.lastRecvIndex - QueueSize
    · rw [hkk, PacketMap.lookup_delete_self] at hk
      exact Bool.noConfusion hk
    · rw [PacketMap.lookup_delete_ne _ _ _ hkk] at hk
      have := h.bounds k hk
      omega
  · rw [if_neg hge] at hq
    refine ⟨by rw [hq]; exact h.nodup, ?_⟩
    intro k hk
    rw [hq] at hk
    rw [g1, g2]
    have := h.bounds k hk
    omega

/-- The send half of an iteration keeps the bounds of the keys. -/
theorem sendPhase_RecvKeys (L : CodecLib) (c : Channel) (st : LoopState) (inp : Input)
    (h : RecvKeys st) (hJ : st.lastRecvIndex ≤ st.lastAcked + 1) :
    RecvKeys (sendPhase L c st inp).st := by
  refine sendPhase_elim L c st inp (fun o => RecvKeys o.st) h ?_ ?_ ?_
  · intro _ _
    exact h.transfer _ rfl rfl rfl
  · intro cbdata rest _ _
    exact sendNew_RecvKeys L c _ cbdata inp (h.transfer _ rfl rfl rfl) hJ
  · intro _ _ _
    exact sendNew_RecvKeys L c st _ inp h hJ

/-- An action keeps the bounds of the keys of the receive buffer when after it
at most one accepted packet is beyond the acknowledgement given before it. -/
theorem step_RecvKeys (L : CodecLib) (c : Channel) (st : LoopState) (a : Action)
    (h : RecvKeys st) (hA : st.lastAcked ≤ st.lastRecvIndex) (hlri : -1 ≤ st.lastRecvIndex)
    (hJ : (step L c st a).st.lastRecvIndex ≤ st.lastAcked + 1) :
    RecvKeys (step L c st a).st := by
  cases a with
  | send data =>
    obtain ⟨_, _, f3, _, f5, f6⟩ := Send_frame c st data
    exact h.transfer _ f6 f5 f3
  | control msg =>
    obtain ⟨f1, _, _, f4, f5, _⟩ := sendControl_frame c st msg
    exact h.transfer _ f5 f4 f1
  | tick inp =>
    simp only [step] at hJ ⊢
    have hmid : RecvKeys (recvPhase L c st inp).st ∧
        (recvPhase L c st inp).st.lastAcked = st.lastAcked := by
      rcases recvPhase_eq L c st inp with e | e
      · rw [e]; exact ⟨h, rfl⟩
      · rw [e]
        exact ⟨recvPacket_RecvKeys c st _ _ _ h hA hlri,
          (recvPacket_send_side c st _ _ _).2.2.1⟩
    unfold iteration at hJ ⊢
    by_cases hR : (recvPhase L c st inp).status = Status.running
    · simp only [if_pos hR] at hJ ⊢
      rw [(sendPhase_frame L c _ inp).1] at hJ
      exact sendPhase_RecvKeys L c _ inp hmid.1 (by rw [hmid.2]; exact hJ)
    · simp only [if_neg hR]
      exact hmid.1

/-- The receive step sets `lastAckReceived` to the larger of its value and the
`Ack` of a packet addressed to this end. -/
theorem recvPacket_lastAckReceived (c : Channel) (st : LoopState) (p : CBPacket) (now : Int)
    (consumer : Bool) :
    (recvPacket c st p now consumer).st.lastAckReceived =
      if p.Target = c.ownHeader then max st.lastAckReceived p.Ack else st.lastAckReceived := by
  obtain ⟨_, _, _, _, _, _, _, _, _, n10⟩ := noteAck_frame st p
  by_cases hT : p.Target = c.ownHeader
  · rw [if_pos hT]
    by_cases hS : p.Seq = st.lastRecvIndex + 1
    · rw [recvPacket_next c st p now consumer hT hS,
        (acceptPacket_state c (noteAck st p) p now consumer).2.2.1, n10]
    · rw [recvPacket_not_next c st p now consumer hT hS]
      exact n10
  · rw [if_neg hT, recvPacket_other_target c st p now consumer hT]

/-- An action keeps `lastAckReceived` below a bound that holds for the `Ack` of
the packet read, when that packet is addressed to this end. -/
theorem step_lastAckReceived_le (L : CodecLib) (c : Channel) (st : LoopState) (a : Action)
    (b : Int) (h : st.lastAckReceived ≤ b)
    (hp : ∀ inp, a = Action.tick inp → inp.content ≠ [] →
      (string2packet L c.secretKey inp.content).2 = none →
      (string2packet L c.secretKey inp.content).1.Target = c.ownHeader →
      (string2packet L c.secretKey inp.content).1.Ack ≤ b) :
    (step L c st a).st.lastAckReceived ≤ b := by
  cases a with
  | send data =>
    obtain ⟨_, _, _, f4, _⟩ := Send_frame c st data
    simp only [step]
    rw [f4]; exact h
  | control msg =>
    obtain ⟨_, _, f3, _⟩ := sendControl_frame c st msg
    simp only [step]
    rw [f3]; exact h
  | tick inp =>
    simp only [step]
    have hmid : (recvPhase L c st inp).st.lastAckReceived ≤ b := by
      unfold recvPhase
      by_cases h0 : inp.content ≠ []
      · rw [if_pos h0]
        by_cases hE : (string2packet L c.secretKey inp.content).2 ≠ none
        · rw [if_pos hE]; exact h
        · rw [if_neg hE, recvPacket_lastAckReceived]
          by_cases hT : (string2packet L c.secretKey inp.content).1.Target = c.ownHeader
          · rw [if_pos hT]
            exact max_le h (hp inp rfl h0 (not_not.mp hE) hT)
          · rw [if_neg hT]; exact h
      · rw [if_neg h0]; exact h
    unfold iteration
    by_cases hR : (recvPhase L c st inp).status = Status.running
    · simp only [if_pos hR]
      rw [(sendPhase_frame L c _ inp).2.1]
      exact hmid
    · simp only [if_neg hR]
      exact hmid

/-- A packet read from the slot and addressed to one end was queued by the
other end. -/
theorem slot_packet_queued (L : CodecLib) (o : Options) (s : System) (who : Peer)
    (content : GoString)
    (hI : ∀ x, PeerInv L (o.channel x) (s x))
    (hslot : SlotOk L o s content) (h0 : content ≠ [])
    (hE : (string2packet L (o.channel who).secretKey content).2 = none)
    (hT : (string2packet L (o.channel who).secretKey content).1.Target =
      (o.channel who).ownHeader) :
    (string2packet L (o.channel who).secretKey content).1 ∈
      queuedPackets (s who.other).events := by
  obtain ⟨hne, hpeer, hkey⟩ := Options.channel_headers o who
  rw [hkey] at hE hT ⊢
  rcases hslot with h | h | ⟨x, hx⟩
  · exact absurd h h0
  · exact absurd hE h
  · obtain ⟨p, r, hw⟩ := mem_writtenStrings _ _ hx
    have hdec := (hI x).writes p content r hw
    rw [(Options.channel_headers o x).2.2] at hdec
    rw [hdec] at hT ⊢
    simp only [] at hT ⊢
    have hq : p ∈ queuedPackets (s x).events :=
      (hI x).loop.writtenQueued p (mem_writtenPackets _ _ _ _ hw)
    have htx := (hI x).queuedTarget p hq
    rcases Peer.eq_or_other who x with hx | hx
    · rw [hx] at htx
      exact absurd (htx.symm.trans hT) hne
    · rw [hx] at hq
      exact hq

/-- Every reachable state of the two ends: at each end the acknowledgements
are in order, at most one packet is unacknowledged, no acknowledgement was
received that the other end has not given, and the keys of the receive buffer
lie above `lastAcked - QueueSize`. -/
theorem Reachable.receive_invariant (L : CodecLib) (hL : L.Lawful) (o : Options) (s : System)
    (hs : Reachable L o s) :
    ∀ who, AckInv (s who).st (s who).events ∧
      (s who).st.lastSendIndex ≤ (s who).st.lastAckReceived + 1 ∧
      (s who).st.lastAckReceived ≤ (s who.other).st.lastAcked ∧
      RecvKeys (s who).st := by
  induction hs with
  | init start =>
    intro who
    exact ⟨AckInv.first_state _, by simp [System.init, LoopState.init],
      by simp [System.init, LoopState.init], RecvKeys.first_state_keys _⟩
  | act s who a hs hen ih =>
    have hI := Reachable.invariant L hL o s hs
    have hPost := Reachable.invariant L hL o _ (Reachable.act s who a hs hen) who
    obtain ⟨e1, e2⟩ := System.act_same L o s who a
    have eo := System.act_other L o s who who.other a (Peer.other_ne who)
    obtain ⟨iA, iW, iX, iK⟩ := ih who
    obtain ⟨jA, jW, jX, jK⟩ := ih who.other
    rw [Peer.other_other] at jX
    have hstep := step_AckInv L (o.channel who) (s who).st (s who).events a
      (s who).st.lastAcked iA (le_refl _)
    intro x
    rcases Peer.eq_or_other who x with hx | hx
    · subst hx
      rw [eo, e1, e2]
      refine ⟨hstep.1, step_window L _ _ (s x).events a iW, ?_, ?_⟩
      · refine step_lastAckReceived_le L _ _ a _ iX ?_
        intro inp ha h0 hE hT
        subst ha
        exact jA.queuedAck _
          (slot_packet_queued L o s x inp.content (fun y => (hI y).1) hen.2 h0 hE hT)
      · refine step_RecvKeys L _ _ a iK iA.ackedLe (hI x).1.loop.recvIndex ?_
        have hlen := hPost.2.length_le
        have hacc := hPost.1.acceptedLen
        rw [eo] at hlen
        rw [e1] at hacc
        have hls := (hI x.other).1.loop.lastSend
        omega
    · subst hx
      rw [eo, Peer.other_other, e1]
      exact ⟨jA, jW, le_trans jX hstep.2, jK⟩

/-- C19, amended: in every state that two ends running this loop reach on one
slot (any interleaving of their actions; a read of the slot returns nothing, a
value `string2packet` rejects or a packet string one of the two loops wrote),
the receive buffer of each end holds no key below `lastRecvIndex - QueueSize`:
its keys lie between `max(0, lastRecvIndex - QueueSize)` and `lastRecvIndex`,
so it has at most `QueueSize + 1` entries. -/
theorem receiveQueue_window (L : CodecLib) (hL : L.Lawful) (o : Options) (s : System)
    (hs : Reachable L o s) (who : Peer) :
    (∀ k, k < (s who).st.lastRecvIndex - QueueSize →
      (s who).st.receiveQueue.lookup k = none) ∧
    (∀ k, ((s who).st.receiveQueue.lookup k).isSome = true →
      max 0 ((s who).st.lastRecvIndex - QueueSize) ≤ k ∧ k ≤ (s who).st.lastRecvIndex) ∧
    ((s who).st.receiveQueue.length : Int) ≤ QueueSize + 1 := by
  obtain ⟨iA, iW, iX, iK⟩ := Reachable.receive_invariant L hL o s hs who
  obtain ⟨jA, jW, jX, jK⟩ := Reachable.receive_invariant L hL o s hs who.other
  rw [Peer.other_other] at jX
  obtain ⟨hP, hpre⟩ := Reachable.invariant L hL o s hs who
  have hls := (Reachable.invariant L hL o s hs who.other).1.loop.lastSend
  have hlen := hpre.length_le
  have hacc := hP.acceptedLen
  have hJ : (s who).st.lastRecvIndex ≤ (s who).st.lastAcked + 1 := by omega
  have hb : ∀ k, ((s who).st.receiveQueue.lookup k).isSome = true →
      max 0 ((s who).st.lastRecvIndex - QueueSize) ≤ k ∧ k ≤ (s who).st.lastRecvIndex := by
    intro k hk
    have := iK.bounds k hk
    refine ⟨max_le this.1 (by omega), this.2.2⟩
  refine ⟨?_, hb, ?_⟩
  · intro k hk
    cases hl : (s who).st.receiveQueue.lookup k with
    | none => rfl
    | some q =>
      have := (hb k (by rw [hl]; rfl)).1
      have h2 := le_max_right 0 ((s who).st.lastRecvIndex - QueueSize)
      omega
  · have := PacketMap.length_le_of_keys (s who).st.receiveQueue
      ((s who).st.lastRecvIndex - QueueSize) (s who).st.lastRecvIndex iK.nodup
      (fun k hk => ⟨le_trans (le_max_right _ _)
        (hb k ((PacketMap.mem_keys_iff _ k).1 hk)).1,
        (hb k ((PacketMap.mem_keys_iff _ k).1 hk)).2⟩)
    have hQ : (0 : Int) ≤ QueueSize := by decide
    rw [max_eq_right (by omega)] at this
    omega

/-- The statement of C19 as amended at the sample system, for the server. -/
theorem receiveQueue_window_witness :
    (∀ k, k < (sampleSystem Peer.server).st.lastRecvIndex - QueueSize →
      (sampleSystem Peer.server).st.receiveQueue.lookup k = none) ∧
    (∀ k, ((sampleSystem Peer.server).st.receiveQueue.lookup k).isSome = true →
      max 0 ((sampleSystem Peer.server).st.lastRecvIndex - QueueSize) ≤ k ∧
        k ≤ (sampleSystem Peer.server).st.lastRecvIndex) ∧
    ((sampleSystem Peer.server).st.receiveQueue.length : Int) ≤ QueueSize + 1 :=
  receiveQueue_window plainLib plainLib_lawful sampleOptions sampleSystem
    (Reachable.act _ Peer.server _
      (Reachable.act _ Peer.client _
        (Reachable.act _ Peer.client _ (Reachable.init _) trivial)
        ⟨by decide, Or.inl rfl⟩)
      ⟨by decide, Or.inr (Or.inr ⟨Peer.client, by decide⟩)⟩)
    Peer.server

/-! ## An iteration with an unacknowledged packet -/

/-- The last queued packet of a run: it exists when a packet is
unacknowledged, its `Seq` is `lastSendIndex` and it is the entry of the send
buffer under that key. -/
theorem LoopInv.last_queued {st : LoopState} {evs : List Event} (h : LoopInv st evs)
    (hlt : st.lastAckReceived < st.lastSendIndex) :
    ∃ q, (queuedPackets evs).getLast? = some q ∧ q.Seq = st.lastSendIndex ∧
      st.sendQueue.lookup st.lastSendIndex = some q := by
  have hne : queuedPackets evs ≠ [] := by
    intro hnil
    have h1 := h.lastSend
    have h2 := h.ackReceived
    rw [hnil] at h1
    simp at h1
    omega
  obtain ⟨q, hq⟩ : ∃ q, (queuedPackets evs).getLast? = some q := by
    cases hq : (queuedPackets evs).getLast? with
    | none => exact absurd (List.getLast?_eq_none_iff.mp hq) hne
    | some q => exact ⟨q, rfl⟩
  refine ⟨q, hq, ?_, (h.lastQueued q hq).1⟩
  obtain ⟨l, hl⟩ : ∃ l, queuedPackets evs = l ++ [q] := by
    refine ⟨(queuedPackets evs).dropLast, ?_⟩
    have := List.dropLast_append_getLast hne
    rw [List.getLast?_eq_getLast _ hne] at hq
    rw [← Option.some.inj hq]
    exact this.symm
  have hs := h.seqs
  have hls := h.lastSend
  rw [hl] at hs hls
  simp only [List.map_append, List.map_cons, List.map_nil, List.length_append,
    List.length_singleton, List.range_succ] at hs
  have := List.append_inj_right' hs (by simp)
  simp only [List.cons.injEq, and_true] at this
  rw [this, hls]
  simp

/-- The send half of an iteration that finds a packet unacknowledged: it takes
nothing from `sendChan`, queues nothing and leaves `lastSendIndex`, `lastAcked`
and the send buffer; it does nothing at all, or more than `4 * interval` has
passed since `lastSendTime` and it resets the transport and then writes the
stored packet (the write is left out when the encoding fails). -/
theorem sendPhase_stalled (L : CodecLib) (c : Channel) (st : LoopState) (inp : Input)
    (hlt : st.lastAckReceived < st.lastSendIndex) :
    (sendPhase L c st inp).st.sendChan = st.sendChan ∧
    (sendPhase L c st inp).st.lastSendIndex = st.lastSendIndex ∧
    (sendPhase L c st inp).st.lastAcked = st.lastAcked ∧
    (sendPhase L c st inp).st.sendQueue = st.sendQueue ∧
    queuedPackets (sendPhase L c st inp).events = [] ∧
    ((sendPhase L c st inp).events = [] ∨
      (inp.nowCheck - st.lastSendTime > 4 * c.interval ∧
        ((sendPhase L c st inp).events = [Event.reset] ∨
          (sendPhase L c st inp).events =
            [Event.reset, Event.write (st.sendQueue.get st.lastSendIndex)
              (packet2string L c.secretKey (st.sendQueue.get st.lastSendIndex) inp.rnd).1
              true]))) := by
  unfold sendPhase
  rw [if_pos hlt]
  by_cases ht : inp.nowCheck - st.lastSendTime > 4 * c.interval
  · rw [if_pos ht]
    rcases writePacket_cases L c (st.sendQueue.get st.lastSendIndex) inp.rnd true with hw | hw
    · rw [hw]
      exact ⟨rfl, rfl, rfl, rfl, rfl, Or.inr ⟨ht, Or.inl rfl⟩⟩
    · rw [hw]
      exact ⟨rfl, rfl, rfl, rfl, rfl, Or.inr ⟨ht, Or.inr rfl⟩⟩
  · rw [if_neg ht]
    exact ⟨rfl, rfl, rfl, rfl, rfl, Or.inl rfl⟩

/-- C21: an iteration of a run of the channel loop that finds
`lastAckReceived < lastSendIndex` at the test after its receive half takes no
packet from `sendChan`, queues no packet and leaves `lastSendIndex`,
`lastAcked` and `sendQueue` as they were before the iteration.  Beyond the
events of the receive half it does nothing, or more than `4 * interval` has
passed since `lastSendTime` and it calls `transport.Reset()` and then writes
the encoding of the packet `q` last queued, whose `Seq` is `lastSendIndex`,
as stored in `sendQueue` (no write when the encoding fails). -/
theorem iteration_unacknowledged (L : CodecLib) (c : Channel) (start : Int)
    (actions : List Action) (inp : Input)
    (hlt : (recvPhase L c (run L c (LoopState.init start) actions).st inp).st.lastAckReceived <
      (recvPhase L c (run L c (LoopState.init start) actions).st inp).st.lastSendIndex) :
    (iteration L c (run L c (LoopState.init start) actions).st inp).st.sendChan =
      (recvPhase L c (run L c (LoopState.init start) actions).st inp).st.sendChan ∧
    (iteration L c (run L c (LoopState.init start) actions).st inp).st.lastSendIndex =
      (run L c (LoopState.init start) actions).st.lastSendIndex ∧
    (iteration L c (run L c (LoopState.init start) actions).st inp).st.lastAcked =
      (run L c (LoopState.init start) actions).st.lastAcked ∧
    (iteration L c (run L c (LoopState.init start) actions).st inp).st.sendQueue =
      (run L c (LoopState.init start) actions).st.sendQueue ∧
    queuedPackets (iteration L c (run L c (LoopState.init start) actions).st inp).events = [] ∧
    ∃ q, (queuedPackets (run L c (LoopState.init start) actions).events).getLast? = some q ∧
      q.Seq = (run L c (LoopState.init start) actions).st.lastSendIndex ∧
      (run L c (LoopState.init start) actions).st.sendQueue.lookup
        (run L c (LoopState.init start) actions).st.lastSendIndex = some q ∧
      ((iteration L c (run L c (LoopState.init start) actions).st inp).events =
          (recvPhase L c (run L c (LoopState.init start) actions).st inp).events ∨
        (inp.nowCheck - (run L c (LoopState.init start) actions).st.lastSendTime >
            4 * c.interval ∧
          ((iteration L c (run L c (LoopState.init start) actions).st inp).events =
              (recvPhase L c (run L c (LoopState.init start) actions).st inp).events ++
                [Event.reset] ∨
            (iteration L c (run L c (LoopState.init start) actions).st inp).events =
              (recvPhase L c (run L c (LoopState.init start) actions).st inp).events ++
                [Event.reset,
                  Event.write q (packet2string L c.secretKey q inp.rnd).1 true]))) := by
  have hinv := run_LoopInv L c start actions
  generalize (run L c (LoopState.init start) actions).st = st0 at hlt hinv ⊢
  generalize (run L c (LoopState.init start) actions).events = evs0 at hinv ⊢
  obtain ⟨hmid, _, hqm⟩ := recvPhase_LoopInv L c st0 inp evs0 hinv
  have hside : (recvPhase L c st0 inp).st.lastSendIndex = st0.lastSendIndex ∧
      (recvPhase L c st0 inp).st.sendQueue = st0.sendQueue ∧
      (recvPhase L c st0 inp).st.lastAcked = st0.lastAcked ∧
      (recvPhase L c st0 inp).st.lastSendTime = st0.lastSendTime ∧
      queuedPackets (recvPhase L c st0 inp).events = [] := by
    rcases recvPhase_eq L c st0 inp with e | e <;> rw [e]
    · exact ⟨rfl, rfl, rfl, rfl, rfl⟩
    · obtain ⟨f1, f2, f3, f4, _⟩ := recvPacket_send_side c st0
        (string2packet L c.secretKey inp.content).1 inp.nowRecv inp.consumer
      exact ⟨f1, f2, f3, f4, (recvPacket_no_send_events c st0 _ _ _).1⟩
  obtain ⟨s1, s2, s3, s4, s5⟩ := hside
  obtain ⟨q, hq, hqs, hql⟩ := hmid.last_queued hlt
  rw [hqm] at hq
  rw [s1] at hqs
  rw [s1, s2] at hql
  obtain ⟨p1, p2, p3, p4, p5, p6⟩ := sendPhase_stalled L c (recvPhase L c st0 inp).st inp hlt
  rw [s1] at p2
  rw [s3] at p3
  rw [s2] at p4
  rw [s1, s2, s4, PacketMap.get_of_lookup _ _ _ hql] at p6
  unfold iteration
  by_cases hR : (recvPhase L c st0 inp).status = Status.running
  · simp only [if_pos hR]
    refine ⟨p1, p2, p3, p4, by rw [queuedPackets_append, s5, p5]; rfl, q, hq, hqs, hql, ?_⟩
    rcases p6 with e | ⟨ht, e | e⟩
    · left; rw [e, List.append_nil]
    · right; exact ⟨ht, Or.inl (by rw [e])⟩
    · right; exact ⟨ht, Or.inr (by rw [e])⟩
  · simp only [if_neg hR]
    exact ⟨trivial, s1, s3, s2, s5, q, hq, hqs, hql, Or.inl trivial⟩

/-- The statement of C21 for a server loop that has sent its first packet
while reading a packet with `Ack` -1, at an iteration five intervals later:
the hypothesis holds there. -/
theorem iteration_unacknowledged_witness :
    (recvPhase plainLib serverChannel
        (run plainLib serverChannel (LoopState.init 0)
          [Action.tick (sampleInput (sampleUnacked 0) 0)]).st
        (sampleInput [] 5000000000)).st.lastAckReceived <
      (recvPhase plainLib serverChannel
        (run plainLib serverChannel (LoopState.init 0)
          [Action.tick (sampleInput (sampleUnacked 0) 0)]).st
        (sampleInput [] 5000000000)).st.lastSendIndex ∧
    (iteration plainLib serverChannel
        (run plainLib serverChannel (LoopState.init 0)
          [Action.tick (sampleInput (sampleUnacked 0) 0)]).st
        (sampleInput [] 5000000000)).st.lastSendIndex =
      (run plainLib serverChannel (LoopState.init 0)
        [Action.tick (sampleInput (sampleUnacked 0) 0)]).st.lastSendIndex :=
  ⟨by decide,
    (iteration_unacknowledged plainLib serverChannel 0
      [Action.tick (sampleInput (sampleUnacked 0) 0)] (sampleInput [] 5000000000)
      (by decide)).2.1⟩

/-! ## A control packet on a channel without a callback -/

/-- C23 (the code does otherwise): on a channel made without a
`ControlPacketCallback`, an accepted control packet whose command is neither
"FIN" nor "FIN-ACK" makes `processControlPacket` call the nil function value
after it has logged that no callback is defined: the call panics, nothing is
skipped, and the iteration and with it the channel loop end there.  So for a
client loop in its first state that reads the packet "START-SOCKS". -/
theorem processControlPacket_nil_callback (c : Channel) (st : LoopState) (p : CBPacket)
    (now : Int) (consumer : Bool) :
    (c.hasCallback = false → p.Typ = PacketTypeControl →
      (splitCmdArg p.Payload).1 ≠ ascii "FIN" → (splitCmdArg p.Payload).1 ≠ ascii "FIN-ACK" →
      processControlPacket c st p = { st := st, events := [], status := Status.panicked } ∧
      (p.Target = c.ownHeader → p.Seq = st.lastRecvIndex + 1 →
        (recvPacket c st p now consumer).status = Status.panicked)) ∧
    clientChannel.hasCallback = false ∧
    (processControlPacket clientChannel (LoopState.init 0)
      ⟨CLIENT, PacketTypeControl, ascii "START-SOCKS", 0, -1⟩).status = Status.panicked ∧
    (iteration plainLib clientChannel (LoopState.init 0)
      (sampleInput (packet2string plainLib sampleKey
        ⟨CLIENT, PacketTypeControl, ascii "START-SOCKS", 0, -1⟩ (some sampleNonce)).1 0)).status =
      Status.panicked ∧
    (run plainLib clientChannel (LoopState.init 0)
      [Action.tick (sampleInput (packet2string plainLib sampleKey
        ⟨CLIENT, PacketTypeControl, ascii "START-SOCKS", 0, -1⟩ (some sampleNonce)).1 0),
       Action.tick (sampleInput [] 1000000000)]).status = Status.panicked := by
  refine ⟨?_, by decide, by decide, by decide, by decide⟩
  intro hcb hT h1 h2
  have hgen : ∀ st2 : LoopState,
      processControlPacket c st2 p = { st := st2, events := [], status := Status.panicked } := by
    intro st2
    unfold processControlPacket
    rw [if_pos hT, if_neg h1, if_neg h2, if_neg (by simp [hcb])]
  refine ⟨hgen st, ?_⟩
  intro hTg hS
  rw [recvPacket_next c st p now consumer hTg hS]
  unfold acceptPacket
  simp only [if_pos hT, hgen]

/-! ## The sign of a block size -/

/-- C24 (the code does otherwise): `parseBlocksize` accepts "9007199254740992k"
and returns `-9223372036854775808`: the digits denote `2 ^ 53`, and the product
with 1024 is `2 ^ 63`, which wraps.  It accepts "8796093022208m" with the same
result, and "99999999999999999999k" with the result -1024: for digits that do
not fit `strconv.Atoi` returns `2 ^ 63 - 1` with an error the code drops, and
the product wraps.  Without a suffix the result is never negative. -/
theorem parseBlocksize_negative :
    parseBlocksize (ascii "9007199254740992k") = (-9223372036854775808, none) ∧
    parseBlocksize (ascii "8796093022208m") = (-9223372036854775808, none) ∧
    parseBlocksize (ascii "99999999999999999999k") = (-1024, none) ∧
    (∀ ds : GoString, ds ≠ [] → (∀ d ∈ ds, isDigit d = true) →
      (parseBlocksize ds).2 = none ∧ 0 ≤ (parseBlocksize ds).1 ∧
      (parseBlocksize ds).1 = min (digitsValue ds : Int) (2 ^ 63 - 1)) := by
  refine ⟨by decide, by decide, by decide, ?_⟩
  intro ds hne hd
  rw [parseBlocksize_digits ds hne hd, Atoi_digits ds hne hd]
  by_cases h : 2 ^ 63 ≤ digitsValue ds
  · rw [if_pos h]
    refine ⟨rfl, by norm_num, ?_⟩
    simp only []
    rw [min_eq_right]
    have : ((2 ^ 63 : Nat) : Int) ≤ (digitsValue ds : Int) := by exact_mod_cast h
    have h2 : ((2 ^ 63 : Nat) : Int) = 2 ^ 63 := by norm_num
    omega
  · rw [if_neg h]
    refine ⟨rfl, Int.natCast_nonneg _, ?_⟩
    simp only []
    rw [min_eq_left]
    have : (digitsValue ds : Int) < ((2 ^ 63 : Nat) : Int) := by exact_mod_cast not_le.mp h
    have h2 : ((2 ^ 63 : Nat) : Int) = 2 ^ 63 := by norm_num
    omega

/-! ## Global requests of the SSH server -/

/-- C25 (the code does otherwise): for a request whose type is not
"tcpip-forward" `handleRequest` sends the failure reply (when one is wanted)
and then goes on, the test has no `return`: when the payload unmarshals and
the listen succeeds it opens the listener, sends a second reply, a success,
and starts forwarding.  Only when the payload does not unmarshal or the listen
fails is the request merely rejected.  So for a "keepalive@openssh.com"
request with the payload of a forward of `localhost:8080`. -/
theorem handleRequest_other_type (w : SshWorld) (req : Request) :
    (req.Typ ≠ ascii "tcpip-forward" → ∀ msg, w.Unmarshal req.Payload = some msg →
      w.Listen (bindAddress msg) = true →
      handleRequest w req =
        Request.Reply req false [] ++
          (RequestEvent.listen (bindAddress msg) ::
            (Request.Reply req true (w.Marshal msg.Port) ++
              [RequestEvent.forward (bindAddress msg) msg.Addr msg.Port]))) ∧
    (req.Typ ≠ ascii "tcpip-forward" →
      (w.Unmarshal req.Payload = none ∨
        ∃ msg, w.Unmarshal req.Payload = some msg ∧ w.Listen (bindAddress msg) = false) →
      handleRequest w req = Request.Reply req false []) ∧
    sampleRequest.Typ ≠ ascii "tcpip-forward" ∧
    handleRequest sampleSshWorld sampleRequest =
      [RequestEvent.reply false [],
       RequestEvent.listen (ascii "[localhost]:8080"),
       RequestEvent.reply true [0, 0, 31, 144],
       RequestEvent.forward (ascii "[localhost]:8080") (ascii "localhost") 8080] := by
  refine ⟨?_, ?_, by decide, by decide⟩
  · intro hT msg hU hL
    unfold handleRequest
    rw [if_pos hT, hU]
    simp only []
    rw [if_neg (by simp [hL])]
  · intro hT h
    unfold handleRequest
    rw [if_pos hT]
    rcases h with hU | ⟨msg, hU, hL⟩
    · rw [hU]
      simp
    · rw [hU]
      simp only []
      rw [if_pos hL]
      simp

/-! ## Two ends that wait for each other -/

/-- Once both ends wait for the acknowledgement of their first packet and all
queued packets carry `Ack` -1, every further action leaves them so: neither
end ever queues another packet. -/
theorem Stuck.stays (L : CodecLib) (hL : L.Lawful) (o : Options) (s : System)
    (hs : Reachable L o s) (h : Stuck s) (who : Peer) (a : Action)
    (hen : Enabled L o s who a) : Stuck (System.act L o s who a) := by
  have hI := Reachable.invariant L hL o s hs
  have hPost := (Reachable.invariant L hL o _ (Reachable.act s who a hs hen) who).1
  obtain ⟨e1, e2⟩ := System.act_same L o s who a
  have eo := System.act_other L o s who who.other a (Peer.other_ne who)
  intro x
  rcases Peer.eq_or_other who x with hx | hx
  · subst hx
    obtain ⟨h1, h2, h3⟩ := h x
    have hle : (step L (o.channel x) (s x).st a).st.lastAckReceived ≤ -1 := by
      refine step_lastAckReceived_le L _ _ a _ (le_of_eq h1) ?_
      intro inp ha h0 hE hT
      subst ha
      exact le_of_eq ((h x.other).2.2 _
        (slot_packet_queued L o s x inp.content (fun y => (hI y).1) hen.2 h0 hE hT))
    have hge := hPost.loop.ackReceived
    have hw := step_window L (o.channel x) (s x).st (s x).events a (by rw [h1, h2]; decide)
    have hls := hPost.loop.lastSend
    have hls0 := (hI x).1.loop.lastSend
    rw [e1] at hge hls
    rw [e2, queuedPackets_append, List.length_append] at hls
    have hlen : (queuedPackets (step L (o.channel x) (s x).st a).events).length = 0 := by
      omega
    have hnil := List.eq_nil_of_length_eq_zero hlen
    rw [e1, e2, queuedPackets_append, hnil, List.append_nil]
    exact ⟨by omega, by omega, h3⟩
  · subst hx
    rw [eo]
    exact h who.other

/-- C22 (the code does otherwise): the two ends reach a state in which each
waits for the other.  Both applications call `Send`, each loop writes its first
packet (with `Ack` -1) before it has read the other's, then each reads the
other's first packet: each end has accepted the packet the other waits for
(`lastRecvIndex` 0 on both ends), and each has
`lastAckReceived = -1 < lastSendIndex = 0`.  An acknowledgement travels only
in a new packet, a new packet is sent only after an acknowledgement, and a
retransmission repeats the stored `Ack` -1: from such a state every action of
either end leads to such a state again, so neither end ever sends a new
packet. -/
theorem mutual_wait_reachable :
    Reachable plainLib sampleOptions deadlockSystem ∧
    (∀ who : Peer, (deadlockSystem who).status = Status.running ∧
      (deadlockSystem who).st.lastAckReceived < (deadlockSystem who).st.lastSendIndex ∧
      (deadlockSystem who.other).st.lastRecvIndex ≥ (deadlockSystem who).st.lastSendIndex ∧
      (deadlockSystem who).sent ≠ [] ∧
      deliveredPackets (deadlockSystem who).events = acceptedPackets (deadlockSystem who).events ∧
      acceptedPackets (deadlockSystem who).events = queuedPackets (deadlockSystem who.other).events) ∧
    Stuck deadlockSystem ∧
    (∀ (L : CodecLib) (o : Options) (s : System) (who : Peer) (a : Action), L.Lawful →
      Reachable L o s → Stuck s → Enabled L o s who a →
      Reachable L o (System.act L o s who a) ∧ Stuck (System.act L o s who a) ∧
      ∀ x : Peer, (System.act L o s who a x).st.lastAckReceived <
          (System.act L o s who a x).st.lastSendIndex ∧
        queuedPackets (System.act L o s who a x).events = queuedPackets (s x).events) := by
  refine ⟨?_, ?_, ?_, ?_⟩
  · exact
      Reachable.act _ Peer.server _
        (Reachable.act _ Peer.client _
          (Reachable.act _ Peer.server _
            (Reachable.act _ Peer.client _
              (Reachable.act _ Peer.server _
                (Reachable.act _ Peer.client _ (Reachable.init _) trivial)
                trivial)
              ⟨by decide, Or.inl rfl⟩)
            ⟨by decide, Or.inl rfl⟩)
          ⟨by decide, Or.inr (Or.inr ⟨Peer.server, by decide⟩)⟩)
        ⟨by decide, Or.inr (Or.inr ⟨Peer.client, by decide⟩)⟩
  · intro who
    cases who <;> decide
  · intro who
    cases who <;> decide
  · intro L o s who a hL hs hst hen
    have hpost := Stuck.stays L hL o s hs hst who a hen
    refine ⟨Reachable.act s who a hs hen, hpost, ?_⟩
    intro x
    obtain ⟨p1, p2, _⟩ := hpost x
    refine ⟨by rw [p1, p2]; decide, ?_⟩
    rcases Peer.eq_or_other who x with hx | hx
    · subst hx
      have hI := (Reachable.invariant L hL o s hs x).1.loop.lastSend
      have hP := (Reachable.invariant L hL o _ (Reachable.act s x a hs hen) x).1.loop.lastSend
      obtain ⟨e1, e2⟩ := System.act_same L o s x a
      rw [(hst x).2.1] at hI
      rw [p2, e2, queuedPackets_append, List.length_append] at hP
      have hlen : (queuedPackets (step L (o.channel x) (s x).st a).events).length = 0 := by
        omega
      rw [e2, queuedPackets_append, List.eq_nil_of_length_eq_zero hlen, List.append_nil]
    · subst hx
      rw [System.act_other L o s who who.other a (Peer.other_ne who)]
end Cliptun
